import Mathlib

/-!
Verification of the A11y Menu script (`src/a11y-menu.js`, version 1.0.0,
the latest of the versions shipped in the repository).

The script is a browser DOM-behaviour module.  We give a shallow embedding:

* JavaScript values that flow through the configuration object are modelled
  by the inductive type `JVal`.
* The DOM is modelled flatly: a document is a list of element records in
  document order, each holding its id, tag name, parent id and attribute
  list.  The `class` attribute doubles as the element's classList, exactly
  as in the DOM.  `document.activeElement` is the `active` field.
* CSS selectors that the script itself builds (`[aria-haspopup="true"]`,
  `button[aria-expanded]`, `a[href]`, `'.' + expandedClass`) are modelled
  structurally.  The two selectors that come from the configuration
  (`menu_selector`, `child_menu_selector`) are arbitrary strings whose
  semantics we model as predicates on elements, passed as parameters.
* A thrown JavaScript exception is modelled by `Option.none`; every partial
  operation of the script (property access on `null`, `classList` token
  validation, `indexOf` on a non-indexable value, walking past the document
  root) returns an `Option`.
* `link.focus()` is modelled as setting `active`; the synchronous re-dispatch
  of focus events that a real browser performs is outside the handler being
  modelled (the code's own focus handler is modelled separately).
* The non-standard `event.path` fast path of `getParents` is not modelled;
  we model the standard-DOM branch that walks `parentNode`.
-/

/-- JavaScript values as far as the script observes them. -/
inductive JVal where
  | undef : JVal
  | jnull : JVal
  | jbool : Bool → JVal
  | jnum : Int → JVal
  | jstr : String → JVal
  | jobj : List (String × JVal) → JVal
  | jarr : List JVal → JVal

/-- JavaScript `null != v` (loose inequality against null). -/
def JVal.isSet : JVal → Bool
  | .undef => false
  | .jnull => false
  | _ => true

/-- JavaScript truthiness. -/
def JVal.truthy : JVal → Bool
  | .undef => false
  | .jnull => false
  | .jbool b => b
  | .jnum n => n != 0
  | .jstr s => s != ""
  | .jobj _ => true
  | .jarr _ => true

/-- JavaScript `typeof v === 'string'`. -/
def JVal.isStr : JVal → Bool
  | .jstr _ => true
  | _ => false

/-- Property access `v[k]`.  Objects look the key up; arrays and strings
support numeric indices; on primitives the result is `undefined`.
(The script never dereferences properties of `null`/`undefined` without a
guard, so those cases do not arise where this total function is used.) -/
def JVal.getProp : JVal → String → JVal
  | .jobj fs, k => (fs.lookup k).getD JVal.undef
  | .jarr xs, k =>
    match k.toNat? with
    | some n => (xs.get? n).getD JVal.undef
    | none => JVal.undef
  | .jstr s, k =>
    match k.toNat? with
    | some n => ((s.toList.get? n).map (fun c => JVal.jstr (String.mk [c]))).getD JVal.undef
    | none => JVal.undef
  | _, _ => JVal.undef

/-- Stringification of one array element inside `Array.prototype.join`
(`null`/`undefined` become empty; nested arrays/objects are abbreviated,
the script never joins nested arrays). -/
def jvalShallowStr : JVal → String
  | .undef => ""
  | .jnull => ""
  | .jbool b => if b then "true" else "false"
  | .jnum n => toString n
  | .jstr s => s
  | .jobj _ => "[object Object]"
  | .jarr _ => ""

/-- JavaScript `String(v)` coercion, as used by `classList` operations and
`setAttribute`. -/
def jvalToString : JVal → String
  | .undef => "undefined"
  | .jnull => "null"
  | .jbool b => if b then "true" else "false"
  | .jnum n => toString n
  | .jstr s => s
  | .jobj _ => "[object Object]"
  | .jarr xs => String.intercalate "," (xs.map jvalShallowStr)

/-- `Object.keys(v)`: field names of an object, index strings of an array
or a string, `[]` on other primitives. -/
def jKeys : JVal → List String
  | .jobj fs => fs.map (fun p => p.1)
  | .jarr xs => (List.range xs.length).map toString
  | .jstr s => (List.range s.length).map toString
  | _ => []

/-- Characters kept by the `expanded_class` sanitizer regex
`[^a-zA-Z0-9\-_]`. -/
def isClassChar (c : Char) : Bool :=
  ('a' ≤ c && c ≤ 'z') || ('A' ≤ c && c ≤ 'Z') || ('0' ≤ c && c ≤ '9') || c = '-' || c = '_'

/-- `config[id].replace( /[^a-zA-Z0-9\-_]/g, '' )`. -/
def sanitizeClass (s : String) : String :=
  String.mk (s.toList.filter isClassChar)

/-- Default option values of `setOptions` (version 1.0.0). -/
def defaultOptions : List (String × JVal) :=
  [ ("button_attributes", JVal.jobj
      [ ("class", JVal.jstr "button-toggle-sub-menu"),
        ("aria-label", JVal.jobj
          [ ("collapse", JVal.jstr "Collapse child menu"),
            ("expand", JVal.jstr "Expand child menu") ]) ]),
    ("child_menu_selector", JVal.jstr ".sub-menu"),
    ("expanded_class", JVal.jstr "has-expanded-sub-menu"),
    ("menu_selector", JVal.jstr "nav .menu"),
    ("mode", JVal.jarr [JVal.jstr "tab", JVal.jstr "esc", JVal.jstr "button", JVal.jstr "touch"]) ]

/-- Replace the value stored under an existing key of an association list. -/
def assocSet (l : List (String × JVal)) (k : String) (v : JVal) : List (String × JVal) :=
  l.map (fun p => if p.1 = k then (k, v) else p)

/-- One step of the `for ( let id in config )` loop of `setOptions`: a key
that exists among the defaults overrides it, `expanded_class` being
sanitized first (`.replace` throws a TypeError — `none` — on a non-string
value); unknown keys are ignored. -/
def setOptionsStep (opts : List (String × JVal)) (kv : String × JVal) :
    Option (List (String × JVal)) :=
  if (opts.lookup kv.1).isSome then
    if kv.1 = "expanded_class" then
      match kv.2 with
      | .jstr s => some (assocSet opts kv.1 (JVal.jstr (sanitizeClass s)))
      | _ => none
    else
      some (assocSet opts kv.1 kv.2)
  else
    some opts

/-- `setOptions` of version 1.0.0: fold the configuration entries over the
default options. -/
def setOptions (config : List (String × JVal)) : Option (List (String × JVal)) :=
  config.foldlM setOptionsStep defaultOptions

/-- `getOption`: each label dives one level, a missing level yielding the
boolean `false`. -/
def getOption (opts : List (String × JVal)) (labels : List String) : JVal :=
  labels.foldl (fun v k => let w := v.getProp k; if w.isSet then w else JVal.jbool false)
    (JVal.jobj opts)

/-- Substring containment, modelling `String.prototype.indexOf(m) !== -1`. -/
def strIncludes (hay needle : String) : Bool :=
  if needle = "" then true else (hay.splitOn needle).length > 1

/-- `isMode`: `modes.indexOf(mode)` works on an array (strict-equality
search) or a string (substring search) and throws on anything else. -/
def isMode (opts : List (String × JVal)) (mode : String) : Option Bool :=
  match getOption opts ["mode"] with
  | .jarr xs => some (xs.any (fun x => match x with | .jstr t => t = mode | _ => false))
  | .jstr s => some (strIncludes s mode)
  | _ => none

/-- A DOM element: id, tag name, parent element id (none at the root),
attribute list and classList.  The classList is kept as an explicit token
list (the serialized `class` attribute is observed by nothing in the
script, so the two views never need reconciling). -/
structure ElemData where
  id : Nat
  tag : String
  parent : Option Nat
  attrs : List (String × String)
  classes : List String
deriving DecidableEq, Repr

/-- A document: elements in document order, plus `document.activeElement`. -/
structure DOM where
  elems : List ElemData
  active : Option Nat
deriving DecidableEq, Repr

/-- Attribute lookup on one element (`getAttribute`). -/
def attrOfE (e : ElemData) (n : String) : Option String :=
  e.attrs.lookup n

/-- `setAttribute` on an attribute list: overwrite in place, or append. -/
def setAttrList (attrs : List (String × String)) (n v : String) : List (String × String) :=
  if (attrs.lookup n).isSome then
    attrs.map (fun p => if p.1 = n then (n, v) else p)
  else
    attrs ++ [(n, v)]

/-- The classList denoted by a serialized `class` attribute (used when
`init` materializes a detached button description as an element). -/
def classListOfAttrs (attrs : List (String × String)) : List String :=
  (((attrs.lookup "class").getD "").splitOn " ").filter (fun t => t ≠ "")

/-- Selector `[aria-haspopup="true"]`. -/
def haspopupMatch (e : ElemData) : Bool :=
  attrOfE e "aria-haspopup" = some "true"

/-- Selector `button[aria-expanded]` (hard-coded in `changeButtonAttributes`). -/
def buttonMatch (e : ElemData) : Bool :=
  e.tag = "button" && (attrOfE e "aria-expanded").isSome

/-- Selector `a[href]`. -/
def linkMatch (e : ElemData) : Bool :=
  e.tag = "a" && (attrOfE e "href").isSome

/-- Look an element up by id. -/
def DOM.find? (d : DOM) (i : Nat) : Option ElemData :=
  d.elems.find? (fun e => e.id = i)

/-- `node.parentNode` (as an id). -/
def parentOf (d : DOM) (i : Nat) : Option Nat :=
  (d.find? i).bind (fun e => e.parent)

/-- `node.getAttribute(n)`. -/
def attrOf (d : DOM) (i : Nat) (n : String) : Option String :=
  (d.find? i).bind (fun e => attrOfE e n)

/-- `node.classList.contains(tok)` (contains performs no token validation). -/
def hasClass (d : DOM) (i : Nat) (tok : String) : Bool :=
  match d.find? i with
  | some e => e.classes.contains tok
  | none => false

/-- `node.matches('[aria-haspopup="true"]')`. -/
def matchesHaspopup (d : DOM) (i : Nat) : Bool :=
  match d.find? i with
  | some e => haspopupMatch e
  | none => false

/-- Rewrite the attribute list and the classList of the element with id
`i`; every mutation the script performs is an instance of this. -/
def overElem (d : DOM) (i : Nat)
    (fA : List (String × String) → List (String × String))
    (fC : List String → List String) : DOM :=
  { d with elems := d.elems.map (fun e =>
      if e.id = i then { e with attrs := fA e.attrs, classes := fC e.classes } else e) }

/-- `node.setAttribute(n, v)`. -/
def setAttr (d : DOM) (i : Nat) (n v : String) : DOM :=
  overElem d i (fun a => setAttrList a n v) id

/-- A token `classList.add`/`remove` accepts: non-empty and without
whitespace (otherwise the DOM throws). -/
def validClassTok (tok : String) : Bool :=
  tok ≠ "" && !(tok.toList.any (fun c => c = ' ' || c = '\t' || c = '\n' || c = '\r'))

/-- `node.classList.add(tok)`: append the token if absent. -/
def classAdd (d : DOM) (i : Nat) (tok : String) : Option DOM :=
  if validClassTok tok then
    some (overElem d i id (fun cs => if cs.contains tok then cs else cs ++ [tok]))
  else
    none

/-- `node.classList.remove(tok)`: drop the token. -/
def classRemove (d : DOM) (i : Nat) (tok : String) : Option DOM :=
  if validClassTok tok then
    some (overElem d i id (fun cs => cs.filter (fun t => t ≠ tok)))
  else
    none

/-- The chain of ancestor ids of `i` (nearest first), cut off by fuel. -/
def chainAux (d : DOM) : Nat → Nat → List Nat
  | 0, _ => []
  | fuel+1, i =>
    match parentOf d i with
    | none => []
    | some p => p :: chainAux d fuel p

/-- All ancestors of `i`; `d.elems.length` bounds any acyclic parent chain. -/
def ancestorIds (d : DOM) (i : Nat) : List Nat :=
  chainAux d d.elems.length i

/-- Is `anc` a strict ancestor of `i`? -/
def isDescOf (d : DOM) (anc i : Nat) : Bool :=
  (ancestorIds d i).contains anc

/-- The `while ( -1 === menus.indexOf( node ) )` loop of `getParents`: collect
nodes from `eventOrNode` upward, stopping at the first menu container;
`none` models the TypeError of walking past the document root. -/
def walkToMenu (d : DOM) (menus : List Nat) : Nat → Nat → Option (List Nat)
  | 0, _ => none
  | fuel+1, i =>
    if menus.contains i then some []
    else
      match parentOf d i with
      | none => none
      | some p => (walkToMenu d menus fuel p).map (fun l => i :: l)

/-- Fuel that lets `walkToMenu` traverse any acyclic parent chain. -/
def walkFuel (d : DOM) : Nat :=
  d.elems.length + 1

/-- `getParents(eventOrNode)` with its default selector: the walked chain
filtered by `[aria-haspopup="true"]`. -/
def getParentsF (d : DOM) (menus : List Nat) (start : Nat) : Option (List Nat) :=
  (walkToMenu d menus (walkFuel d) start).map (fun l => l.filter (fun i => matchesHaspopup d i))

/-- First descendant of `root` (in document order) satisfying `p`:
`root.querySelector(p)`. -/
def firstDescMatching (d : DOM) (root : Nat) (p : ElemData → Bool) : Option Nat :=
  ((d.elems.filter (fun e => isDescOf d root e.id && p e)).map (fun e => e.id)).head?

/-- `menuItem.querySelector('button[aria-expanded]')`. -/
def buttonOf (d : DOM) (i : Nat) : Option Nat :=
  firstDescMatching d i buttonMatch

/-- `getSiblings(node)` with its default selector: element children of the
parent, other than `node`, matching `[aria-haspopup="true"]`; `none` models
the TypeError on a parentless node. -/
def getSiblings (d : DOM) (i : Nat) : Option (List Nat) :=
  (parentOf d i).map (fun g =>
    (d.elems.filter (fun e => e.parent = some g && e.id ≠ i && haspopupMatch e)).map
      (fun e => e.id))

/-- `getMenus`: `document.querySelectorAll` on the stringified configured
`menu_selector`, or an empty list when the option is falsy.  `sem` is the
browser's selector engine: for a selector string it yields the predicate
the selector matches, or `none` for the `SyntaxError` an invalid selector
throws. -/
def getMenus (d : DOM) (opts : List (String × JVal))
    (sem : String → Option (ElemData → Bool)) : Option (List Nat) :=
  if (getOption opts ["menu_selector"]).truthy then
    (sem (jvalToString (getOption opts ["menu_selector"]))).map
      (fun p => (d.elems.filter p).map (fun e => e.id))
  else
    some []

/-- `changeButtonAttributes(eventOrNode)` of version 1.0.0: resolve the menu
item (already as `Option`, the `null != menuItem` guard), find its first
`button[aria-expanded]` descendant, mirror the expansion state into
`aria-label` (when the configured label is a non-string object with the
relevant field) and into `aria-expanded`. -/
def changeButtonAttrs (opts : List (String × JVal)) (d : DOM) (menuItem : Option Nat) : DOM :=
  match menuItem with
  | none => d
  | some mi =>
    match buttonOf d mi with
    | none => d
    | some b =>
      let cls := jvalToString (getOption opts ["expanded_class"])
      let isExp := hasClass d mi cls
      let lbl := getOption opts ["button_attributes", "aria-label"]
      let d1 :=
        if !lbl.isStr && lbl.isSet then
          if isExp && (lbl.getProp "collapse").isSet then
            setAttr d b "aria-label" (jvalToString (lbl.getProp "collapse"))
          else if !isExp && (lbl.getProp "expand").isSet then
            setAttr d b "aria-label" (jvalToString (lbl.getProp "expand"))
          else d
        else d
      setAttr d1 b "aria-expanded" (if isExp then "true" else "false")

/-- `onFocus(event)`: collect the `[aria-haspopup="true"]` parents up to the
menu container, add (focusin) or remove (focusout) the expanded class on
them, then, in `button` mode, refresh the button attributes of the event
target's parent and of every collected parent. -/
def onFocus (opts : List (String × JVal)) (menus : List Nat) (d : DOM)
    (evType : String) (target : Nat) : Option DOM := do
  let l ← walkToMenu d menus (walkFuel d) target
  let parents := l.filter (fun i => matchesHaspopup d i)
  let cls := jvalToString (getOption opts ["expanded_class"])
  let d1 ←
    if evType = "focusin" then
      parents.foldlM (fun dd p => classAdd dd p cls) d
    else
      parents.foldlM (fun dd p => classRemove dd p cls) d
  let bm ← isMode opts "button"
  if bm then
    let d2 := changeButtonAttrs opts d1 (parentOf d1 target)
    pure (parents.foldl (fun dd p => changeButtonAttrs opts dd (some p)) d2)
  else
    pure d1

/-- `onClickButton(event)`: ignore a keyup that is not Enter/Space; otherwise
clear the expanded class from the `[aria-haspopup="true"]` siblings of the
button's parent menu item, toggle it on the menu item itself, refresh the
button attributes of the item, the siblings and the filtered parents, and
prevent the default action.  The returned flag is `defaultPrevented`. -/
def onClickButton (opts : List (String × JVal)) (menus : List Nat) (d : DOM)
    (evType : String) (keyCode : Nat) (target : Nat) : Option (DOM × Bool) := do
  if evType = "keyup" && !([13, 32].contains keyCode) then
    pure (d, false)
  else
    let cls := jvalToString (getOption opts ["expanded_class"])
    let mi ← parentOf d target
    let isExp := hasClass d mi cls
    let siblings ← getSiblings d mi
    let d1 ← siblings.foldlM (fun dd s => classRemove dd s cls) d
    let d2 ← if isExp then classRemove d1 mi cls else classAdd d1 mi cls
    let d3 := changeButtonAttrs opts d2 (parentOf d2 target)
    let d4 := siblings.foldl (fun dd s => changeButtonAttrs opts dd (some s)) d3
    let l ← walkToMenu d4 menus (walkFuel d4) mi
    let parents := l.filter (fun i => matchesHaspopup d4 i)
    let d5 := parents.foldl (fun dd p => changeButtonAttrs opts dd (some p)) d4
    pure (d5, true)

/-- `onTouchLink(event)`: on a collapsed item, prevent the default action,
focus the link, clear the expanded class from the haspopup siblings and add
it to the filtered parents (refreshing buttons in `button` mode); on an
expanded item whose link is not the active element, prevent the default
action and collapse the item; otherwise let the event through. -/
def onTouchLink (opts : List (String × JVal)) (menus : List Nat) (d : DOM)
    (target : Nat) : Option (DOM × Bool) := do
  let cls := jvalToString (getOption opts ["expanded_class"])
  let mi ← parentOf d target
  if !hasClass d mi cls then
    let d0 : DOM := { d with active := some target }
    let siblings ← getSiblings d0 mi
    let l ← walkToMenu d0 menus (walkFuel d0) target
    let parents := l.filter (fun i => matchesHaspopup d0 i)
    let d1 ← siblings.foldlM (fun dd s => classRemove dd s cls) d0
    let d2 ← parents.foldlM (fun dd p => classAdd dd p cls) d1
    let bm ← isMode opts "button"
    let d3 :=
      if bm then
        let t := changeButtonAttrs opts d2 (parentOf d2 target)
        parents.foldl (fun dd p => changeButtonAttrs opts dd (some p)) t
      else d2
    pure (d3, true)
  else if d.active ≠ some target then
    let d1 ← classRemove d mi cls
    let bm ← isMode opts "button"
    let d2 := if bm then changeButtonAttrs opts d1 (parentOf d1 target) else d1
    pure (d2, true)
  else
    pure (d, false)

/-- One item of the `onKeyESC` inner loop: remove the expanded class and, in
`button` mode, refresh the item's button attributes. -/
def escItemStep (opts : List (String × JVal)) (cls : String) (d : DOM) (i : Nat) :
    Option DOM := do
  let d1 ← classRemove d i cls
  let bm ← isMode opts "button"
  pure (if bm then changeButtonAttrs opts d1 (some i) else d1)

/-- One menu of the `onKeyESC` outer loop:
`menu.querySelectorAll('.' + classExpanded)` (which throws on the invalid
selector built from an empty class) and process each matched item. -/
def escMenuStep (opts : List (String × JVal)) (cls : String) (d : DOM) (m : Nat) :
    Option DOM :=
  if cls = "" then none
  else
    let items := (d.elems.filter (fun e =>
      isDescOf d m e.id && e.classes.contains cls)).map (fun e => e.id)
    items.foldlM (escItemStep opts cls) d

/-- `onKeyESC(event)`: on keyCode 27, clear the expanded class from every
matched item of every configured menu. -/
def onKeyESC (opts : List (String × JVal)) (menus : List Nat) (d : DOM)
    (keyCode : Nat) : Option DOM :=
  if keyCode = 27 then
    let cls := jvalToString (getOption opts ["expanded_class"])
    menus.foldlM (escMenuStep opts cls) d
  else
    some d

/-- `0 === name.indexOf(p)`: does `name` start with `p`? -/
def strStarts (p name : String) : Bool :=
  p.toList.isPrefixOf name.toList

/-- `name.toLowerCase()`. -/
def lowerStr (s : String) : String :=
  String.mk (s.toList.map Char.toLower)

/-- Names `getButton` lets through: `class`, `tabindex`, `title`, `aria-*`,
`data-*`. -/
def allowedAttrName (name : String) : Bool :=
  ["class", "tabindex", "title"].contains name
    || strStarts "aria-" name || strStarts "data-" name

/-- Characters `Element.setAttribute` rejects in an attribute name: ASCII
whitespace, NUL, `/`, `=` and `>` (the DOM "valid attribute local name"
production). -/
def validAttrChar (c : Char) : Bool :=
  !(c = ' ' || c = '\t' || c = '\n' || c = '\x0c' || c = '\r' || c = '\x00'
    || c = '/' || c = '=' || c = '>')

/-- The name check of `Element.setAttribute`: a non-empty name of valid
characters; any other name throws `InvalidCharacterError`. -/
def validAttrName (s : String) : Bool :=
  s ≠ "" && s.toList.all validAttrChar

/-- `getButton(atts)` of version 1.0.0: `null` (inner `none`) when the
attribute object is empty or `button` mode is off; otherwise a detached
`button` element, represented by its attribute list: `aria-expanded="false"`
first, then the allowed configured attributes (names lower-cased), then the
dynamic `aria-label` preset from the `expand` field.  The outer `Option` is
the exception monad: `isMode` may throw, and `setAttribute` throws
`InvalidCharacterError` on an allowed name that is not a valid attribute
name once lower-cased. -/
def getButton (opts : List (String × JVal)) (attsIn : JVal) :
    Option (Option (List (String × String))) := do
  let atts := if attsIn.truthy then attsIn else JVal.jobj []
  let keys := jKeys atts
  if keys.isEmpty then
    pure none
  else do
    let bm ← isMode opts "button"
    if !bm then
      pure none
    else
      let a0 : List (String × String) := [("aria-expanded", "false")]
      let a1 ← keys.foldlM (fun acc name =>
        if allowedAttrName name then
          if validAttrName (lowerStr name) then
            some (setAttrList acc (lowerStr name) (jvalToString (atts.getProp name)))
          else
            none
        else some acc) a0
      let a2 :=
        if (atts.getProp "aria-label").isSet && ((atts.getProp "aria-label").getProp "expand").isSet then
          setAttrList a1 "aria-label" (jvalToString ((atts.getProp "aria-label").getProp "expand"))
        else a1
      pure (some a2)

/-- An attached event listener: event name and target element (none stands
for `document`). -/
structure Listener where
  eventName : String
  target : Option Nat
deriving DecidableEq, Repr

/-- Largest element id in use (for allocating the inserted buttons). -/
def maxId (d : DOM) : Nat :=
  d.elems.foldl (fun a e => max a e.id) 0

/-- `menuItem.insertBefore(newElem, anchor)`: place the new element directly
before the anchor in document order. -/
def insertBeforeElem (d : DOM) (anchor : Nat) (e : ElemData) : DOM :=
  { d with elems :=
      d.elems.takeWhile (fun x => x.id ≠ anchor)
        ++ e :: d.elems.dropWhile (fun x => x.id ≠ anchor) }

/-- The body of the `childMenus.forEach` loop of `init`: set
`aria-haspopup="true"` on the child menu's parent item, insert a clone of
the toggle button before the child menu (wiring its mousedown/keyup
listeners), and in `touch` mode wire `touchstart` on the item's first
`a[href]` descendant. -/
def initChildStep (opts : List (String × JVal)) (button : Option (List (String × String)))
    (acc : DOM × List Listener × Nat) (cm : Nat) : Option (DOM × List Listener × Nat) := do
  let (d, ls, ctr) := acc
  let mi ← parentOf d cm
  let d1 := setAttr d mi "aria-haspopup" "true"
  let (d2, ls2, ctr2) :=
    match button with
    | some battrs =>
      (insertBeforeElem d1 cm ⟨ctr, "button", some mi, battrs, classListOfAttrs battrs⟩,
       ls ++ [Listener.mk "mousedown" (some ctr), Listener.mk "keyup" (some ctr)], ctr + 1)
    | none => (d1, ls, ctr)
  let tm ← isMode opts "touch"
  if tm then
    match firstDescMatching d2 mi linkMatch with
    | some lk => pure (d2, ls2 ++ [Listener.mk "touchstart" (some lk)], ctr2)
    | none => pure (d2, ls2, ctr2)
  else
    pure (d2, ls2, ctr2)

/-- The body of the `getMenus().forEach` loop of `init`:
`menu.querySelectorAll` on the stringified configured `child_menu_selector`
(throwing on an invalid selector), skip a menu without child menus,
otherwise build the toggle button, process every child menu, and wire the
focus listeners (`tab` mode) and the document keyup listener (`esc`
mode). -/
def initMenu (opts : List (String × JVal)) (sem : String → Option (ElemData → Bool))
    (acc : DOM × List Listener × Nat) (menuId : Nat) : Option (DOM × List Listener × Nat) := do
  let (d, ls, ctr) := acc
  let cp ← sem (jvalToString (getOption opts ["child_menu_selector"]))
  let childMenus := (d.elems.filter (fun e => isDescOf d menuId e.id && cp e)).map
    (fun e => e.id)
  if childMenus.isEmpty then
    pure acc
  else do
    let button ← getButton opts (getOption opts ["button_attributes"])
    let (d1, ls1, ctr1) ← childMenus.foldlM (initChildStep opts button) (d, ls, ctr)
    let tm ← isMode opts "tab"
    let ls2 := if tm then ls1 ++ [Listener.mk "focusin" (some menuId), Listener.mk "focusout" (some menuId)] else ls1
    let em ← isMode opts "esc"
    let ls3 := if em then ls2 ++ [Listener.mk "keyup" none] else ls2
    pure (d1, ls3, ctr1)

/-- `init(options)` of version 1.0.0: set the options, query the menus
(which throws on an invalid configured selector), bail out when there is no
menu to process or the expanded class is empty, and otherwise process every
menu.  `sem` is the browser's selector engine, shared by the
`menu_selector` and `child_menu_selector` queries. -/
def a11yInit (d : DOM) (config : List (String × JVal))
    (sem : String → Option (ElemData → Bool)) : Option (DOM × List Listener) := do
  let opts ← setOptions config
  let menus ← getMenus d opts sem
  if menus.isEmpty || !(getOption opts ["expanded_class"]).truthy then
    pure (d, [])
  else do
    let (d1, ls, _) ← menus.foldlM (initMenu opts sem) (d, [], maxId d + 1)
    pure (d1, ls)

/-- Render a boolean the way `isExpanded.toString()` does. -/
def boolStr (b : Bool) : String :=
  if b then "true" else "false"

/-- The toggle button that belongs to a menu item: the item's
`querySelector('button[aria-expanded]')` result when that button is a
direct child of the item (as the buttons `init` inserts are). -/
def ownButton (d : DOM) (i : Nat) : Option Nat :=
  match buttonOf d i with
  | some b => if parentOf d b = some i then some b else none
  | none => none

/-- A menu item is in sync when its toggle button (if it has one) carries
`aria-expanded` mirroring the expanded class and the matching configured
label. -/
def itemSync (cls lc le : String) (d : DOM) (i : Nat) : Bool :=
  match ownButton d i with
  | none => true
  | some b =>
      attrOf d b "aria-expanded" == some (boolStr (hasClass d i cls))
        && attrOf d b "aria-label" == some (if hasClass d i cls then lc else le)

/-- Is the element a strict descendant of one of the configured menus? -/
def inMenus (d : DOM) (menus : List Nat) (i : Nat) : Bool :=
  menus.any (fun m => isDescOf d m i)

/-- The claimed invariant: every menu item with a toggle button inside a
configured menu is in sync. -/
def buttonsInSync (cls lc le : String) (menus : List Nat) (d : DOM) : Bool :=
  d.elems.all (fun e => !inMenus d menus e.id || itemSync cls lc le d e.id)

/-- Refreshing the button attributes of element `i` only touches `i`'s own
button: `i`'s `querySelector` result, when it exists, is a direct child. -/
def syncSafe (d : DOM) (i : Nat) : Bool :=
  match buttonOf d i with
  | none => true
  | some b => parentOf d b == some i

/-- The three primitive mutations the event handlers perform, as reified
operations (used to factor the handler proofs). -/
inductive MOp where
  | addC : Nat → MOp
  | rmC : Nat → MOp
  | syncB : Nat → MOp
deriving DecidableEq, Repr

/-- Run one reified operation. -/
def runOp (opts : List (String × JVal)) (cls : String) (d : DOM) : MOp → Option DOM
  | .addC i => classAdd d i cls
  | .rmC i => classRemove d i cls
  | .syncB i => some (changeButtonAttrs opts d (some i))

/-- Run a list of reified operations. -/
def runScript (opts : List (String × JVal)) (cls : String) (script : List MOp) (d : DOM) :
    Option DOM :=
  script.foldlM (runOp opts cls) d

/-- The items a script refreshes buttons for. -/
def needSync (script : List MOp) : List Nat :=
  script.filterMap (fun op => match op with | .syncB i => some i | _ => none)

/-- Every class mutation of the script is followed by a button refresh of
the same item. -/
def covered : List MOp → Bool
  | [] => true
  | .addC i :: rest => (needSync rest).contains i && covered rest
  | .rmC i :: rest => (needSync rest).contains i && covered rest
  | .syncB _ :: rest => covered rest

/-- Concrete fixture: the expanded class, collapse label and expand label of
the default configuration. -/
def wCls : String := "has-expanded-sub-menu"

/-- Default collapse label. -/
def wLc : String := "Collapse child menu"

/-- Default expand label. -/
def wLe : String := "Expand child menu"

/-- Concrete fixture: a menu (`ul.menu`, id 0) with two expandable items.
Item A (id 1) is expanded and holds a link (2), its toggle button (3) and
its child menu (4) containing a link (9).  Item B (id 5) is collapsed and
holds a link (6), its toggle button (7) and its child menu (8).  This is
the post-`init` shape of the markup the script targets. -/
def wElems : List ElemData :=
  [ ⟨0, "ul", none, [], ["menu"]⟩,
    ⟨1, "li", some 0, [("aria-haspopup", "true")], ["has-expanded-sub-menu"]⟩,
    ⟨2, "a", some 1, [("href", "#a")], []⟩,
    ⟨3, "button", some 1,
      [("aria-expanded", "true"), ("aria-label", "Collapse child menu")],
      ["button-toggle-sub-menu"]⟩,
    ⟨4, "ul", some 1, [], ["sub-menu"]⟩,
    ⟨9, "a", some 4, [("href", "#a1")], []⟩,
    ⟨5, "li", some 0, [("aria-haspopup", "true")], []⟩,
    ⟨6, "a", some 5, [("href", "#b")], []⟩,
    ⟨7, "button", some 5,
      [("aria-expanded", "false"), ("aria-label", "Expand child menu")],
      ["button-toggle-sub-menu"]⟩,
    ⟨8, "ul", some 5, [], ["sub-menu"]⟩ ]

/-- The fixture document. -/
def wDom : DOM :=
  ⟨wElems, none⟩

/-- Semantics of a menu selector matching class `menu`. -/
def wMenuPred (e : ElemData) : Bool :=
  e.classes.contains "menu"

/-- Semantics of the default child menu selector `.sub-menu`. -/
def wChildPred (e : ElemData) : Bool :=
  e.classes.contains "sub-menu"

/-- A concrete selector engine for the fixtures: it parses the two default
selectors and rejects (throws on) every other selector string. -/
def wSem (sel : String) : Option (ElemData → Bool) :=
  if sel = "nav .menu" then some wMenuPred
  else if sel = ".sub-menu" then some wChildPred
  else none

/-- Concrete fixture: the same menu before `init` ran (no buttons, no
`aria-haspopup`). -/
def wPreElems : List ElemData :=
  [ ⟨0, "ul", none, [], ["menu"]⟩,
    ⟨1, "li", some 0, [], []⟩,
    ⟨2, "a", some 1, [("href", "#a")], []⟩,
    ⟨4, "ul", some 1, [], ["sub-menu"]⟩,
    ⟨9, "a", some 4, [("href", "#a1")], []⟩ ]

/-- The pre-`init` fixture document. -/
def wPreDom : DOM :=
  ⟨wPreElems, none⟩

/-- The attribute list `getButton` builds for a non-empty attribute object
(named for use in proofs; `getButton` itself stays the translation of the
source). -/
def gbResult (fields : List (String × JVal)) : List (String × String) :=
  let atts := JVal.jobj fields
  let a1 := (fields.map (fun p => p.1)).foldl (fun acc name =>
    if allowedAttrName name then
      setAttrList acc (lowerStr name) (jvalToString (atts.getProp name))
    else acc) [("aria-expanded", "false")]
  if (atts.getProp "aria-label").isSet
      && ((atts.getProp "aria-label").getProp "expand").isSet then
    setAttrList a1 "aria-label" (jvalToString ((atts.getProp "aria-label").getProp "expand"))
  else a1

/-- An element found by id carries that id. -/
theorem find?_id {d : DOM} {j : Nat} {e : ElemData} (h : d.find? j = some e) : e.id = j := by
  unfold DOM.find? at h
  have := List.find?_some h
  simpa using this

/-- Auxiliary list fact: `find?` by id commutes with an id-preserving map. -/
theorem find?_map_idkeep {g : ElemData → ElemData} (hg : ∀ e, (g e).id = e.id) (j : Nat) :
    ∀ l : List ElemData,
      (l.map g).find? (fun e => e.id = j) = (l.find? (fun e => e.id = j)).map g := by
  intro l
  induction l with
  | nil => rfl
  | cons e es ih =>
    rw [List.map_cons, List.find?_cons, List.find?_cons]
    by_cases he : e.id = j
    · simp [hg, he]
    · simp only [hg, he, decide_False]
      simpa using ih

/-- Auxiliary list fact: with distinct ids, membership determines `find?`. -/
theorem find?_of_mem_id {x : ElemData} {i : Nat} :
    ∀ {l : List ElemData}, (l.map (fun e => e.id)).Nodup → x ∈ l → x.id = i →
      l.find? (fun e => e.id = i) = some x := by
  intro l
  induction l with
  | nil => intro _ hx; cases hx
  | cons e es ih =>
    intro hnd hx hid
    simp only [List.map_cons, List.nodup_cons] at hnd
    rcases List.mem_cons.mp hx with h | h
    · subst h
      simp [List.find?_cons, hid]
    · have hne : e.id ≠ i := by
        intro hcontra
        exact hnd.1 (hcontra ▸ hid ▸ List.mem_map_of_mem (fun y => y.id) h)
      simp only [List.find?_cons, hne, decide_False]
      exact ih hnd.2 h hid

/-- With distinct ids, membership determines the `find?` result. -/
theorem mem_id_find? {d : DOM} {x : ElemData} {i : Nat}
    (hnd : (d.elems.map (fun e => e.id)).Nodup) (hx : x ∈ d.elems) (hid : x.id = i) :
    d.find? i = some x :=
  find?_of_mem_id hnd hx hid

/-- `find?` through `overElem`. -/
theorem find?_overElem (d : DOM) (i : Nat) (fA : List (String × String) → List (String × String))
    (fC : List String → List String) (j : Nat) :
    (overElem d i fA fC).find? j
      = (d.find? j).map (fun e =>
          if e.id = i then { e with attrs := fA e.attrs, classes := fC e.classes } else e) := by
  unfold overElem DOM.find?
  apply find?_map_idkeep
  intro e
  by_cases h : e.id = i <;> simp [h]

/-- `overElem` keeps parents. -/
theorem parentOf_overElem (d : DOM) (i : Nat) (fA) (fC) (j : Nat) :
    parentOf (overElem d i fA fC) j = parentOf d j := by
  unfold parentOf
  rw [find?_overElem]
  cases d.find? j with
  | none => rfl
  | some e => by_cases h : e.id = i <;> simp [h]

/-- `overElem` keeps the element count. -/
theorem length_overElem (d : DOM) (i : Nat) (fA) (fC) :
    (overElem d i fA fC).elems.length = d.elems.length := by
  simp [overElem]

/-- `overElem` keeps ancestor chains. -/
theorem chainAux_overElem (d : DOM) (i : Nat) (fA) (fC) :
    ∀ n j, chainAux (overElem d i fA fC) n j = chainAux d n j := by
  intro n
  induction n with
  | zero => intro j; rfl
  | succ n ih =>
    intro j
    unfold chainAux
    rw [parentOf_overElem]
    cases parentOf d j <;> simp [ih]

/-- `overElem` keeps ancestor lists. -/
theorem ancestorIds_overElem (d : DOM) (i : Nat) (fA) (fC) (j : Nat) :
    ancestorIds (overElem d i fA fC) j = ancestorIds d j := by
  unfold ancestorIds
  rw [length_overElem, chainAux_overElem]

/-- `overElem` keeps descendant relationships. -/
theorem isDescOf_overElem (d : DOM) (i : Nat) (fA) (fC) (a j : Nat) :
    isDescOf (overElem d i fA fC) a j = isDescOf d a j := by
  unfold isDescOf
  rw [ancestorIds_overElem]

/-- `overElem` keeps the `getParents` walk. -/
theorem walkToMenu_overElem (d : DOM) (i : Nat) (fA) (fC) (menus : List Nat) :
    ∀ n j, walkToMenu (overElem d i fA fC) menus n j = walkToMenu d menus n j := by
  intro n
  induction n with
  | zero => intro j; rfl
  | succ n ih =>
    intro j
    unfold walkToMenu
    rw [parentOf_overElem]
    cases parentOf d j <;> simp [ih]

/-- `overElem` keeps `inMenus`. -/
theorem inMenus_overElem (d : DOM) (i : Nat) (fA) (fC) (menus : List Nat) (j : Nat) :
    inMenus (overElem d i fA fC) menus j = inMenus d menus j := by
  unfold inMenus
  simp only [isDescOf_overElem]

/-- `overElem` keeps the id multiset (hence id distinctness). -/
theorem ids_overElem (d : DOM) (i : Nat) (fA) (fC) :
    (overElem d i fA fC).elems.map (fun e => e.id) = d.elems.map (fun e => e.id) := by
  unfold overElem
  simp only [List.map_map]
  apply List.map_congr_left
  intro e _
  by_cases h : e.id = i <;> simp [h]

/-- Attribute reads that the rewrite does not touch are kept. -/
theorem attrOf_overElem_keep {fA : List (String × String) → List (String × String)}
    (d : DOM) (i : Nat) (fC) (j : Nat) (n : String)
    (hk : ∀ a, (fA a).lookup n = a.lookup n) :
    attrOf (overElem d i fA fC) j n = attrOf d j n := by
  unfold attrOf
  rw [find?_overElem]
  cases d.find? j with
  | none => rfl
  | some e =>
    by_cases h : e.id = i <;> simp [h, attrOfE, hk]

/-- Attribute reads on other elements are kept. -/
theorem attrOf_overElem_ne (d : DOM) (i : Nat) (fA) (fC) {j : Nat} (n : String) (h : j ≠ i) :
    attrOf (overElem d i fA fC) j n = attrOf d j n := by
  unfold attrOf
  rw [find?_overElem]
  cases hf : d.find? j with
  | none => rfl
  | some e =>
    have : e.id = j := find?_id hf
    simp [this, h]

/-- Class reads on other elements are kept. -/
theorem hasClass_overElem_ne (d : DOM) (i : Nat) (fA) (fC) {j : Nat} (t : String) (h : j ≠ i) :
    hasClass (overElem d i fA fC) j t = hasClass d j t := by
  unfold hasClass
  rw [find?_overElem]
  cases hf : d.find? j with
  | none => rfl
  | some e =>
    have : e.id = j := find?_id hf
    simp [this, h]

/-- Class reads through an attribute-only rewrite are kept. -/
theorem hasClass_overElem_attrs (d : DOM) (i : Nat) (fA) (j : Nat) (t : String) :
    hasClass (overElem d i fA id) j t = hasClass d j t := by
  unfold hasClass
  rw [find?_overElem]
  cases d.find? j with
  | none => rfl
  | some e => by_cases h : e.id = i <;> simp [h]

/-- The class read on the rewritten element. -/
theorem hasClass_overElem_self {d : DOM} {i : Nat} (fA) (fC) {e : ElemData}
    (hf : d.find? i = some e) (t : String) :
    hasClass (overElem d i fA fC) i t = (fC e.classes).contains t := by
  unfold hasClass
  rw [find?_overElem, hf]
  have : e.id = i := find?_id hf
  simp [this]

/-- `matches('[aria-haspopup="true"]')` is kept when the rewrite keeps the
`aria-haspopup` attribute. -/
theorem matchesHaspopup_overElem {fA : List (String × String) → List (String × String)}
    (d : DOM) (i : Nat) (fC) (j : Nat)
    (hk : ∀ a, (fA a).lookup "aria-haspopup" = a.lookup "aria-haspopup") :
    matchesHaspopup (overElem d i fA fC) j = matchesHaspopup d j := by
  unfold matchesHaspopup
  rw [find?_overElem]
  cases d.find? j with
  | none => rfl
  | some e =>
    by_cases h : e.id = i <;> simp [h, haspopupMatch, attrOfE, hk]

/-- Auxiliary list fact: filtered id projections through an id-preserving
map agree when the filters agree pointwise. -/
theorem filtermap_id_congr {g : ElemData → ElemData} (hg : ∀ e, (g e).id = e.id)
    {p q : ElemData → Bool} (hpq : ∀ e, p (g e) = q e) :
    ∀ l : List ElemData,
      ((l.map g).filter p).map (fun e => e.id) = (l.filter q).map (fun e => e.id) := by
  intro l
  induction l with
  | nil => rfl
  | cons e es ih =>
    rw [List.map_cons, List.filter_cons, List.filter_cons, hpq e]
    cases q e <;> simp [hg, ih]

/-- Auxiliary list fact: an id-based `all` through an id-preserving map. -/
theorem all_id_map {g : ElemData → ElemData} (hg : ∀ e, (g e).id = e.id) (q : Nat → Bool) :
    ∀ l : List ElemData, (l.map g).all (fun e => q e.id) = l.all (fun e => q e.id) := by
  intro l
  induction l with
  | nil => rfl
  | cons e es ih => simp [hg, ih]

/-- The element list produced by `overElem`. -/
theorem overElem_shape (d : DOM) (i : Nat)
    (fA : List (String × String) → List (String × String)) (fC : List String → List String) :
    (overElem d i fA fC).elems = d.elems.map (fun e =>
      if e.id = i then { e with attrs := fA e.attrs, classes := fC e.classes } else e) := rfl

/-- Ids are preserved by the per-element rewrite of `overElem`. -/
theorem overElem_id_keep (i : Nat)
    (fA : List (String × String) → List (String × String)) (fC : List String → List String)
    (e : ElemData) :
    (if e.id = i then { e with attrs := fA e.attrs, classes := fC e.classes } else e).id = e.id := by
  by_cases h : e.id = i <;> simp [h]

/-- `querySelector('button[aria-expanded]')` is kept when the rewrite keeps
the presence of `aria-expanded`. -/
theorem buttonOf_overElem {fA : List (String × String) → List (String × String)}
    (d : DOM) (i : Nat) (fC : List String → List String) (j : Nat)
    (hk : ∀ a, ((fA a).lookup "aria-expanded").isSome = (a.lookup "aria-expanded").isSome) :
    buttonOf (overElem d i fA fC) j = buttonOf d j := by
  unfold buttonOf firstDescMatching
  have hd : ∀ a b, isDescOf (overElem d i fA fC) a b = isDescOf d a b :=
    isDescOf_overElem d i fA fC
  rw [overElem_shape]
  rw [filtermap_id_congr (overElem_id_keep i fA fC)]
  intro e
  by_cases h : e.id = i
  · simp [hd, h, buttonMatch, attrOfE, hk]
  · simp [hd, h]

/-- `getSiblings` is kept when the rewrite keeps `aria-haspopup`. -/
theorem getSiblings_overElem {fA : List (String × String) → List (String × String)}
    (d : DOM) (i : Nat) (fC : List String → List String) (j : Nat)
    (hk : ∀ a, (fA a).lookup "aria-haspopup" = a.lookup "aria-haspopup") :
    getSiblings (overElem d i fA fC) j = getSiblings d j := by
  unfold getSiblings
  rw [parentOf_overElem]
  cases parentOf d j with
  | none => rfl
  | some g =>
    simp only [Option.map_some']
    congr 1
    rw [overElem_shape]
    rw [filtermap_id_congr (overElem_id_keep i fA fC)]
    intro e
    by_cases h : e.id = i <;> simp [h, haspopupMatch, attrOfE, hk]

/-- `ownButton` is kept under the same conditions as `buttonOf`. -/
theorem ownButton_overElem {fA : List (String × String) → List (String × String)}
    (d : DOM) (i : Nat) (fC : List String → List String) (j : Nat)
    (hk : ∀ a, ((fA a).lookup "aria-expanded").isSome = (a.lookup "aria-expanded").isSome) :
    ownButton (overElem d i fA fC) j = ownButton d j := by
  unfold ownButton
  rw [buttonOf_overElem d i fC j hk]
  cases buttonOf d j with
  | none => rfl
  | some b => simp [parentOf_overElem]

/-- `syncSafe` is kept under the same conditions as `buttonOf`. -/
theorem syncSafe_overElem {fA : List (String × String) → List (String × String)}
    (d : DOM) (i : Nat) (fC : List String → List String) (j : Nat)
    (hk : ∀ a, ((fA a).lookup "aria-expanded").isSome = (a.lookup "aria-expanded").isSome) :
    syncSafe (overElem d i fA fC) j = syncSafe d j := by
  unfold syncSafe
  rw [buttonOf_overElem d i fC j hk]
  cases buttonOf d j with
  | none => rfl
  | some b => simp [parentOf_overElem]


/-- Lookup through the overwrite map used by `setAttrList`. -/
theorem lookup_map_overwrite (n v m : String) :
    ∀ a : List (String × String),
      (a.map (fun p => if p.1 = n then (n, v) else p)).lookup m
        = if m = n then (a.lookup n).map (fun _ => v) else a.lookup m := by
  intro a
  induction a with
  | nil => by_cases hmn : m = n <;> simp [List.lookup, hmn]
  | cons p ps ih =>
    rcases p with ⟨k, w⟩
    simp only [List.map_cons]
    by_cases hk : k = n
    · rw [if_pos hk]
      by_cases hmn : m = n
      · subst hmn
        simp [List.lookup_cons, hk]
      · have hb : (m == n) = false := beq_false_of_ne hmn
        have hbk : (m == k) = false := beq_false_of_ne (fun hc => hmn (hc.trans hk))
        simp only [List.lookup_cons, hb, hbk, if_neg hmn]
        rw [ih, if_neg hmn]
    · rw [if_neg hk]
      by_cases hmk : m = k
      · have hmn : m ≠ n := fun hc => hk ((hmk.symm.trans hc) ▸ rfl)
        rw [if_neg hmn]
        simp [List.lookup_cons, hmk]
      · have hb : (m == k) = false := beq_false_of_ne hmk
        have hbn : (n == k) = false := beq_false_of_ne (fun hc => hk hc.symm)
        simp only [List.lookup_cons, hb, hbn]
        exact ih

/-- Lookup skips an absent-key prefix. -/
theorem lookup_append_right (m : String) :
    ∀ a b : List (String × String), a.lookup m = none → (a ++ b).lookup m = b.lookup m := by
  intro a
  induction a with
  | nil => intro b _; rfl
  | cons p ps ih =>
    intro b h
    rcases p with ⟨k, w⟩
    cases hb : (m == k) with
    | true => simp [List.lookup_cons, hb] at h
    | false =>
      simp only [List.lookup_cons, hb] at h
      simpa [List.lookup_cons, hb] using ih b h

/-- Lookup stays in a prefix that has the key. -/
theorem lookup_append_left (m : String) {w : String} :
    ∀ a b : List (String × String), a.lookup m = some w → (a ++ b).lookup m = some w := by
  intro a
  induction a with
  | nil => intro b h; simp [List.lookup] at h
  | cons p ps ih =>
    intro b h
    rcases p with ⟨k, w'⟩
    cases hb : (m == k) with
    | true =>
      simp only [List.lookup_cons, hb] at h
      simpa [List.lookup_cons, hb] using h
    | false =>
      simp only [List.lookup_cons, hb] at h
      simpa [List.lookup_cons, hb] using ih b h

/-- Looking up the key just written by `setAttrList`. -/
theorem lookup_setAttrList_self (n v : String) :
    ∀ a : List (String × String), (setAttrList a n v).lookup n = some v := by
  intro a
  unfold setAttrList
  by_cases hs : (a.lookup n).isSome
  · rw [if_pos hs, lookup_map_overwrite, if_pos rfl]
    rcases ho : a.lookup n with _ | w
    · rw [ho] at hs; simp at hs
    · simp
  · rw [if_neg hs]
    have hn : a.lookup n = none := Option.not_isSome_iff_eq_none.mp hs
    rw [lookup_append_right n a [(n, v)] hn]
    simp [List.lookup_cons]

/-- Looking up a different key through `setAttrList`. -/
theorem lookup_setAttrList_ne {m n : String} (v : String) (h : m ≠ n) :
    ∀ a : List (String × String), (setAttrList a n v).lookup m = a.lookup m := by
  intro a
  unfold setAttrList
  by_cases hs : (a.lookup n).isSome
  · rw [if_pos hs, lookup_map_overwrite, if_neg h]
  · rw [if_neg hs]
    rcases ho : a.lookup m with _ | w
    · rw [lookup_append_right m a [(n, v)] ho]
      simp [List.lookup_cons, beq_false_of_ne h]
    · exact lookup_append_left m a [(n, v)] ho

/-- `setAttrList` keeps the presence of any other key and makes the written
key present. -/
theorem isSome_lookup_setAttrList (n v m : String) (a : List (String × String)) :
    ((setAttrList a n v).lookup m).isSome = (if m = n then true else (a.lookup m).isSome) := by
  by_cases hmn : m = n
  · subst hmn
    rw [lookup_setAttrList_self, if_pos rfl]
    rfl
  · rw [lookup_setAttrList_ne v hmn, if_neg hmn]

/-- Membership-based variant of `filtermap_id_congr`. -/
theorem filtermap_id_congr_mem {g : ElemData → ElemData} (hg : ∀ e, (g e).id = e.id)
    {p q : ElemData → Bool} :
    ∀ l : List ElemData, (∀ e ∈ l, p (g e) = q e) →
      ((l.map g).filter p).map (fun e => e.id) = (l.filter q).map (fun e => e.id) := by
  intro l
  induction l with
  | nil => intro _; rfl
  | cons e es ih =>
    intro hpq
    rw [List.map_cons, List.filter_cons, List.filter_cons, hpq e (List.mem_cons_self e es)]
    have ih2 := ih (fun x hx => hpq x (List.mem_cons_of_mem e hx))
    cases q e <;> simp [hg, ih2]

/-- Distinct ids make the id projection injective on members. -/
theorem id_unique {d : DOM} (hnd : (d.elems.map (fun e => e.id)).Nodup)
    {x y : ElemData} (hx : x ∈ d.elems) (hy : y ∈ d.elems) (h : x.id = y.id) : x = y := by
  exact List.inj_on_of_nodup_map hnd hx hy h

/-- `buttonOf` through `overElem`, when the rewrite keeps the presence of
`aria-expanded` on every element that carries the touched id. -/
theorem buttonOf_overElem_mem {fA : List (String × String) → List (String × String)}
    (d : DOM) (i : Nat) (fC : List String → List String) (j : Nat)
    (hk : ∀ x ∈ d.elems, x.id = i →
        ((fA x.attrs).lookup "aria-expanded").isSome = (x.attrs.lookup "aria-expanded").isSome) :
    buttonOf (overElem d i fA fC) j = buttonOf d j := by
  unfold buttonOf firstDescMatching
  have hd : ∀ a b, isDescOf (overElem d i fA fC) a b = isDescOf d a b :=
    isDescOf_overElem d i fA fC
  rw [overElem_shape]
  rw [filtermap_id_congr_mem (overElem_id_keep i fA fC)]
  intro e he
  by_cases h : e.id = i
  · simp [hd, h, buttonMatch, attrOfE, hk e he h]
  · simp [hd, h]

/-- Auxiliary list fact: the head of a list is a member. -/
theorem head?_mem_aux {α : Type} {l : List α} {b : α} (h : l.head? = some b) : b ∈ l := by
  cases l with
  | nil => cases h
  | cons x xs =>
    simp only [List.head?_cons, Option.some.injEq] at h
    subst h
    exact List.mem_cons_self x xs

/-- The element a non-`none` `buttonOf` points at. -/
theorem buttonOf_spec {d : DOM} {mi b : Nat} (h : buttonOf d mi = some b) :
    ∃ x ∈ d.elems, x.id = b ∧ isDescOf d mi b = true ∧ buttonMatch x = true := by
  unfold buttonOf firstDescMatching at h
  have hmem := head?_mem_aux h
  rcases List.mem_map.mp hmem with ⟨x, hxf, hxid⟩
  rcases List.mem_filter.mp hxf with ⟨hxl, hxp⟩
  rcases (Bool.and_eq_true _ _).mp hxp with ⟨hdesc, hbm⟩
  exact ⟨x, hxl, hxid, hxid ▸ hdesc, hbm⟩

/-- The shape a successful `classAdd` produces. -/
theorem classAdd_eq {d : DOM} {i : Nat} {tok : String} {d' : DOM}
    (h : classAdd d i tok = some d') :
    d' = overElem d i id (fun cs => if cs.contains tok then cs else cs ++ [tok]) := by
  unfold classAdd at h
  by_cases hv : validClassTok tok
  · rw [if_pos hv] at h
    exact (Option.some.injEq _ _ ▸ h).symm
  · rw [if_neg hv] at h
    cases h

/-- The shape a successful `classRemove` produces. -/
theorem classRemove_eq {d : DOM} {i : Nat} {tok : String} {d' : DOM}
    (h : classRemove d i tok = some d') :
    d' = overElem d i id (fun cs => cs.filter (fun t => t ≠ tok)) := by
  unfold classRemove at h
  by_cases hv : validClassTok tok
  · rw [if_pos hv] at h
    exact (Option.some.injEq _ _ ▸ h).symm
  · rw [if_neg hv] at h
    cases h

/-- Structural facts preserved by a successful `classAdd`. -/
theorem classAdd_frame {d : DOM} {i : Nat} {tok : String} {d' : DOM}
    (h : classAdd d i tok = some d') :
    (∀ j, parentOf d' j = parentOf d j)
      ∧ (∀ a b, isDescOf d' a b = isDescOf d a b)
      ∧ (d'.elems.map (fun e => e.id) = d.elems.map (fun e => e.id))
      ∧ (∀ j n, attrOf d' j n = attrOf d j n)
      ∧ (∀ j, buttonOf d' j = buttonOf d j)
      ∧ (∀ j, ownButton d' j = ownButton d j)
      ∧ (∀ j, syncSafe d' j = syncSafe d j)
      ∧ (∀ j, matchesHaspopup d' j = matchesHaspopup d j)
      ∧ (∀ j, getSiblings d' j = getSiblings d j)
      ∧ (∀ menus n j, walkToMenu d' menus n j = walkToMenu d menus n j)
      ∧ d'.elems.length = d.elems.length
      ∧ d'.active = d.active := by
  rw [classAdd_eq h]
  refine ⟨parentOf_overElem d i _ _, isDescOf_overElem d i _ _, ids_overElem d i _ _,
    fun j n => attrOf_overElem_keep d i _ j n (fun a => rfl),
    fun j => buttonOf_overElem d i _ j (fun a => rfl),
    fun j => ownButton_overElem d i _ j (fun a => rfl),
    fun j => syncSafe_overElem d i _ j (fun a => rfl),
    fun j => matchesHaspopup_overElem d i _ j (fun a => rfl),
    fun j => getSiblings_overElem d i _ j (fun a => rfl),
    fun menus n j => walkToMenu_overElem d i _ _ menus n j,
    length_overElem d i _ _, rfl⟩

/-- Structural facts preserved by a successful `classRemove`. -/
theorem classRemove_frame {d : DOM} {i : Nat} {tok : String} {d' : DOM}
    (h : classRemove d i tok = some d') :
    (∀ j, parentOf d' j = parentOf d j)
      ∧ (∀ a b, isDescOf d' a b = isDescOf d a b)
      ∧ (d'.elems.map (fun e => e.id) = d.elems.map (fun e => e.id))
      ∧ (∀ j n, attrOf d' j n = attrOf d j n)
      ∧ (∀ j, buttonOf d' j = buttonOf d j)
      ∧ (∀ j, ownButton d' j = ownButton d j)
      ∧ (∀ j, syncSafe d' j = syncSafe d j)
      ∧ (∀ j, matchesHaspopup d' j = matchesHaspopup d j)
      ∧ (∀ j, getSiblings d' j = getSiblings d j)
      ∧ (∀ menus n j, walkToMenu d' menus n j = walkToMenu d menus n j)
      ∧ d'.elems.length = d.elems.length
      ∧ d'.active = d.active := by
  rw [classRemove_eq h]
  refine ⟨parentOf_overElem d i _ _, isDescOf_overElem d i _ _, ids_overElem d i _ _,
    fun j n => attrOf_overElem_keep d i _ j n (fun a => rfl),
    fun j => buttonOf_overElem d i _ j (fun a => rfl),
    fun j => ownButton_overElem d i _ j (fun a => rfl),
    fun j => syncSafe_overElem d i _ j (fun a => rfl),
    fun j => matchesHaspopup_overElem d i _ j (fun a => rfl),
    fun j => getSiblings_overElem d i _ j (fun a => rfl),
    fun menus n j => walkToMenu_overElem d i _ _ menus n j,
    length_overElem d i _ _, rfl⟩

/-- `classAdd` does not touch other elements' classLists. -/
theorem classAdd_hasClass_ne {d : DOM} {i : Nat} {tok : String} {d' : DOM}
    (h : classAdd d i tok = some d') {j : Nat} (hj : j ≠ i) (t : String) :
    hasClass d' j t = hasClass d j t := by
  rw [classAdd_eq h]
  exact hasClass_overElem_ne d i _ _ t hj

/-- `classRemove` does not touch other elements' classLists. -/
theorem classRemove_hasClass_ne {d : DOM} {i : Nat} {tok : String} {d' : DOM}
    (h : classRemove d i tok = some d') {j : Nat} (hj : j ≠ i) (t : String) :
    hasClass d' j t = hasClass d j t := by
  rw [classRemove_eq h]
  exact hasClass_overElem_ne d i _ _ t hj

/-- After `classAdd` the target element (when present) has the token. -/
theorem classAdd_hasClass_self {d : DOM} {i : Nat} {tok : String} {d' : DOM}
    (h : classAdd d i tok = some d') {e : ElemData} (hf : d.find? i = some e) :
    hasClass d' i tok = true := by
  rw [classAdd_eq h, hasClass_overElem_self _ _ hf]
  by_cases hc : tok ∈ e.classes <;> simp [List.elem_iff, hc]

/-- After `classRemove` the target element does not have the token. -/
theorem classRemove_hasClass_self {d : DOM} {i : Nat} {tok : String} {d' : DOM}
    (h : classRemove d i tok = some d') :
    hasClass d' i tok = false := by
  rw [classRemove_eq h]
  unfold hasClass
  rw [find?_overElem]
  cases hf : d.find? i with
  | none => rfl
  | some e =>
    have : e.id = i := find?_id hf
    simp [this, List.contains_eq_any_beq, List.any_filter]

/-- `changeButtonAttributes` is the identity when the item has no button. -/
theorem changeButtonAttrs_nobtn (opts : List (String × JVal)) {d : DOM} {mi : Nat}
    (hb : buttonOf d mi = none) :
    changeButtonAttrs opts d (some mi) = d := by
  simp only [changeButtonAttrs]
  rw [hb]

/-- With the usual configuration shape (a string expanded class and a label
object carrying both texts), `changeButtonAttributes` writes the matching
label and the stringified expansion state onto the item's button. -/
theorem changeButtonAttrs_eq {opts : List (String × JVal)} {cls lc le : String}
    (hcls : getOption opts ["expanded_class"] = JVal.jstr cls)
    (hlbl : getOption opts ["button_attributes", "aria-label"]
      = JVal.jobj [("collapse", JVal.jstr lc), ("expand", JVal.jstr le)])
    {d : DOM} {mi b : Nat} (hb : buttonOf d mi = some b) :
    changeButtonAttrs opts d (some mi)
      = setAttr (setAttr d b "aria-label" (if hasClass d mi cls then lc else le))
          b "aria-expanded" (boolStr (hasClass d mi cls)) := by
  simp only [changeButtonAttrs]
  rw [hb, hcls, hlbl]
  cases hE : hasClass d mi (jvalToString (JVal.jstr cls)) with
  | true =>
    have hE2 : hasClass d mi cls = true := hE
    simp [JVal.isStr, JVal.isSet, JVal.getProp, List.lookup, jvalToString, hE, hE2, boolStr]
  | false =>
    have hE2 : hasClass d mi cls = false := hE
    simp [JVal.isStr, JVal.isSet, JVal.getProp, List.lookup, jvalToString, hE, hE2, boolStr]

/-- `setAttribute` structural framing that holds for every attribute name:
parents, descendants, ids, classLists, length and the active element. -/
theorem setAttr_frame (d : DOM) (i : Nat) (n v : String) :
    (∀ j, parentOf (setAttr d i n v) j = parentOf d j)
      ∧ (∀ a b, isDescOf (setAttr d i n v) a b = isDescOf d a b)
      ∧ ((setAttr d i n v).elems.map (fun e => e.id) = d.elems.map (fun e => e.id))
      ∧ (∀ j t, hasClass (setAttr d i n v) j t = hasClass d j t)
      ∧ (∀ menus m j, walkToMenu (setAttr d i n v) menus m j = walkToMenu d menus m j)
      ∧ (setAttr d i n v).elems.length = d.elems.length
      ∧ (setAttr d i n v).active = d.active := by
  unfold setAttr
  exact ⟨parentOf_overElem d i _ _, isDescOf_overElem d i _ _, ids_overElem d i _ _,
    fun j t => hasClass_overElem_attrs d i _ j t,
    fun menus m j => walkToMenu_overElem d i _ _ menus m j,
    length_overElem d i _ _, rfl⟩

/-- `setAttribute` keeps reads of other attribute names. -/
theorem setAttr_attrOf_ne_key (d : DOM) (i : Nat) {m n : String} (v : String) (h : m ≠ n)
    (j : Nat) : attrOf (setAttr d i n v) j m = attrOf d j m := by
  unfold setAttr
  exact attrOf_overElem_keep d i _ j m (lookup_setAttrList_ne v h)

/-- `setAttribute` keeps attribute reads on other elements. -/
theorem setAttr_attrOf_ne_elem (d : DOM) (i : Nat) (n v : String) {j : Nat} (h : j ≠ i)
    (m : String) : attrOf (setAttr d i n v) j m = attrOf d j m := by
  unfold setAttr
  exact attrOf_overElem_ne d i _ _ m h

/-- `setAttribute` writes the attribute it names. -/
theorem setAttr_attrOf_self {d : DOM} {i : Nat} (n v : String)
    (hf : (d.find? i).isSome = true) : attrOf (setAttr d i n v) i n = some v := by
  unfold setAttr attrOf
  rw [find?_overElem]
  rcases ho : d.find? i with _ | e
  · rw [ho] at hf; cases hf
  · have : e.id = i := find?_id ho
    simp [this, attrOfE, lookup_setAttrList_self]

/-- `setAttribute` of a name other than `aria-expanded` keeps `buttonOf`. -/
theorem setAttr_buttonOf_ne (d : DOM) (i : Nat) {n : String} (v : String)
    (h : n ≠ "aria-expanded") (j : Nat) : buttonOf (setAttr d i n v) j = buttonOf d j := by
  unfold setAttr
  exact buttonOf_overElem d i _ j (fun a => by
    rw [lookup_setAttrList_ne v (fun hc => h hc.symm)])

/-- Rewriting `aria-expanded` on an element that already has it keeps
`buttonOf` (given distinct ids). -/
theorem setAttr_buttonOf_pres {d : DOM} (hnd : (d.elems.map (fun e => e.id)).Nodup)
    {i : Nat} {x : ElemData} (hx : x ∈ d.elems) (hxid : x.id = i)
    (hpres : (x.attrs.lookup "aria-expanded").isSome = true) (v : String) (j : Nat) :
    buttonOf (setAttr d i "aria-expanded" v) j = buttonOf d j := by
  unfold setAttr
  apply buttonOf_overElem_mem
  intro y hy hyid
  have hyx : y = x := id_unique hnd hy hx (hyid.trans hxid.symm)
  subst hyx
  rw [isSome_lookup_setAttrList, if_pos rfl, hpres]

/-- `setAttribute` of a name other than `aria-haspopup` keeps the haspopup
matcher and `getSiblings`. -/
theorem setAttr_haspopup_frame (d : DOM) (i : Nat) (n : String) (v : String)
    (h : n ≠ "aria-haspopup") :
    (∀ j, matchesHaspopup (setAttr d i n v) j = matchesHaspopup d j)
      ∧ (∀ j, getSiblings (setAttr d i n v) j = getSiblings d j) := by
  unfold setAttr
  constructor
  · exact fun j => matchesHaspopup_overElem d i _ j (fun a =>
      lookup_setAttrList_ne v (fun hc => h hc.symm) a)
  · exact fun j => getSiblings_overElem d i _ j (fun a =>
      lookup_setAttrList_ne v (fun hc => h hc.symm) a)

/-- What a non-`none` `ownButton` means. -/
theorem ownButton_spec {d : DOM} {k bk : Nat} (h : ownButton d k = some bk) :
    buttonOf d k = some bk ∧ parentOf d bk = some k := by
  unfold ownButton at h
  rcases hb : buttonOf d k with _ | b0
  · simp only [hb] at h
    cases h
  · simp only [hb] at h
    by_cases hp : parentOf d b0 = some k
    · rw [if_pos hp] at h
      cases h
      exact ⟨rfl, hp⟩
    · rw [if_neg hp] at h
      cases h

/-- Structural facts preserved by `changeButtonAttributes` (with the usual
configuration shape and distinct ids). -/
theorem changeButtonAttrs_frame {opts : List (String × JVal)} {cls lc le : String}
    (hcls : getOption opts ["expanded_class"] = JVal.jstr cls)
    (hlbl : getOption opts ["button_attributes", "aria-label"]
      = JVal.jobj [("collapse", JVal.jstr lc), ("expand", JVal.jstr le)])
    {d : DOM} (hnd : (d.elems.map (fun e => e.id)).Nodup) (mi : Nat) :
    (∀ j, parentOf (changeButtonAttrs opts d (some mi)) j = parentOf d j)
      ∧ (∀ a b, isDescOf (changeButtonAttrs opts d (some mi)) a b = isDescOf d a b)
      ∧ ((changeButtonAttrs opts d (some mi)).elems.map (fun e => e.id)
          = d.elems.map (fun e => e.id))
      ∧ (∀ j t, hasClass (changeButtonAttrs opts d (some mi)) j t = hasClass d j t)
      ∧ (∀ menus m j, walkToMenu (changeButtonAttrs opts d (some mi)) menus m j
          = walkToMenu d menus m j)
      ∧ (∀ j, matchesHaspopup (changeButtonAttrs opts d (some mi)) j = matchesHaspopup d j)
      ∧ (∀ j, getSiblings (changeButtonAttrs opts d (some mi)) j = getSiblings d j)
      ∧ (∀ j, buttonOf (changeButtonAttrs opts d (some mi)) j = buttonOf d j)
      ∧ (changeButtonAttrs opts d (some mi)).active = d.active
      ∧ (changeButtonAttrs opts d (some mi)).elems.length = d.elems.length := by
  rcases hb : buttonOf d mi with _ | b
  · rw [changeButtonAttrs_nobtn opts hb]
    exact ⟨fun j => rfl, fun a b => rfl, rfl, fun j t => rfl, fun menus m j => rfl,
      fun j => rfl, fun j => rfl, fun j => rfl, rfl, rfl⟩
  · rw [changeButtonAttrs_eq hcls hlbl hb]
    rcases buttonOf_spec hb with ⟨x, hx, hxid, hdesc, hbm⟩
    have hpres : (x.attrs.lookup "aria-expanded").isSome = true := by
      rcases (Bool.and_eq_true _ _).mp hbm with ⟨_, hp⟩
      exact hp
    set L := if hasClass d mi cls then lc else le with hL
    set D1 := setAttr d b "aria-label" L with hD1
    have f1 := setAttr_frame d b "aria-label" L
    have f2 := setAttr_frame D1 b "aria-expanded" (boolStr (hasClass d mi cls))
    have hnd1 : (D1.elems.map (fun e => e.id)).Nodup := by
      rw [hD1, (setAttr_frame d b "aria-label" L).2.2.1]
      exact hnd
    have hx1 : { x with attrs := setAttrList x.attrs "aria-label" L } ∈ D1.elems := by
      rw [hD1]
      unfold setAttr
      rw [overElem_shape]
      have := List.mem_map_of_mem (fun e =>
        if e.id = b then { e with attrs := setAttrList e.attrs "aria-label" L } else e) hx
      simpa [hxid] using this
    have hpres1 : ((setAttrList x.attrs "aria-label" L).lookup "aria-expanded").isSome = true := by
      rw [isSome_lookup_setAttrList]
      simpa using hpres
    have hbtn1 : ∀ j, buttonOf D1 j = buttonOf d j := by
      intro j
      rw [hD1]
      exact setAttr_buttonOf_ne d b L (by decide) j
    have hbtn2 : ∀ j, buttonOf (setAttr D1 b "aria-expanded" (boolStr (hasClass d mi cls))) j
        = buttonOf D1 j := by
      intro j
      exact setAttr_buttonOf_pres hnd1 hx1 hxid hpres1 (boolStr (hasClass d mi cls)) j
    have hpm1 := setAttr_haspopup_frame d b "aria-label" L (by decide)
    have hpm2 := setAttr_haspopup_frame D1 b "aria-expanded"
      (boolStr (hasClass d mi cls)) (by decide)
    refine ⟨fun j => (f2.1 j).trans (f1.1 j),
      fun a c => (f2.2.1 a c).trans (f1.2.1 a c),
      (f2.2.2.1).trans (f1.2.2.1),
      fun j t => (f2.2.2.2.1 j t).trans (f1.2.2.2.1 j t),
      fun menus m j => (f2.2.2.2.2.1 menus m j).trans (f1.2.2.2.2.1 menus m j),
      fun j => (hpm2.1 j).trans (hpm1.1 j),
      fun j => (hpm2.2 j).trans (hpm1.2 j),
      fun j => (hbtn2 j).trans (hbtn1 j),
      (f2.2.2.2.2.2.2).trans (f1.2.2.2.2.2.2),
      (f2.2.2.2.2.2.1).trans (f1.2.2.2.2.2.1)⟩

/-- An element membership witness makes `find?` succeed. -/
theorem find?_isSome_of_mem {d : DOM} {x : ElemData} {i : Nat}
    (hx : x ∈ d.elems) (hid : x.id = i) : (d.find? i).isSome = true := by
  unfold DOM.find?
  rw [List.find?_isSome]
  exact ⟨x, hx, by simp [hid]⟩

/-- `changeButtonAttributes` keeps `ownButton` and `syncSafe`. -/
theorem changeButtonAttrs_own_frame {opts : List (String × JVal)} {cls lc le : String}
    (hcls : getOption opts ["expanded_class"] = JVal.jstr cls)
    (hlbl : getOption opts ["button_attributes", "aria-label"]
      = JVal.jobj [("collapse", JVal.jstr lc), ("expand", JVal.jstr le)])
    {d : DOM} (hnd : (d.elems.map (fun e => e.id)).Nodup) (mi : Nat) :
    (∀ j, ownButton (changeButtonAttrs opts d (some mi)) j = ownButton d j)
      ∧ (∀ j, syncSafe (changeButtonAttrs opts d (some mi)) j = syncSafe d j) := by
  have hf := changeButtonAttrs_frame hcls hlbl hnd mi
  constructor
  · intro j
    unfold ownButton
    rw [hf.2.2.2.2.2.2.2.1 j]
    cases buttonOf d j with
    | none => rfl
    | some b => simp only [hf.1 b]
  · intro j
    unfold syncSafe
    rw [hf.2.2.2.2.2.2.2.1 j]
    cases buttonOf d j with
    | none => rfl
    | some b => simp only [hf.1 b]

/-- `changeButtonAttributes` puts the item it is called on in sync. -/
theorem changeButtonAttrs_itemSync_self {opts : List (String × JVal)} {cls lc le : String}
    (hcls : getOption opts ["expanded_class"] = JVal.jstr cls)
    (hlbl : getOption opts ["button_attributes", "aria-label"]
      = JVal.jobj [("collapse", JVal.jstr lc), ("expand", JVal.jstr le)])
    {d : DOM} (hnd : (d.elems.map (fun e => e.id)).Nodup) (mi : Nat) :
    itemSync cls lc le (changeButtonAttrs opts d (some mi)) mi = true := by
  rcases hb : buttonOf d mi with _ | b
  · rw [changeButtonAttrs_nobtn opts hb]
    unfold itemSync ownButton
    rw [hb]
  · have hown := (changeButtonAttrs_own_frame hcls hlbl hnd mi).1 mi
    have hf := changeButtonAttrs_frame hcls hlbl hnd mi
    unfold itemSync
    rw [hown]
    rcases ho : ownButton d mi with _ | b0
    · rfl
    · have hspec := ownButton_spec ho
      have hbb : b0 = b := by
        have := hspec.1.symm.trans hb
        exact Option.some.injEq b0 b ▸ this
      subst hbb
      rcases buttonOf_spec hb with ⟨x, hx, hxid, hdx, hbm⟩
      have hfs : (d.find? b0).isSome = true := find?_isSome_of_mem hx hxid
      have heq := changeButtonAttrs_eq hcls hlbl hb
      have hfs1 : ((setAttr d b0 "aria-label"
          (if hasClass d mi cls then lc else le)).find? b0).isSome = true := by
        unfold setAttr
        rw [find?_overElem]
        rcases hq : d.find? b0 with _ | e
        · rw [hq] at hfs; cases hfs
        · rfl
      have hexp : attrOf (changeButtonAttrs opts d (some mi)) b0 "aria-expanded"
          = some (boolStr (hasClass d mi cls)) := by
        rw [heq]
        exact setAttr_attrOf_self "aria-expanded" (boolStr (hasClass d mi cls)) hfs1
      have hlab : attrOf (changeButtonAttrs opts d (some mi)) b0 "aria-label"
          = some (if hasClass d mi cls then lc else le) := by
        rw [heq]
        rw [setAttr_attrOf_ne_key _ b0 (boolStr (hasClass d mi cls)) (by decide) b0]
        exact setAttr_attrOf_self "aria-label" (if hasClass d mi cls then lc else le) hfs
      have hcc : hasClass (changeButtonAttrs opts d (some mi)) mi cls = hasClass d mi cls :=
        hf.2.2.2.1 mi cls
      show (attrOf (changeButtonAttrs opts d (some mi)) b0 "aria-expanded"
              == some (boolStr (hasClass (changeButtonAttrs opts d (some mi)) mi cls))
            && (attrOf (changeButtonAttrs opts d (some mi)) b0 "aria-label"
              == some (if hasClass (changeButtonAttrs opts d (some mi)) mi cls then lc else le)))
          = true
      rw [hexp, hlab, hcc]
      simp

/-- `changeButtonAttributes` on a safely-buttoned item does not change the
sync state of any other item. -/
theorem changeButtonAttrs_itemSync_other {opts : List (String × JVal)} {cls lc le : String}
    (hcls : getOption opts ["expanded_class"] = JVal.jstr cls)
    (hlbl : getOption opts ["button_attributes", "aria-label"]
      = JVal.jobj [("collapse", JVal.jstr lc), ("expand", JVal.jstr le)])
    {d : DOM} (hnd : (d.elems.map (fun e => e.id)).Nodup) {mi : Nat}
    (hsafe : syncSafe d mi = true) {k : Nat} (hk : k ≠ mi) :
    itemSync cls lc le (changeButtonAttrs opts d (some mi)) k = itemSync cls lc le d k := by
  rcases hb : buttonOf d mi with _ | b
  · rw [changeButtonAttrs_nobtn opts hb]
  · have hpmi : parentOf d b = some mi := by
      unfold syncSafe at hsafe
      rw [hb] at hsafe
      exact beq_iff_eq.mp hsafe
    have hown := (changeButtonAttrs_own_frame hcls hlbl hnd mi).1 k
    have hf := changeButtonAttrs_frame hcls hlbl hnd mi
    unfold itemSync
    rw [hown]
    rcases ho : ownButton d k with _ | bk
    · rfl
    · have hspec := ownButton_spec ho
      have hbkb : bk ≠ b := by
        intro hcontra
        subst hcontra
        rw [hspec.2] at hpmi
        exact hk (Option.some.injEq k mi ▸ hpmi)
      have heq := changeButtonAttrs_eq hcls hlbl hb
      have hexp : attrOf (changeButtonAttrs opts d (some mi)) bk "aria-expanded"
          = attrOf d bk "aria-expanded" := by
        rw [heq, setAttr_attrOf_ne_elem _ b _ _ hbkb, setAttr_attrOf_ne_elem _ b _ _ hbkb]
      have hlab : attrOf (changeButtonAttrs opts d (some mi)) bk "aria-label"
          = attrOf d bk "aria-label" := by
        rw [heq, setAttr_attrOf_ne_elem _ b _ _ hbkb, setAttr_attrOf_ne_elem _ b _ _ hbkb]
      have hcc : hasClass (changeButtonAttrs opts d (some mi)) k cls = hasClass d k cls :=
        hf.2.2.2.1 k cls
      show (attrOf (changeButtonAttrs opts d (some mi)) bk "aria-expanded"
              == some (boolStr (hasClass (changeButtonAttrs opts d (some mi)) k cls))
            && (attrOf (changeButtonAttrs opts d (some mi)) bk "aria-label"
              == some (if hasClass (changeButtonAttrs opts d (some mi)) k cls then lc else le)))
          = ((attrOf d bk "aria-expanded" == some (boolStr (hasClass d k cls)))
            && (attrOf d bk "aria-label" == some (if hasClass d k cls then lc else le)))
      rw [hexp, hlab, hcc]

/-- A class mutation on one element does not change the sync state of any
other item. -/
theorem classAdd_itemSync_other {cls lc le : String} {d : DOM} {i : Nat} {tok : String}
    {d' : DOM} (h : classAdd d i tok = some d') {k : Nat} (hk : k ≠ i) :
    itemSync cls lc le d' k = itemSync cls lc le d k := by
  have hf := classAdd_frame h
  unfold itemSync
  rw [hf.2.2.2.2.2.1 k]
  rcases ho : ownButton d k with _ | bk
  · rfl
  · show (attrOf d' bk "aria-expanded" == some (boolStr (hasClass d' k cls))
          && (attrOf d' bk "aria-label" == some (if hasClass d' k cls then lc else le)))
        = ((attrOf d bk "aria-expanded" == some (boolStr (hasClass d k cls)))
          && (attrOf d bk "aria-label" == some (if hasClass d k cls then lc else le)))
    rw [hf.2.2.2.1 bk "aria-expanded", hf.2.2.2.1 bk "aria-label",
      classAdd_hasClass_ne h hk cls]

/-- A class removal on one element does not change the sync state of any
other item. -/
theorem classRemove_itemSync_other {cls lc le : String} {d : DOM} {i : Nat} {tok : String}
    {d' : DOM} (h : classRemove d i tok = some d') {k : Nat} (hk : k ≠ i) :
    itemSync cls lc le d' k = itemSync cls lc le d k := by
  have hf := classRemove_frame h
  unfold itemSync
  rw [hf.2.2.2.2.2.1 k]
  rcases ho : ownButton d k with _ | bk
  · rfl
  · show (attrOf d' bk "aria-expanded" == some (boolStr (hasClass d' k cls))
          && (attrOf d' bk "aria-label" == some (if hasClass d' k cls then lc else le)))
        = ((attrOf d bk "aria-expanded" == some (boolStr (hasClass d k cls)))
          && (attrOf d bk "aria-label" == some (if hasClass d k cls then lc else le)))
    rw [hf.2.2.2.1 bk "aria-expanded", hf.2.2.2.1 bk "aria-label",
      classRemove_hasClass_ne h hk cls]

/-- Running an empty script. -/
theorem runScript_nil (opts : List (String × JVal)) (cls : String) (d : DOM) :
    runScript opts cls [] d = some d := rfl

/-- Running a script one operation at a time. -/
theorem runScript_cons (opts : List (String × JVal)) (cls : String) (op : MOp)
    (rest : List MOp) (d : DOM) :
    runScript opts cls (op :: rest) d
      = (runOp opts cls d op).bind (fun d1 => runScript opts cls rest d1) := by
  simp [runScript, List.foldlM_cons]

/-- Running a concatenated script. -/
theorem runScript_append (opts : List (String × JVal)) (cls : String) :
    ∀ (s1 s2 : List MOp) (d : DOM),
      runScript opts cls (s1 ++ s2) d
        = (runScript opts cls s1 d).bind (fun d1 => runScript opts cls s2 d1) := by
  intro s1
  induction s1 with
  | nil => intro s2 d; rfl
  | cons op rest ih =>
    intro s2 d
    rw [List.cons_append, runScript_cons, runScript_cons]
    cases runOp opts cls d op with
    | none => rfl
    | some d1 => simpa using ih s2 d1

/-- Structural facts preserved by a whole script (with the usual
configuration shape and distinct ids). -/
theorem runScript_frame {opts : List (String × JVal)} {cls lc le : String}
    (hcls : getOption opts ["expanded_class"] = JVal.jstr cls)
    (hlbl : getOption opts ["button_attributes", "aria-label"]
      = JVal.jobj [("collapse", JVal.jstr lc), ("expand", JVal.jstr le)]) :
    ∀ (script : List MOp) (d d' : DOM),
      (d.elems.map (fun e => e.id)).Nodup →
      runScript opts cls script d = some d' →
      (∀ j, parentOf d' j = parentOf d j)
        ∧ (∀ a b, isDescOf d' a b = isDescOf d a b)
        ∧ (d'.elems.map (fun e => e.id) = d.elems.map (fun e => e.id))
        ∧ (∀ j, buttonOf d' j = buttonOf d j)
        ∧ (∀ j, ownButton d' j = ownButton d j)
        ∧ (∀ j, syncSafe d' j = syncSafe d j)
        ∧ (∀ j, matchesHaspopup d' j = matchesHaspopup d j)
        ∧ (∀ menus n j, walkToMenu d' menus n j = walkToMenu d menus n j)
        ∧ d'.active = d.active := by
  intro script
  induction script with
  | nil =>
    intro d d' _ hrun
    rw [runScript_nil] at hrun
    cases hrun
    exact ⟨fun j => rfl, fun a b => rfl, rfl, fun j => rfl, fun j => rfl, fun j => rfl,
      fun j => rfl, fun menus n j => rfl, rfl⟩
  | cons op rest ih =>
    intro d d' hnd hrun
    rw [runScript_cons] at hrun
    rcases hop : runOp opts cls d op with _ | d1
    · rw [hop] at hrun; cases hrun
    · rw [hop] at hrun
      simp only [Option.some_bind] at hrun
      have step :
          (∀ j, parentOf d1 j = parentOf d j)
            ∧ (∀ a b, isDescOf d1 a b = isDescOf d a b)
            ∧ (d1.elems.map (fun e => e.id) = d.elems.map (fun e => e.id))
            ∧ (∀ j, buttonOf d1 j = buttonOf d j)
            ∧ (∀ j, ownButton d1 j = ownButton d j)
            ∧ (∀ j, syncSafe d1 j = syncSafe d j)
            ∧ (∀ j, matchesHaspopup d1 j = matchesHaspopup d j)
            ∧ (∀ menus n j, walkToMenu d1 menus n j = walkToMenu d menus n j)
            ∧ d1.active = d.active := by
        cases op with
        | addC i =>
          have hf := classAdd_frame hop
          exact ⟨hf.1, hf.2.1, hf.2.2.1, hf.2.2.2.2.1, hf.2.2.2.2.2.1, hf.2.2.2.2.2.2.1,
            hf.2.2.2.2.2.2.2.1, hf.2.2.2.2.2.2.2.2.2.1, hf.2.2.2.2.2.2.2.2.2.2.2⟩
        | rmC i =>
          have hf := classRemove_frame hop
          exact ⟨hf.1, hf.2.1, hf.2.2.1, hf.2.2.2.2.1, hf.2.2.2.2.2.1, hf.2.2.2.2.2.2.1,
            hf.2.2.2.2.2.2.2.1, hf.2.2.2.2.2.2.2.2.2.1, hf.2.2.2.2.2.2.2.2.2.2.2⟩
        | syncB i =>
          have hd1 : d1 = changeButtonAttrs opts d (some i) := by
            unfold runOp at hop
            exact (Option.some.injEq _ _ ▸ hop).symm
          subst hd1
          have hf := changeButtonAttrs_frame hcls hlbl hnd i
          have hof := changeButtonAttrs_own_frame hcls hlbl hnd i
          exact ⟨hf.1, hf.2.1, hf.2.2.1, hf.2.2.2.2.2.2.2.1, hof.1, hof.2,
            hf.2.2.2.2.2.1, hf.2.2.2.2.1, hf.2.2.2.2.2.2.2.2.1⟩
      have hnd1 : (d1.elems.map (fun e => e.id)).Nodup := by
        rw [step.2.2.1]; exact hnd
      have rec := ih d1 d' hnd1 hrun
      exact ⟨fun j => (rec.1 j).trans (step.1 j),
        fun a b => (rec.2.1 a b).trans (step.2.1 a b),
        (rec.2.2.1).trans (step.2.2.1),
        fun j => (rec.2.2.2.1 j).trans (step.2.2.2.1 j),
        fun j => (rec.2.2.2.2.1 j).trans (step.2.2.2.2.1 j),
        fun j => (rec.2.2.2.2.2.1 j).trans (step.2.2.2.2.2.1 j),
        fun j => (rec.2.2.2.2.2.2.1 j).trans (step.2.2.2.2.2.2.1 j),
        fun menus n j => (rec.2.2.2.2.2.2.2.1 menus n j).trans (step.2.2.2.2.2.2.2.1 menus n j),
        (rec.2.2.2.2.2.2.2.2).trans (step.2.2.2.2.2.2.2.2)⟩

/-- Master lemma: a script whose class mutations are all followed by a
button refresh of the same item, and whose refresh targets all own their
buttons, puts every refreshed item in sync and keeps every already-synced
item in sync. -/
theorem runScript_sync {opts : List (String × JVal)} {cls lc le : String}
    (hcls : getOption opts ["expanded_class"] = JVal.jstr cls)
    (hlbl : getOption opts ["button_attributes", "aria-label"]
      = JVal.jobj [("collapse", JVal.jstr lc), ("expand", JVal.jstr le)]) :
    ∀ (script : List MOp) (d d' : DOM),
      (d.elems.map (fun e => e.id)).Nodup →
      runScript opts cls script d = some d' →
      covered script = true →
      (∀ i, MOp.syncB i ∈ script → syncSafe d i = true) →
      ∀ k, ((needSync script).contains k || itemSync cls lc le d k) = true →
        itemSync cls lc le d' k = true := by
  intro script
  induction script with
  | nil =>
    intro d d' _ hrun _ _ k hk
    rw [runScript_nil] at hrun
    cases hrun
    simpa [needSync] using hk
  | cons op rest ih =>
    intro d d' hnd hrun hcov hsafe k hk
    rw [runScript_cons] at hrun
    rcases hop : runOp opts cls d op with _ | d1
    · rw [hop] at hrun; cases hrun
    · rw [hop] at hrun
      simp only [Option.some_bind] at hrun
      cases op with
      | addC i =>
        have hf : classAdd d i cls = some d1 := hop
        have hfr := classAdd_frame hf
        have hnd1 : (d1.elems.map (fun e => e.id)).Nodup := by
          rw [hfr.2.2.1]; exact hnd
        have hcov' : ((needSync rest).contains i && covered rest) = true := by
          simpa [covered] using hcov
        rcases (Bool.and_eq_true _ _).mp hcov' with ⟨hmem, hcov2⟩
        have hsafe1 : ∀ x, MOp.syncB x ∈ rest → syncSafe d1 x = true := by
          intro x hx
          rw [hfr.2.2.2.2.2.2.1 x]
          exact hsafe x (List.mem_cons_of_mem _ hx)
        apply ih d1 d' hnd1 hrun hcov2 hsafe1 k
        have hns : needSync (MOp.addC i :: rest) = needSync rest := by
          simp [needSync]
        rw [hns] at hk
        rcases Bool.or_eq_true_iff.mp hk with hmemk | hsync
        · rw [hmemk]
          simp
        · by_cases hki : k = i
          · subst hki
            rw [hmem]
            simp
          · rw [classAdd_itemSync_other hf hki, hsync]
            simp
      | rmC i =>
        have hf : classRemove d i cls = some d1 := hop
        have hfr := classRemove_frame hf
        have hnd1 : (d1.elems.map (fun e => e.id)).Nodup := by
          rw [hfr.2.2.1]; exact hnd
        have hcov' : ((needSync rest).contains i && covered rest) = true := by
          simpa [covered] using hcov
        rcases (Bool.and_eq_true _ _).mp hcov' with ⟨hmem, hcov2⟩
        have hsafe1 : ∀ x, MOp.syncB x ∈ rest → syncSafe d1 x = true := by
          intro x hx
          rw [hfr.2.2.2.2.2.2.1 x]
          exact hsafe x (List.mem_cons_of_mem _ hx)
        apply ih d1 d' hnd1 hrun hcov2 hsafe1 k
        have hns : needSync (MOp.rmC i :: rest) = needSync rest := by
          simp [needSync]
        rw [hns] at hk
        rcases Bool.or_eq_true_iff.mp hk with hmemk | hsync
        · rw [hmemk]
          simp
        · by_cases hki : k = i
          · subst hki
            rw [hmem]
            simp
          · rw [classRemove_itemSync_other hf hki, hsync]
            simp
      | syncB i =>
        have hd1 : d1 = changeButtonAttrs opts d (some i) := by
          unfold runOp at hop
          exact (Option.some.injEq _ _ ▸ hop).symm
        have hcov2 : covered rest = true := by
          simpa [covered] using hcov
        have hfr := changeButtonAttrs_frame hcls hlbl hnd i
        have hof := changeButtonAttrs_own_frame hcls hlbl hnd i
        have hnd1 : (d1.elems.map (fun e => e.id)).Nodup := by
          rw [hd1, hfr.2.2.1]; exact hnd
        have hsafe1 : ∀ x, MOp.syncB x ∈ rest → syncSafe d1 x = true := by
          intro x hx
          rw [hd1, hof.2 x]
          exact hsafe x (List.mem_cons_of_mem _ hx)
        apply ih d1 d' hnd1 hrun hcov2 hsafe1 k
        have hsafei : syncSafe d i = true := hsafe i (List.mem_cons_self _ _)
        by_cases hki : k = i
        · subst hki
          have := changeButtonAttrs_itemSync_self hcls hlbl hnd k
          rw [← hd1] at this
          rw [this]
          simp
        · have hother := changeButtonAttrs_itemSync_other hcls hlbl hnd hsafei hki
          rw [← hd1] at hother
          rcases Bool.or_eq_true_iff.mp hk with hmemk | hsync
          · have : (needSync rest).contains k = true := by
              have hns : needSync (MOp.syncB i :: rest) = i :: needSync rest := by
                simp [needSync]
              rw [hns, List.contains_cons] at hmemk
              rcases Bool.or_eq_true_iff.mp hmemk with h | h
              · exact absurd (beq_iff_eq.mp h) hki
              · exact h
            rw [this]
            simp
          · rw [hother, hsync]
            simp

/-- The `parents.map(add)` loop is the script of its `addC` operations. -/
theorem bridge_addC (opts : List (String × JVal)) (cls : String) :
    ∀ (l : List Nat) (d : DOM),
      l.foldlM (fun dd p => classAdd dd p cls) d = runScript opts cls (l.map MOp.addC) d := by
  intro l
  induction l with
  | nil => intro d; rfl
  | cons i rest ih =>
    intro d
    rw [List.foldlM_cons, List.map_cons, runScript_cons]
    simp only [runOp]
    rcases hca : classAdd d i cls with _ | d1
    · simp [hca]
    · simpa [hca] using ih d1

/-- The `remove` loop is the script of its `rmC` operations. -/
theorem bridge_rmC (opts : List (String × JVal)) (cls : String) :
    ∀ (l : List Nat) (d : DOM),
      l.foldlM (fun dd p => classRemove dd p cls) d = runScript opts cls (l.map MOp.rmC) d := by
  intro l
  induction l with
  | nil => intro d; rfl
  | cons i rest ih =>
    intro d
    rw [List.foldlM_cons, List.map_cons, runScript_cons]
    simp only [runOp]
    rcases hca : classRemove d i cls with _ | d1
    · simp [hca]
    · simpa [hca] using ih d1

/-- The button-refresh loop is the script of its `syncB` operations. -/
theorem bridge_syncB (opts : List (String × JVal)) (cls : String) :
    ∀ (l : List Nat) (d : DOM),
      runScript opts cls (l.map MOp.syncB) d
        = some (l.foldl (fun dd p => changeButtonAttrs opts dd (some p)) d) := by
  intro l
  induction l with
  | nil => intro d; rfl
  | cons i rest ih =>
    intro d
    rw [List.map_cons, runScript_cons, List.foldl_cons]
    simpa using ih (changeButtonAttrs opts d (some i))

/-- A valid token makes every `classAdd` fold succeed. -/
theorem foldlM_classAdd_ok {cls : String} (hvt : validClassTok cls = true) :
    ∀ (l : List Nat) (d : DOM),
      ∃ d1, l.foldlM (fun dd p => classAdd dd p cls) d = some d1 := by
  intro l
  induction l with
  | nil => intro d; exact ⟨d, rfl⟩
  | cons i rest ih =>
    intro d
    rw [List.foldlM_cons]
    have h1 : classAdd d i cls
        = some (overElem d i id (fun cs => if cs.contains cls then cs else cs ++ [cls])) := by
      unfold classAdd
      rw [if_pos hvt]
    rw [h1]
    simpa using ih _

/-- A valid token makes every `classRemove` fold succeed. -/
theorem foldlM_classRemove_ok {cls : String} (hvt : validClassTok cls = true) :
    ∀ (l : List Nat) (d : DOM),
      ∃ d1, l.foldlM (fun dd p => classRemove dd p cls) d = some d1 := by
  intro l
  induction l with
  | nil => intro d; exact ⟨d, rfl⟩
  | cons i rest ih =>
    intro d
    rw [List.foldlM_cons]
    have h1 : classRemove d i cls
        = some (overElem d i id (fun cs => cs.filter (fun t => t ≠ cls))) := by
      unfold classRemove
      rw [if_pos hvt]
    rw [h1]
    simpa using ih _

/-- `needSync` over an appended script. -/
theorem needSync_append (s1 s2 : List MOp) :
    needSync (s1 ++ s2) = needSync s1 ++ needSync s2 := by
  unfold needSync
  rw [List.filterMap_append]

/-- `needSync` of pure class-mutation scripts and of refresh scripts. -/
theorem needSync_shapes (l : List Nat) :
    needSync (l.map MOp.addC) = [] ∧ needSync (l.map MOp.rmC) = []
      ∧ needSync (l.map MOp.syncB) = l := by
  refine ⟨?_, ?_, ?_⟩ <;>
    (induction l with
     | nil => rfl
     | cons i rest ih => simpa [needSync] using ih)

/-- Coverage of an `addC` block followed by a covering tail. -/
theorem covered_addC_append (l : List Nat) (s2 : List MOp)
    (hmem : ∀ i ∈ l, (needSync s2).contains i = true) (hc : covered s2 = true) :
    covered (l.map MOp.addC ++ s2) = true := by
  induction l with
  | nil => simpa using hc
  | cons i rest ih =>
    rw [List.map_cons, List.cons_append]
    unfold covered
    rw [Bool.and_eq_true]
    constructor
    · rw [needSync_append, (needSync_shapes rest).1, List.nil_append]
      exact hmem i (List.mem_cons_self _ _)
    · exact ih (fun x hx => hmem x (List.mem_cons_of_mem _ hx))

/-- Coverage of an `rmC` block followed by a covering tail. -/
theorem covered_rmC_append (l : List Nat) (s2 : List MOp)
    (hmem : ∀ i ∈ l, (needSync s2).contains i = true) (hc : covered s2 = true) :
    covered (l.map MOp.rmC ++ s2) = true := by
  induction l with
  | nil => simpa using hc
  | cons i rest ih =>
    rw [List.map_cons, List.cons_append]
    unfold covered
    rw [Bool.and_eq_true]
    constructor
    · rw [needSync_append, (needSync_shapes rest).2.1, List.nil_append]
      exact hmem i (List.mem_cons_self _ _)
    · exact ih (fun x hx => hmem x (List.mem_cons_of_mem _ hx))

/-- Refresh blocks are always covered. -/
theorem covered_syncB_append (l : List Nat) (s2 : List MOp) (hc : covered s2 = true) :
    covered (l.map MOp.syncB ++ s2) = true := by
  induction l with
  | nil => simpa using hc
  | cons i rest ih =>
    rw [List.map_cons, List.cons_append]
    unfold covered
    exact ih

/-- The empty script is covered. -/
theorem covered_nil : covered [] = true := rfl

/-- Lookup through `assocSet`. -/
theorem lookup_assocSet (k : String) (v : JVal) (m : String) :
    ∀ l : List (String × JVal),
      (assocSet l k v).lookup m = if m = k then (l.lookup k).map (fun _ => v) else l.lookup m := by
  intro l
  unfold assocSet
  induction l with
  | nil => by_cases hmk : m = k <;> simp [List.lookup, hmk]
  | cons p ps ih =>
    rcases p with ⟨k1, w⟩
    simp only [List.map_cons]
    by_cases hk : k1 = k
    · rw [if_pos hk]
      by_cases hmk : m = k
      · subst hmk
        simp [List.lookup_cons, hk]
      · have hb : (m == k) = false := beq_false_of_ne hmk
        have hbk : (m == k1) = false := beq_false_of_ne (fun hc => hmk (hc.trans hk))
        simp only [List.lookup_cons, hb, hbk, if_neg hmk]
        rw [ih, if_neg hmk]
    · rw [if_neg hk]
      by_cases hmk : m = k1
      · have hmn : m ≠ k := fun hc => hk ((hmk.symm.trans hc) ▸ rfl)
        rw [if_neg hmn]
        simp [List.lookup_cons, hmk]
      · have hb : (m == k1) = false := beq_false_of_ne hmk
        have hbn : (k == k1) = false := beq_false_of_ne (fun hc => hk hc.symm)
        simp only [List.lookup_cons, hb, hbn]
        exact ih

/-- `assocSet` keeps the key list. -/
theorem keys_assocSet (k : String) (v : JVal) (l : List (String × JVal)) :
    (assocSet l k v).map (fun p => p.1) = l.map (fun p => p.1) := by
  unfold assocSet
  rw [List.map_map]
  apply List.map_congr_left
  intro p _
  by_cases hp : p.1 = k <;> simp [hp]

/-- One `setOptions` step keeps the key list. -/
theorem setOptionsStep_keys {opts opts' : List (String × JVal)} {kv : String × JVal}
    (h : setOptionsStep opts kv = some opts') :
    opts'.map (fun p => p.1) = opts.map (fun p => p.1) := by
  obtain ⟨k0, v0⟩ := kv
  unfold setOptionsStep at h
  by_cases hs : (opts.lookup k0).isSome
  · rw [if_pos hs] at h
    by_cases he : k0 = "expanded_class"
    · rw [if_pos he] at h
      rcases v0 with _ | _ | b | n | s | fs | xs <;> simp only at h <;> try cases h
      exact keys_assocSet _ _ _
    · rw [if_neg he] at h
      cases h
      exact keys_assocSet _ _ _
  · rw [if_neg hs] at h
    cases h
    rfl

/-- One `setOptions` step keeps values of keys it does not process. -/
theorem setOptionsStep_lookup_ne {opts opts' : List (String × JVal)} {kv : String × JVal}
    (h : setOptionsStep opts kv = some opts') {m : String} (hm : m ≠ kv.1) :
    opts'.lookup m = opts.lookup m := by
  obtain ⟨k0, v0⟩ := kv
  unfold setOptionsStep at h
  by_cases hs : (opts.lookup k0).isSome
  · rw [if_pos hs] at h
    by_cases he : k0 = "expanded_class"
    · rw [if_pos he] at h
      rcases v0 with _ | _ | b | n | s | fs | xs <;> simp only at h <;> try cases h
      rw [lookup_assocSet, if_neg hm]
    · rw [if_neg he] at h
      cases h
      rw [lookup_assocSet, if_neg hm]
  · rw [if_neg hs] at h
    cases h
    rfl

/-- One `setOptions` step keeps the presence of every key. -/
theorem setOptionsStep_isSome {opts opts' : List (String × JVal)} {kv : String × JVal}
    (h : setOptionsStep opts kv = some opts') (m : String) :
    (opts'.lookup m).isSome = (opts.lookup m).isSome := by
  obtain ⟨k0, v0⟩ := kv
  unfold setOptionsStep at h
  by_cases hs : (opts.lookup k0).isSome
  · rw [if_pos hs] at h
    by_cases he : k0 = "expanded_class"
    · rw [if_pos he] at h
      rcases v0 with _ | _ | b | n | s | fs | xs <;> simp only at h <;> try cases h
      rw [lookup_assocSet]
      by_cases hm : m = k0
      · rw [if_pos hm, hm]
        cases opts.lookup k0 <;> simp
      · rw [if_neg hm]
    · rw [if_neg he] at h
      cases h
      rw [lookup_assocSet]
      by_cases hm : m = k0
      · rw [if_pos hm, hm]
        cases opts.lookup k0 <;> simp
      · rw [if_neg hm]
  · rw [if_neg hs] at h
    cases h
    rfl

/-- The value a `setOptions` step stores for the key it processes. -/
theorem setOptionsStep_self {opts opts' : List (String × JVal)} {k0 : String} {v0 : JVal}
    (h : setOptionsStep opts (k0, v0) = some opts') (hs : (opts.lookup k0).isSome = true) :
    (k0 = "expanded_class" →
      ∃ s, v0 = JVal.jstr s ∧ opts'.lookup k0 = some (JVal.jstr (sanitizeClass s)))
      ∧ (k0 ≠ "expanded_class" → opts'.lookup k0 = some v0) := by
  unfold setOptionsStep at h
  simp only at h
  rw [if_pos hs] at h
  by_cases he : k0 = "expanded_class"
  · rw [if_pos he] at h
    constructor
    · intro _
      rcases v0 with _ | _ | b | n | s | fs | xs <;> simp only at h <;> try cases h
      refine ⟨s, rfl, ?_⟩
      rw [lookup_assocSet, if_pos rfl]
      rcases ho : opts.lookup k0 with _ | w
      · rw [ho] at hs; cases hs
      · simp
    · intro hne
      exact absurd he hne
  · rw [if_neg he] at h
    cases h
    constructor
    · intro hc
      exact absurd hc he
    · intro _
      rw [lookup_assocSet, if_pos rfl]
      rcases ho : opts.lookup k0 with _ | w
      · rw [ho] at hs; cases hs
      · simp

/-- Folding `setOptions` steps keeps the key list. -/
theorem setOptions_fold_keys :
    ∀ (config : List (String × JVal)) (start opts : List (String × JVal)),
      config.foldlM setOptionsStep start = some opts →
      opts.map (fun p => p.1) = start.map (fun p => p.1) := by
  intro config
  induction config with
  | nil =>
    intro start opts h
    cases h
    rfl
  | cons kv rest ih =>
    intro start opts h
    rw [List.foldlM_cons] at h
    rcases h1 : setOptionsStep start kv with _ | st1
    · rw [h1] at h; cases h
    · rw [h1] at h
      exact (ih st1 opts h).trans (setOptionsStep_keys h1)

/-- Folding `setOptions` steps keeps keys the configuration does not name. -/
theorem setOptions_fold_ne :
    ∀ (config : List (String × JVal)) (start opts : List (String × JVal)),
      config.foldlM setOptionsStep start = some opts →
      ∀ m, m ∉ config.map (fun p => p.1) → opts.lookup m = start.lookup m := by
  intro config
  induction config with
  | nil =>
    intro start opts h m _
    cases h
    rfl
  | cons kv rest ih =>
    intro start opts h m hm
    rw [List.foldlM_cons] at h
    rcases h1 : setOptionsStep start kv with _ | st1
    · rw [h1] at h; cases h
    · rw [h1] at h
      rw [List.map_cons, List.mem_cons] at hm
      push_neg at hm
      exact (ih st1 opts h m hm.2).trans (setOptionsStep_lookup_ne h1 hm.1)

/-- Folding `setOptions` steps keeps the presence of every key. -/
theorem setOptions_fold_isSome :
    ∀ (config : List (String × JVal)) (start opts : List (String × JVal)),
      config.foldlM setOptionsStep start = some opts →
      ∀ m, (opts.lookup m).isSome = (start.lookup m).isSome := by
  intro config
  induction config with
  | nil =>
    intro start opts h m
    cases h
    rfl
  | cons kv rest ih =>
    intro start opts h m
    rw [List.foldlM_cons] at h
    rcases h1 : setOptionsStep start kv with _ | st1
    · rw [h1] at h; cases h
    · rw [h1] at h
      exact (ih st1 opts h m).trans (setOptionsStep_isSome h1 m)

/-- A configuration entry whose key exists among the defaults overrides the
stored value (sanitized for `expanded_class`). -/
theorem setOptions_fold_override :
    ∀ (config : List (String × JVal)) (start opts : List (String × JVal)),
      (config.map (fun p => p.1)).Nodup →
      config.foldlM setOptionsStep start = some opts →
      ∀ k v, (k, v) ∈ config → (start.lookup k).isSome = true →
        ((k = "expanded_class" →
            ∃ s, v = JVal.jstr s ∧ opts.lookup k = some (JVal.jstr (sanitizeClass s)))
          ∧ (k ≠ "expanded_class" → opts.lookup k = some v)) := by
  intro config
  induction config with
  | nil =>
    intro start opts _ _ k v hkv
    cases hkv
  | cons kv rest ih =>
    intro start opts hnd h k v hkv hpres
    rw [List.foldlM_cons] at h
    rcases h1 : setOptionsStep start kv with _ | st1
    · rw [h1] at h; cases h
    · rw [h1] at h
      rw [List.map_cons, List.nodup_cons] at hnd
      rcases List.mem_cons.mp hkv with hh | hh
      · subst hh
        have hself := setOptionsStep_self h1 hpres
        have hkeep : opts.lookup k = st1.lookup k := by
          apply setOptions_fold_ne rest st1 opts h
          exact hnd.1
        constructor
        · intro he
          rcases hself.1 he with ⟨s, hvs, hst⟩
          exact ⟨s, hvs, hkeep.trans hst⟩
        · intro hne
          exact hkeep.trans (hself.2 hne)
      · have hpres1 : (st1.lookup k).isSome = true := by
          rw [setOptionsStep_isSome h1 k]
          exact hpres
        exact ih st1 opts hnd.2 h k v hh hpres1

/-- Claim C6: for every configuration object passed to `setOptions`, only
keys that exist among the default options override their defaults
(`expanded_class` being sanitized); unknown keys are ignored, and every
option key the caller omits keeps its default value, so the stored options
object always has exactly the default key set. -/
theorem claim_C6 (config opts : List (String × JVal)) (h : setOptions config = some opts) :
    (opts.map (fun p => p.1) = defaultOptions.map (fun p => p.1))
      ∧ (∀ m, m ∉ config.map (fun p => p.1) → opts.lookup m = defaultOptions.lookup m)
      ∧ ((config.map (fun p => p.1)).Nodup → ∀ k v, (k, v) ∈ config →
          (defaultOptions.lookup k).isSome = true →
          ((k = "expanded_class" →
              ∃ s, v = JVal.jstr s ∧ opts.lookup k = some (JVal.jstr (sanitizeClass s)))
            ∧ (k ≠ "expanded_class" → opts.lookup k = some v))) := by
  refine ⟨setOptions_fold_keys config defaultOptions opts h,
    setOptions_fold_ne config defaultOptions opts h,
    fun hnd k v hkv hpres => setOptions_fold_override config defaultOptions opts hnd h k v hkv hpres⟩

/-- Witness for C6 at a concrete configuration mixing a sanitized override,
an unknown key and an untouched default. -/
theorem claim_C6_witness :
    setOptions [("expanded_class", JVal.jstr "my cls!"), ("unknown_key", JVal.jstr "x")]
        = some ((setOptions
            [("expanded_class", JVal.jstr "my cls!"), ("unknown_key", JVal.jstr "x")]).getD [])
      ∧ (((setOptions [("expanded_class", JVal.jstr "my cls!"),
            ("unknown_key", JVal.jstr "x")]).getD []).map (fun p => p.1)
          = defaultOptions.map (fun p => p.1))
      ∧ (((setOptions [("expanded_class", JVal.jstr "my cls!"),
            ("unknown_key", JVal.jstr "x")]).getD []).lookup "menu_selector"
          = defaultOptions.lookup "menu_selector")
      ∧ (((setOptions [("expanded_class", JVal.jstr "my cls!"),
            ("unknown_key", JVal.jstr "x")]).getD []).lookup "expanded_class"
          = some (JVal.jstr "mycls")) := by
  have h := claim_C6 [("expanded_class", JVal.jstr "my cls!"), ("unknown_key", JVal.jstr "x")]
    ((setOptions [("expanded_class", JVal.jstr "my cls!"), ("unknown_key", JVal.jstr "x")]).getD [])
    rfl
  refine ⟨rfl, h.1, h.2.1 "menu_selector" (by decide), ?_⟩
  have h3 := (h.2.2 (by decide) "expanded_class" (JVal.jstr "my cls!")
    (List.mem_cons_self _ _) (by decide)).1 rfl
  rcases h3 with ⟨s, hs, hv⟩
  have hss : s = "my cls!" := by
    cases hs
    rfl
  rw [hv, hss]
  rfl

/-- Single-label `getOption` on a present, non-null value. -/
theorem getOption_single {opts : List (String × JVal)} {k : String} {v : JVal}
    (h : opts.lookup k = some v) (hset : v.isSet = true) : getOption opts [k] = v := by
  unfold getOption
  show (let w := (JVal.jobj opts).getProp k; if w.isSet then w else JVal.jbool false) = v
  simp only [JVal.getProp, h, Option.getD_some, hset, if_true]

/-- Every character the sanitizer keeps is in the allowed class. -/
theorem sanitizeClass_chars (s : String) :
    ∀ c ∈ (sanitizeClass s).toList, isClassChar c = true := by
  intro c hc
  unfold sanitizeClass at hc
  have he : (String.mk (s.toList.filter isClassChar)).toList = s.toList.filter isClassChar := rfl
  rw [he] at hc
  exact List.of_mem_filter hc

/-- Claim C9: a configured `expanded_class` string is stored with every
character outside `[a-zA-Z0-9_-]` removed, so the stored class — as later
read back by `getOption` for classList operations and for building the
`'.' + class` selector — consists solely of ASCII letters, digits, hyphens
and underscores. -/
theorem claim_C9 (config opts : List (String × JVal)) (h : setOptions config = some opts)
    (hnd : (config.map (fun p => p.1)).Nodup) (s : String)
    (hmem : ("expanded_class", JVal.jstr s) ∈ config) :
    opts.lookup "expanded_class" = some (JVal.jstr (sanitizeClass s))
      ∧ getOption opts ["expanded_class"] = JVal.jstr (sanitizeClass s)
      ∧ ∀ c ∈ (sanitizeClass s).toList, isClassChar c = true := by
  have hov := setOptions_fold_override config defaultOptions opts hnd h "expanded_class"
    (JVal.jstr s) hmem (by decide)
  rcases hov.1 rfl with ⟨s2, hs2, hv⟩
  have hss : s2 = s := by
    cases hs2
    rfl
  rw [hss] at hv
  exact ⟨hv, getOption_single hv rfl, sanitizeClass_chars s⟩

/-- Witness for C9 at a concrete configuration. -/
theorem claim_C9_witness :
    setOptions [("expanded_class", JVal.jstr "open menu!")]
        = some ((setOptions [("expanded_class", JVal.jstr "open menu!")]).getD [])
      ∧ (([("expanded_class", JVal.jstr "open menu!")].map
          (fun p : String × JVal => p.1)).Nodup)
      ∧ (("expanded_class", JVal.jstr "open menu!")
          ∈ [("expanded_class", JVal.jstr "open menu!")])
      ∧ getOption ((setOptions [("expanded_class", JVal.jstr "open menu!")]).getD [])
          ["expanded_class"] = JVal.jstr "openmenu"
      ∧ (∀ c ∈ (sanitizeClass "open menu!").toList, isClassChar c = true) := by
  have h := claim_C9 [("expanded_class", JVal.jstr "open menu!")]
    ((setOptions [("expanded_class", JVal.jstr "open menu!")]).getD []) rfl
    (by decide) "open menu!" (List.mem_cons_self _ _)
  refine ⟨rfl, by decide, List.mem_cons_self _ _, ?_, h.2.2⟩
  rw [h.2.1]
  rfl

/-- A present key is among the keys. -/
theorem lookup_isSome_mem {k : String} :
    ∀ {l : List (String × JVal)}, ((l.lookup k).isSome = true) → k ∈ l.map (fun p => p.1) := by
  intro l
  induction l with
  | nil => intro h; cases h
  | cons p ps ih =>
    intro h
    rcases p with ⟨k1, v1⟩
    cases hb : (k == k1) with
    | true =>
      have : k = k1 := beq_iff_eq.mp hb
      rw [List.map_cons, this]
      exact List.mem_cons_self _ _
    | false =>
      rw [List.lookup_cons, hb] at h
      exact List.mem_cons_of_mem _ (ih h)

/-- Lower-casing keeps an allowed attribute name allowed. -/
theorem allowedAttrName_lower {j : String} (h : allowedAttrName j = true) :
    allowedAttrName (lowerStr j) = true := by
  unfold allowedAttrName at h ⊢
  rcases Bool.or_eq_true_iff.mp h with h1 | h2
  · rcases Bool.or_eq_true_iff.mp h1 with hc | ha
    · have hj : j = "class" ∨ j = "tabindex" ∨ j = "title" := by
        have := hc
        simp [List.contains_eq_any_beq] at this
        tauto
      rcases hj with hj | hj | hj <;> rw [hj] <;> decide
    · have hp : strStarts "aria-" (lowerStr j) = true := by
        unfold strStarts at ha ⊢
        rw [List.isPrefixOf_iff_prefix] at ha ⊢
        rcases ha with ⟨t, ht⟩
        have hfix : "aria-".toList.map Char.toLower = "aria-".toList := by decide
        refine ⟨t.map Char.toLower, ?_⟩
        show "aria-".toList ++ t.map Char.toLower = (lowerStr j).toList
        have hl : (lowerStr j).toList = j.toList.map Char.toLower := rfl
        rw [hl, ← ht, List.map_append, hfix]
      rw [hp]
      simp
  · have hp : strStarts "data-" (lowerStr j) = true := by
      unfold strStarts at h2 ⊢
      rw [List.isPrefixOf_iff_prefix] at h2 ⊢
      rcases h2 with ⟨t, ht⟩
      have hfix : "data-".toList.map Char.toLower = "data-".toList := by decide
      refine ⟨t.map Char.toLower, ?_⟩
      show "data-".toList ++ t.map Char.toLower = (lowerStr j).toList
      have hl : (lowerStr j).toList = j.toList.map Char.toLower := rfl
      rw [hl, ← ht, List.map_append, hfix]
    rw [hp]
    simp

/-- Keys present after the allowed-attribute fold of `getButton`. -/
theorem gbFold_isSome (vf : String → String) :
    ∀ (keys : List String) (acc : List (String × String)) (n : String),
      (((keys.foldl (fun acc name => if allowedAttrName name then
            setAttrList acc (lowerStr name) (vf name) else acc) acc).lookup n).isSome = true) →
        ((acc.lookup n).isSome = true)
          ∨ ∃ k ∈ keys, allowedAttrName k = true ∧ n = lowerStr k := by
  intro keys
  induction keys with
  | nil =>
    intro acc n h
    exact Or.inl h
  | cons k1 rest ih =>
    intro acc n h
    rw [List.foldl_cons] at h
    by_cases ha : allowedAttrName k1 = true
    · rw [if_pos ha] at h
      rcases ih (setAttrList acc (lowerStr k1) (vf k1)) n h with h2 | h2
      · rw [isSome_lookup_setAttrList] at h2
        by_cases hn : n = lowerStr k1
        · exact Or.inr ⟨k1, List.mem_cons_self _ _, ha, hn⟩
        · rw [if_neg hn] at h2
          exact Or.inl h2
      · rcases h2 with ⟨k, hk, hall, hlow⟩
        exact Or.inr ⟨k, List.mem_cons_of_mem _ hk, hall, hlow⟩
    · rw [if_neg ha] at h
      rcases ih acc n h with h2 | h2
      · exact Or.inl h2
      · rcases h2 with ⟨k, hk, hall, hlow⟩
        exact Or.inr ⟨k, List.mem_cons_of_mem _ hk, hall, hlow⟩

/-- Keys the allowed-attribute fold of `getButton` does not write. -/
theorem gbFold_keep (vf : String → String) :
    ∀ (keys : List String) (acc : List (String × String)) (n : String),
      (∀ k ∈ keys, allowedAttrName k = true → lowerStr k ≠ n) →
      (keys.foldl (fun acc name => if allowedAttrName name then
          setAttrList acc (lowerStr name) (vf name) else acc) acc).lookup n = acc.lookup n := by
  intro keys
  induction keys with
  | nil =>
    intro acc n _
    rfl
  | cons k1 rest ih =>
    intro acc n hk
    rw [List.foldl_cons]
    by_cases ha : allowedAttrName k1 = true
    · rw [if_pos ha]
      rw [ih _ n (fun k hkm => hk k (List.mem_cons_of_mem _ hkm))]
      exact lookup_setAttrList_ne _ (fun hc => hk k1 (List.mem_cons_self _ _) ha hc.symm) acc
    · rw [if_neg ha]
      exact ih acc n (fun k hkm => hk k (List.mem_cons_of_mem _ hkm))

/-- When every allowed name lower-cases to a valid attribute name, the
fallible attribute loop of `getButton` is the total fold. -/
theorem gbFoldM_eq (vf : String → String) :
    ∀ (keys : List String) (acc : List (String × String)),
      (∀ k ∈ keys, allowedAttrName k = true → validAttrName (lowerStr k) = true) →
      keys.foldlM (fun acc name =>
          if allowedAttrName name then
            if validAttrName (lowerStr name) then
              some (setAttrList acc (lowerStr name) (vf name))
            else
              none
          else some acc) acc
        = some (keys.foldl (fun acc name => if allowedAttrName name then
            setAttrList acc (lowerStr name) (vf name) else acc) acc) := by
  intro keys
  induction keys with
  | nil =>
    intro acc _
    rfl
  | cons k1 rest ih =>
    intro acc hval
    rw [List.foldlM_cons, List.foldl_cons]
    by_cases ha : allowedAttrName k1 = true
    · rw [if_pos ha, if_pos (hval k1 (List.mem_cons_self _ _) ha), if_pos ha]
      exact ih _ (fun k hk => hval k (List.mem_cons_of_mem _ hk))
    · rw [if_neg ha, if_neg ha]
      exact ih _ (fun k hk => hval k (List.mem_cons_of_mem _ hk))

/-- What `getButton` returns on a non-empty attribute object of valid
allowed names in `button` mode. -/
theorem getButton_run (opts fields : List (String × JVal))
    (hbm : isMode opts "button" = some true) (hne : fields ≠ [])
    (hval : ∀ k ∈ fields.map (fun p => p.1), allowedAttrName k = true →
      validAttrName (lowerStr k) = true) :
    getButton opts (JVal.jobj fields) = some (some (gbResult fields)) := by
  have hkE2 : (fields.map (fun p => p.1)).isEmpty = false := by
    cases fields with
    | nil => exact absurd rfl hne
    | cons p ps => rfl
  unfold getButton gbResult
  simp only [JVal.truthy, jKeys, hbm, if_true, hkE2, Bool.false_eq_true, if_false,
    Option.bind_eq_bind, Option.some_bind, Bool.not_true, Option.pure_def,
    gbFoldM_eq (fun name => jvalToString ((JVal.jobj fields).getProp name))
      (fields.map (fun p => p.1)) [("aria-expanded", "false")] hval]

/-- The built button keeps `aria-expanded="false"` when no configured name
lower-cases to `aria-expanded`. -/
theorem gbResult_expanded (fields : List (String × JVal))
    (hlow : ∀ k ∈ fields.map (fun p => p.1), lowerStr k ≠ "aria-expanded") :
    (gbResult fields).lookup "aria-expanded" = some "false" := by
  unfold gbResult
  have hA1 : ((fields.map (fun p => p.1)).foldl (fun acc name =>
      if allowedAttrName name then
        setAttrList acc (lowerStr name) (jvalToString ((JVal.jobj fields).getProp name))
      else acc) [("aria-expanded", "false")]).lookup "aria-expanded" = some "false" := by
    rw [gbFold_keep (fun name => jvalToString ((JVal.jobj fields).getProp name))
      (fields.map (fun p => p.1)) [("aria-expanded", "false")] "aria-expanded"
      (fun k hk _ => hlow k hk)]
    rfl
  by_cases hpre : (((JVal.jobj fields).getProp "aria-label").isSet
      && (((JVal.jobj fields).getProp "aria-label").getProp "expand").isSet) = true
  · rw [if_pos hpre]
    rw [lookup_setAttrList_ne _ (by decide)]
    exact hA1
  · rw [if_neg hpre]
    exact hA1

/-- Every name on the built button is `aria-expanded` or the lower-cased
form of an allowed configured name. -/
theorem gbResult_names (fields : List (String × JVal)) (n : String)
    (h : ((gbResult fields).lookup n).isSome = true) :
    n = "aria-expanded"
      ∨ ∃ k ∈ fields.map (fun p => p.1), allowedAttrName k = true ∧ n = lowerStr k := by
  unfold gbResult at h
  have hA1 : ∀ m, (((fields.map (fun p => p.1)).foldl (fun acc name =>
      if allowedAttrName name then
        setAttrList acc (lowerStr name) (jvalToString ((JVal.jobj fields).getProp name))
      else acc) [("aria-expanded", "false")]).lookup m).isSome = true →
      m = "aria-expanded"
        ∨ ∃ k ∈ fields.map (fun p => p.1), allowedAttrName k = true ∧ m = lowerStr k := by
    intro m hm
    rcases gbFold_isSome (fun name => jvalToString ((JVal.jobj fields).getProp name))
      (fields.map (fun p => p.1)) [("aria-expanded", "false")] m hm with h0 | h0
    · left
      rcases hb : (m == "aria-expanded") with _ | _
      · rw [List.lookup_cons, hb] at h0
        simp [List.lookup] at h0
      · exact beq_iff_eq.mp hb
    · exact Or.inr h0
  by_cases hpre : (((JVal.jobj fields).getProp "aria-label").isSet
      && (((JVal.jobj fields).getProp "aria-label").getProp "expand").isSet) = true
  · rw [if_pos hpre] at h
    rw [isSome_lookup_setAttrList] at h
    by_cases hn : n = "aria-label"
    · right
      refine ⟨"aria-label", ?_, by decide, by rw [hn]; decide⟩
      have hset : ((JVal.jobj fields).getProp "aria-label").isSet = true :=
        ((Bool.and_eq_true _ _).mp hpre).1
      have hsome : ((fields.lookup "aria-label").isSome) = true := by
        rcases ho : fields.lookup "aria-label" with _ | v
        · rw [show (JVal.jobj fields).getProp "aria-label"
              = (fields.lookup "aria-label").getD JVal.undef from rfl, ho] at hset
          cases hset
        · rfl
      exact lookup_isSome_mem hsome
    · rw [if_neg hn] at h
      exact hA1 n h
  · rw [if_neg hpre] at h
    exact hA1 n h

/-- A non-allowed configured name never appears on the built button. -/
theorem gbResult_blocked (fields : List (String × JVal)) (k : String)
    (hall : allowedAttrName k = false) :
    (gbResult fields).lookup k = none := by
  rcases ho : (gbResult fields).lookup k with _ | v
  · rfl
  · have hs : ((gbResult fields).lookup k).isSome = true := by rw [ho]; rfl
    rcases gbResult_names fields k hs with h | ⟨j, _, hja, hjl⟩
    · rw [h] at hall
      cases hall
    · have := allowedAttrName_lower hja
      rw [← hjl] at this
      rw [this] at hall
      cases hall

/-- Claim C10 counterexample: `getButton` does not return a button for
every non-empty attribute object — a configured name that passes the
`aria-`/`data-` prefix check but is not a valid attribute name (here
`"aria- x"`, with a space) makes `setAttribute` throw
`InvalidCharacterError`, modelled as `none`. -/
theorem claim_C10_counterexample :
    ([("aria- x", JVal.jstr "y")] : List (String × JVal)) ≠ []
      ∧ isMode defaultOptions "button" = some true
      ∧ getButton defaultOptions (JVal.jobj [("aria- x", JVal.jstr "y")]) = none := by
  exact ⟨List.cons_ne_nil _ _, rfl, by decide⟩

/-- Claim C10 (amended): in `button` mode, a non-empty attribute object all
of whose allowed names lower-case to valid attribute names yields a button
whose `aria-expanded` starts as `"false"` (kept unless a configured name
lower-cases to `aria-expanded`), carrying only configured names that are
`class`, `tabindex`, `title` or start with `aria-`/`data-` (lower-cased
when set) besides the mandatory `aria-expanded`; every other configured
name is never set, and an empty attribute object yields no button.  An
allowed-prefixed name that is not a valid attribute name instead makes
`setAttribute` throw, as the counterexample shows. -/
theorem claim_C10 (opts fields : List (String × JVal))
    (hbm : isMode opts "button" = some true) :
    getButton opts (JVal.jobj []) = some none
      ∧ (fields ≠ [] →
          (∀ k ∈ fields.map (fun p => p.1), allowedAttrName k = true →
            validAttrName (lowerStr k) = true) →
          ∃ battrs,
          getButton opts (JVal.jobj fields) = some (some battrs)
            ∧ ((∀ k ∈ fields.map (fun p => p.1), lowerStr k ≠ "aria-expanded") →
                battrs.lookup "aria-expanded" = some "false")
            ∧ (∀ n, (battrs.lookup n).isSome = true →
                n = "aria-expanded"
                  ∨ ∃ k ∈ fields.map (fun p => p.1), allowedAttrName k = true ∧ n = lowerStr k)
            ∧ (∀ k, allowedAttrName k = false → battrs.lookup k = none)) := by
  refine ⟨rfl, fun hne hval => ⟨gbResult fields, getButton_run opts fields hbm hne hval,
    gbResult_expanded fields, gbResult_names fields, fun k hk => gbResult_blocked fields k hk⟩⟩

/-- Witness for C10 at the default options and a concrete attribute object
holding an allowed name, a data attribute and a blocked name. -/
theorem claim_C10_witness :
    isMode defaultOptions "button" = some true
      ∧ [("class", JVal.jstr "btn"), ("data-x", JVal.jstr "1"),
          ("onclick", JVal.jstr "hack()")] ≠ ([] : List (String × JVal))
      ∧ getButton defaultOptions (JVal.jobj []) = some none
      ∧ getButton defaultOptions (JVal.jobj [("class", JVal.jstr "btn"),
          ("data-x", JVal.jstr "1"), ("onclick", JVal.jstr "hack()")])
          = some (some (gbResult [("class", JVal.jstr "btn"), ("data-x", JVal.jstr "1"),
              ("onclick", JVal.jstr "hack()")]))
      ∧ (gbResult [("class", JVal.jstr "btn"), ("data-x", JVal.jstr "1"),
          ("onclick", JVal.jstr "hack()")]).lookup "aria-expanded" = some "false"
      ∧ (gbResult [("class", JVal.jstr "btn"), ("data-x", JVal.jstr "1"),
          ("onclick", JVal.jstr "hack()")]).lookup "onclick" = none := by
  have h := claim_C10 defaultOptions
    [("class", JVal.jstr "btn"), ("data-x", JVal.jstr "1"), ("onclick", JVal.jstr "hack()")] rfl
  rcases h.2 (List.cons_ne_nil _ _) (by decide) with ⟨battrs, hrun, hexp, hnames, hblocked⟩
  have hb2 : battrs = gbResult [("class", JVal.jstr "btn"), ("data-x", JVal.jstr "1"),
      ("onclick", JVal.jstr "hack()")] := by
    have := (getButton_run defaultOptions
      [("class", JVal.jstr "btn"), ("data-x", JVal.jstr "1"), ("onclick", JVal.jstr "hack()")]
      rfl (List.cons_ne_nil _ _) (by decide)).symm.trans hrun
    have h2 : gbResult [("class", JVal.jstr "btn"), ("data-x", JVal.jstr "1"),
        ("onclick", JVal.jstr "hack()")] = battrs := by
      simpa using this
    exact h2.symm
  subst hb2
  exact ⟨rfl, List.cons_ne_nil _ _, h.1, hrun, hexp (by decide), hblocked "onclick" (by decide)⟩

/-- Claim C7: `init` is a no-op — it returns the document unchanged and
attaches no listener — whenever the configured menu selector matches no
element or the expanded-class option is empty; and a configured menu that
contains no element matching the child-menu selector is skipped entirely
by the per-menu body. -/
theorem claim_C7 (d : DOM) (config opts : List (String × JVal))
    (sem : String → Option (ElemData → Bool)) (menus0 : List Nat) (cp : ElemData → Bool)
    (hso : setOptions config = some opts)
    (hgm : getMenus d opts sem = some menus0)
    (hcp : sem (jvalToString (getOption opts ["child_menu_selector"])) = some cp) :
    ((menus0 = [] ∨ (getOption opts ["expanded_class"]).truthy = false) →
        a11yInit d config sem = some (d, []))
      ∧ (∀ (dd : DOM) (ls : List Listener) (c m : Nat),
          dd.elems.filter (fun e => isDescOf dd m e.id && cp e) = [] →
          initMenu opts sem (dd, ls, c) m = some (dd, ls, c)) := by
  constructor
  · intro hcond
    unfold a11yInit
    rw [hso]
    simp only [Option.bind_eq_bind, Option.some_bind]
    rw [hgm]
    simp only [Option.some_bind]
    rcases hcond with hm | ht
    · rw [hm]
      simp
    · rw [ht]
      simp
  · intro dd ls c m hflt
    unfold initMenu
    rw [hcp]
    simp only [Option.bind_eq_bind, Option.some_bind]
    rw [hflt]
    rfl

/-- Witness for C7: a selector engine matching nothing for the menu
selector makes `init` a no-op, and a menu-less element is skipped by the
per-menu body. -/
theorem claim_C7_witness :
    setOptions [] = some defaultOptions
      ∧ getMenus wDom defaultOptions
          (fun sel => if sel = "nav .menu" then some (fun _ => false) else wSem sel)
          = some []
      ∧ a11yInit wDom []
          (fun sel => if sel = "nav .menu" then some (fun _ => false) else wSem sel)
          = some (wDom, [])
      ∧ wDom.elems.filter (fun e => isDescOf wDom 2 e.id && wChildPred e) = []
      ∧ initMenu defaultOptions
          (fun sel => if sel = "nav .menu" then some (fun _ => false) else wSem sel)
          (wDom, [], 0) 2 = some (wDom, [], 0) := by
  have h := claim_C7 wDom [] defaultOptions
    (fun sel => if sel = "nav .menu" then some (fun _ => false) else wSem sel)
    [] wChildPred rfl rfl rfl
  exact ⟨rfl, rfl, h.1 (Or.inl rfl), by rfl, h.2 wDom [] 0 2 (by rfl)⟩

/-- Reading `buttonsInSync` as a statement about members. -/
theorem buttonsInSync_iff {cls lc le : String} {menus : List Nat} {d : DOM} :
    buttonsInSync cls lc le menus d = true
      ↔ ∀ e ∈ d.elems, inMenus d menus e.id = true → itemSync cls lc le d e.id = true := by
  unfold buttonsInSync
  rw [List.all_eq_true]
  constructor
  · intro h e he hm
    have := h e he
    rcases Bool.or_eq_true_iff.mp this with h1 | h1
    · rw [Bool.not_eq_true'] at h1
      rw [hm] at h1
      cases h1
    · exact h1
  · intro h e he
    by_cases hm : inMenus d menus e.id = true
    · rw [h e he hm]
      simp
    · rw [Bool.not_eq_true] at hm
      rw [hm]
      simp

/-- Transferring a per-id statement across an id-preserving step. -/
theorem all_ids_transfer {d d' : DOM}
    (h : d'.elems.map (fun e => e.id) = d.elems.map (fun e => e.id)) (P : Nat → Prop) :
    (∀ e ∈ d'.elems, P e.id) ↔ ∀ e ∈ d.elems, P e.id := by
  constructor
  · intro hp e he
    have : e.id ∈ d'.elems.map (fun x => x.id) := by
      rw [h]
      exact List.mem_map_of_mem _ he
    rcases List.mem_map.mp this with ⟨e', he', hid⟩
    rw [← hid]
    exact hp e' he'
  · intro hp e he
    have : e.id ∈ d.elems.map (fun x => x.id) := by
      rw [← h]
      exact List.mem_map_of_mem _ he
    rcases List.mem_map.mp this with ⟨e', he', hid⟩
    rw [← hid]
    exact hp e' he'

/-- Facts about one `onKeyESC` item step (in `button` mode, with the usual
configuration shape). -/
theorem escItemStep_facts {opts : List (String × JVal)} {cls lc le : String}
    (hcls : getOption opts ["expanded_class"] = JVal.jstr cls)
    (hlbl : getOption opts ["button_attributes", "aria-label"]
      = JVal.jobj [("collapse", JVal.jstr lc), ("expand", JVal.jstr le)])
    (hbm : isMode opts "button" = some true)
    {d : DOM} {i : Nat} {d1 : DOM} (hnd : (d.elems.map (fun e => e.id)).Nodup)
    (h : escItemStep opts cls d i = some d1) :
    (∀ j, parentOf d1 j = parentOf d j)
      ∧ (∀ a b, isDescOf d1 a b = isDescOf d a b)
      ∧ (d1.elems.map (fun e => e.id) = d.elems.map (fun e => e.id))
      ∧ (∀ j, syncSafe d1 j = syncSafe d j)
      ∧ hasClass d1 i cls = false
      ∧ (∀ k t, k ≠ i → hasClass d1 k t = hasClass d k t)
      ∧ (∀ k, hasClass d1 k cls = true → hasClass d k cls = true)
      ∧ itemSync cls lc le d1 i = true
      ∧ (syncSafe d i = true → ∀ k, k ≠ i → itemSync cls lc le d1 k = itemSync cls lc le d k) := by
  unfold escItemStep at h
  rcases hA : classRemove d i cls with _ | dA
  · rw [hA] at h
    cases h
  · rw [hA, hbm] at h
    simp only [Option.bind_eq_bind, Option.some_bind, Option.pure_def, Option.some.injEq,
      if_true] at h
    have hfA := classRemove_frame hA
    have hndA : (dA.elems.map (fun e => e.id)).Nodup := by
      rw [hfA.2.2.1]
      exact hnd
    have hfB := changeButtonAttrs_frame hcls hlbl hndA i
    have hoB := changeButtonAttrs_own_frame hcls hlbl hndA i
    have hd1 : d1 = changeButtonAttrs opts dA (some i) := h.symm
    subst hd1
    refine ⟨fun j => (hfB.1 j).trans (hfA.1 j),
      fun a b => (hfB.2.1 a b).trans (hfA.2.1 a b),
      (hfB.2.2.1).trans (hfA.2.2.1),
      fun j => (hoB.2 j).trans (hfA.2.2.2.2.2.2.1 j),
      ?_, ?_, ?_, ?_, ?_⟩
    · rw [hfB.2.2.2.1 i cls]
      exact classRemove_hasClass_self hA
    · intro k t hk
      rw [hfB.2.2.2.1 k t]
      exact classRemove_hasClass_ne hA hk t
    · intro k hkc
      rw [hfB.2.2.2.1 k cls] at hkc
      by_cases hk : k = i
      · subst hk
        rw [classRemove_hasClass_self hA] at hkc
        cases hkc
      · rw [classRemove_hasClass_ne hA hk cls] at hkc
        exact hkc
    · exact changeButtonAttrs_itemSync_self hcls hlbl hndA i
    · intro hsafe k hk
      have hsafeA : syncSafe dA i = true := by
        rw [hfA.2.2.2.2.2.2.1 i]
        exact hsafe
      rw [changeButtonAttrs_itemSync_other hcls hlbl hndA hsafeA hk]
      exact classRemove_itemSync_other hA hk

/-- Facts about the `onKeyESC` inner loop over matched items. -/
theorem escItems_fold {opts : List (String × JVal)} {cls lc le : String}
    (hcls : getOption opts ["expanded_class"] = JVal.jstr cls)
    (hlbl : getOption opts ["button_attributes", "aria-label"]
      = JVal.jobj [("collapse", JVal.jstr lc), ("expand", JVal.jstr le)])
    (hbm : isMode opts "button" = some true) :
    ∀ (items : List Nat) (d d' : DOM),
      (d.elems.map (fun e => e.id)).Nodup →
      (∀ i ∈ items, syncSafe d i = true) →
      items.foldlM (escItemStep opts cls) d = some d' →
      (∀ j, parentOf d' j = parentOf d j)
        ∧ (∀ a b, isDescOf d' a b = isDescOf d a b)
        ∧ (d'.elems.map (fun e => e.id) = d.elems.map (fun e => e.id))
        ∧ (∀ j, syncSafe d' j = syncSafe d j)
        ∧ (∀ k, hasClass d' k cls = true → hasClass d k cls = true)
        ∧ (∀ k ∈ items, hasClass d' k cls = false)
        ∧ (∀ k t, k ∉ items → hasClass d' k t = hasClass d k t)
        ∧ (∀ k, (k ∈ items ∨ itemSync cls lc le d k = true) → itemSync cls lc le d' k = true) := by
  intro items
  induction items with
  | nil =>
    intro d d' _ _ h
    cases h
    exact ⟨fun j => rfl, fun a b => rfl, rfl, fun j => rfl, fun k hk => hk,
      fun k hk => (List.not_mem_nil k hk).elim, fun k t _ => rfl,
      fun k hk => by
        rcases hk with hk | hk
        · exact (List.not_mem_nil k hk).elim
        · exact hk⟩
  | cons i rest ih =>
    intro d d' hnd hsafes h
    rw [List.foldlM_cons] at h
    rcases h1 : escItemStep opts cls d i with _ | d1
    · rw [h1] at h
      cases h
    · rw [h1] at h
      have hstep := escItemStep_facts hcls hlbl hbm hnd h1
      have hnd1 : (d1.elems.map (fun e => e.id)).Nodup := by
        rw [hstep.2.2.1]
        exact hnd
      have hsafes1 : ∀ j ∈ rest, syncSafe d1 j = true := by
        intro j hj
        rw [hstep.2.2.2.1 j]
        exact hsafes j (List.mem_cons_of_mem _ hj)
      have hrec := ih d1 d' hnd1 hsafes1 h
      have hsafei : syncSafe d i = true := hsafes i (List.mem_cons_self _ _)
      refine ⟨fun j => (hrec.1 j).trans (hstep.1 j),
        fun a b => (hrec.2.1 a b).trans (hstep.2.1 a b),
        (hrec.2.2.1).trans (hstep.2.2.1),
        fun j => (hrec.2.2.2.1 j).trans (hstep.2.2.2.1 j),
        ?_, ?_, ?_, ?_⟩
      · intro k hk
        exact hstep.2.2.2.2.2.2.1 k (hrec.2.2.2.2.1 k hk)
      · intro k hk
        rcases List.mem_cons.mp hk with hk | hk
        · subst hk
          rcases hv : hasClass d' k cls with _ | _
          · rfl
          · have := hrec.2.2.2.2.1 k hv
            rw [hstep.2.2.2.2.1] at this
            cases this
        · exact hrec.2.2.2.2.2.1 k hk
      · intro k t hk
        have hki : k ≠ i := fun hc => hk (hc ▸ List.mem_cons_self _ _)
        have hkr : k ∉ rest := fun hc => hk (List.mem_cons_of_mem _ hc)
        rw [hrec.2.2.2.2.2.2.1 k t hkr]
        exact hstep.2.2.2.2.2.1 k t hki
      · intro k hk
        rcases hk with hk | hk
        · rcases List.mem_cons.mp hk with hk | hk
          · subst hk
            apply hrec.2.2.2.2.2.2.2 k
            right
            exact hstep.2.2.2.2.2.2.2.1
          · exact hrec.2.2.2.2.2.2.2 k (Or.inl hk)
        · by_cases hki : k = i
          · subst hki
            apply hrec.2.2.2.2.2.2.2 k
            right
            exact hstep.2.2.2.2.2.2.2.1
          · apply hrec.2.2.2.2.2.2.2 k
            right
            rw [hstep.2.2.2.2.2.2.2.2 hsafei k hki]
            exact hk

/-- Facts about one `onKeyESC` menu step. -/
theorem escMenuStep_facts {opts : List (String × JVal)} {cls lc le : String}
    (hcls : getOption opts ["expanded_class"] = JVal.jstr cls)
    (hlbl : getOption opts ["button_attributes", "aria-label"]
      = JVal.jobj [("collapse", JVal.jstr lc), ("expand", JVal.jstr le)])
    (hbm : isMode opts "button" = some true)
    {menus : List Nat} {d : DOM} {m : Nat} {d' : DOM}
    (hnd : (d.elems.map (fun e => e.id)).Nodup)
    (hm : m ∈ menus)
    (hsafes : ∀ e ∈ d.elems, inMenus d menus e.id = true → syncSafe d e.id = true)
    (h : escMenuStep opts cls d m = some d') :
    (∀ j, parentOf d' j = parentOf d j)
      ∧ (∀ a b, isDescOf d' a b = isDescOf d a b)
      ∧ (d'.elems.map (fun e => e.id) = d.elems.map (fun e => e.id))
      ∧ (∀ j, syncSafe d' j = syncSafe d j)
      ∧ (∀ k, hasClass d' k cls = true → hasClass d k cls = true)
      ∧ (∀ k, isDescOf d m k = true → hasClass d' k cls = false)
      ∧ (∀ k, itemSync cls lc le d k = true → itemSync cls lc le d' k = true) := by
  unfold escMenuStep at h
  by_cases hcl : cls = ""
  · rw [if_pos hcl] at h
    cases h
  · rw [if_neg hcl] at h
    have hsafes2 : ∀ i ∈ (d.elems.filter (fun e =>
        isDescOf d m e.id && e.classes.contains cls)).map (fun e => e.id), syncSafe d i = true := by
      intro i hi
      rcases List.mem_map.mp hi with ⟨e, hef, hei⟩
      rcases List.mem_filter.mp hef with ⟨hel, hep⟩
      rcases (Bool.and_eq_true _ _).mp hep with ⟨hdesc, _⟩
      have hin : inMenus d menus e.id = true := by
        unfold inMenus
        rw [List.any_eq_true]
        exact ⟨m, hm, hdesc⟩
      rw [← hei]
      exact hsafes e hel hin
    have hfold := escItems_fold hcls hlbl hbm _ d d' hnd hsafes2 h
    refine ⟨hfold.1, hfold.2.1, hfold.2.2.1, hfold.2.2.2.1, hfold.2.2.2.2.1, ?_, ?_⟩
    · intro k hdesc
      rcases hv : hasClass d k cls with _ | _
      · rcases hv2 : hasClass d' k cls with _ | _
        · rfl
        · have := hfold.2.2.2.2.1 k hv2
          rw [hv] at this
          cases this
      · have hke : ∃ e ∈ d.elems, e.id = k := by
          unfold hasClass at hv
          rcases hq : d.find? k with _ | e
          · rw [hq] at hv
            cases hv
          · exact ⟨e, List.mem_of_find?_eq_some hq, find?_id hq⟩
        rcases hke with ⟨e, hel, hek⟩
        have hcont : e.classes.contains cls = true := by
          unfold hasClass at hv
          rw [mem_id_find? hnd hel hek] at hv
          exact hv
        have hmem : k ∈ (d.elems.filter (fun x =>
            isDescOf d m x.id && x.classes.contains cls)).map (fun x => x.id) := by
          rw [← hek]
          apply List.mem_map_of_mem
          rw [List.mem_filter]
          exact ⟨hel, by rw [hek, hdesc, hcont]; rfl⟩
        exact hfold.2.2.2.2.2.1 k hmem
    · intro k hk
      exact hfold.2.2.2.2.2.2.2 k (Or.inr hk)

/-- Facts about the `onKeyESC` outer loop over menus. -/
theorem escMenus_fold {opts : List (String × JVal)} {cls lc le : String}
    (hcls : getOption opts ["expanded_class"] = JVal.jstr cls)
    (hlbl : getOption opts ["button_attributes", "aria-label"]
      = JVal.jobj [("collapse", JVal.jstr lc), ("expand", JVal.jstr le)])
    (hbm : isMode opts "button" = some true) {menus : List Nat} :
    ∀ (ms : List Nat) (d d' : DOM),
      (d.elems.map (fun e => e.id)).Nodup →
      (∀ m ∈ ms, m ∈ menus) →
      (∀ e ∈ d.elems, inMenus d menus e.id = true → syncSafe d e.id = true) →
      ms.foldlM (escMenuStep opts cls) d = some d' →
      (∀ a b, isDescOf d' a b = isDescOf d a b)
        ∧ (d'.elems.map (fun e => e.id) = d.elems.map (fun e => e.id))
        ∧ (∀ k, hasClass d' k cls = true → hasClass d k cls = true)
        ∧ (∀ m ∈ ms, ∀ k, isDescOf d m k = true → hasClass d' k cls = false)
        ∧ (∀ k, itemSync cls lc le d k = true → itemSync cls lc le d' k = true) := by
  intro ms
  induction ms with
  | nil =>
    intro d d' _ _ _ h
    cases h
    exact ⟨fun a b => rfl, rfl, fun k hk => hk,
      fun m hm => (List.not_mem_nil m hm).elim, fun k hk => hk⟩
  | cons m rest ih =>
    intro d d' hnd hsub hsafes h
    rw [List.foldlM_cons] at h
    rcases h1 : escMenuStep opts cls d m with _ | d1
    · rw [h1] at h
      cases h
    · rw [h1] at h
      have hstep := escMenuStep_facts hcls hlbl hbm hnd (hsub m (List.mem_cons_self _ _)) hsafes h1
      have hnd1 : (d1.elems.map (fun e => e.id)).Nodup := by
        rw [hstep.2.2.1]
        exact hnd
      have hin1 : ∀ x, inMenus d1 menus x = inMenus d menus x := by
        intro x
        unfold inMenus
        have hfx : (fun m => isDescOf d1 m x) = (fun m => isDescOf d m x) :=
          funext (fun m => hstep.2.1 m x)
        rw [hfx]
      have hsafes1 : ∀ e ∈ d1.elems, inMenus d1 menus e.id = true → syncSafe d1 e.id = true := by
        intro e he hin
        rw [hstep.2.2.2.1 e.id]
        have : e.id ∈ d.elems.map (fun x => x.id) := by
          rw [← hstep.2.2.1]
          exact List.mem_map_of_mem _ he
        rcases List.mem_map.mp this with ⟨e0, he0, hid⟩
        rw [← hid]
        apply hsafes e0 he0
        rw [hid]
        rw [← hin1 e.id]
        exact hin
      have hrec := ih d1 d' hnd1 (fun x hx => hsub x (List.mem_cons_of_mem _ hx)) hsafes1 h
      refine ⟨fun a b => (hrec.1 a b).trans (hstep.2.1 a b),
        (hrec.2.1).trans (hstep.2.2.1),
        fun k hk => hstep.2.2.2.2.1 k (hrec.2.2.1 k hk), ?_, ?_⟩
      · intro m2 hm2 k hdesc
        rcases List.mem_cons.mp hm2 with hm2 | hm2
        · subst hm2
          rcases hv : hasClass d' k cls with _ | _
          · rfl
          · have := hrec.2.2.1 k hv
            rw [hstep.2.2.2.2.2.1 k hdesc] at this
            cases this
        · apply hrec.2.2.2.1 m2 hm2 k
          rw [hstep.2.1 m2 k]
          exact hdesc
      · intro k hk
        exact hrec.2.2.2.2 k (hstep.2.2.2.2.2.2 k hk)

/-- Claim C2: on an Escape key press (keyCode 27) the handler walks every
configured menu and, for every menu item carrying the expanded class,
removes that class and refreshes the item's toggle button; afterwards no
element inside any configured menu carries the expanded class, and the
button–class synchronisation invariant is preserved. -/
theorem claim_C2 (opts : List (String × JVal)) (menus : List Nat) (d d' : DOM)
    (cls lc le : String)
    (hcls : getOption opts ["expanded_class"] = JVal.jstr cls)
    (hlbl : getOption opts ["button_attributes", "aria-label"]
      = JVal.jobj [("collapse", JVal.jstr lc), ("expand", JVal.jstr le)])
    (hbm : isMode opts "button" = some true)
    (hnd : (d.elems.map (fun e => e.id)).Nodup)
    (hsafes : ∀ e ∈ d.elems, inMenus d menus e.id = true → syncSafe d e.id = true)
    (hsync : buttonsInSync cls lc le menus d = true)
    (hrun : onKeyESC opts menus d 27 = some d') :
    (∀ m ∈ menus, ∀ k, isDescOf d' m k = true → hasClass d' k cls = false)
      ∧ buttonsInSync cls lc le menus d' = true := by
  unfold onKeyESC at hrun
  rw [if_pos rfl, hcls] at hrun
  have hrun2 : menus.foldlM (escMenuStep opts cls) d = some d' := hrun
  have hfold := escMenus_fold hcls hlbl hbm menus d d' hnd (fun m hm => hm) hsafes hrun2
  constructor
  · intro m hm k hdesc
    apply hfold.2.2.2.1 m hm k
    rw [← hfold.1 m k]
    exact hdesc
  · rw [buttonsInSync_iff]
    intro e he hin
    have : e.id ∈ d.elems.map (fun x => x.id) := by
      rw [← hfold.2.1]
      exact List.mem_map_of_mem _ he
    rcases List.mem_map.mp this with ⟨e0, he0, hid⟩
    rw [← hid]
    apply hfold.2.2.2.2
    have hin0 : inMenus d menus e0.id = true := by
      rw [hid]
      have hin1 : ∀ x, inMenus d' menus x = inMenus d menus x := by
        intro x
        unfold inMenus
        have hfx : (fun m => isDescOf d' m x) = (fun m => isDescOf d m x) :=
          funext (fun m => hfold.1 m x)
        rw [hfx]
      rw [← hin1 e.id]
      exact hin
    exact (buttonsInSync_iff.mp hsync) e0 he0 hin0

/-- Witness for C2 on the fixture document (item A expanded, item B
collapsed; both buttons in sync). -/
theorem claim_C2_witness :
    getOption defaultOptions ["expanded_class"] = JVal.jstr wCls
      ∧ buttonsInSync wCls wLc wLe [0] wDom = true
      ∧ onKeyESC defaultOptions [0] wDom 27
          = some ((onKeyESC defaultOptions [0] wDom 27).getD wDom)
      ∧ (∀ m ∈ [0], ∀ k, isDescOf ((onKeyESC defaultOptions [0] wDom 27).getD wDom) m k = true →
            hasClass ((onKeyESC defaultOptions [0] wDom 27).getD wDom) k wCls = false)
      ∧ buttonsInSync wCls wLc wLe [0] ((onKeyESC defaultOptions [0] wDom 27).getD wDom) = true := by
  have h := claim_C2 defaultOptions [0] wDom ((onKeyESC defaultOptions [0] wDom 27).getD wDom)
    wCls wLc wLe rfl rfl rfl (by decide) (by decide) (by decide) rfl
  exact ⟨rfl, by decide, rfl, h.1, h.2⟩

/-- Membership gives `contains`. -/
theorem contains_of_mem {l : List Nat} {i : Nat} (h : i ∈ l) : l.contains i = true := by
  induction l with
  | nil => cases h
  | cons a as ih =>
    rw [List.contains_cons]
    rcases List.mem_cons.mp h with h | h
    · subst h; simp
    · rw [ih h]; simp

/-- A successful `classAdd` never clears a containment of its token. -/
theorem classAdd_hasClass_mono {d : DOM} {i : Nat} {tok : String} {d' : DOM}
    (h : classAdd d i tok = some d') {k : Nat}
    (hk : hasClass d k tok = true) : hasClass d' k tok = true := by
  by_cases hki : k = i
  · subst hki
    rcases hf : d.find? k with _ | e
    · unfold hasClass at hk
      rw [hf] at hk
      cases hk
    · exact classAdd_hasClass_self h hf
  · rw [classAdd_hasClass_ne h hki]
    exact hk

/-- A successful `classRemove` never creates a containment of its token. -/
theorem classRemove_hasClass_antimono {d : DOM} {i : Nat} {tok : String} {d' : DOM}
    (h : classRemove d i tok = some d') {k : Nat}
    (hk : hasClass d k tok = false) : hasClass d' k tok = false := by
  by_cases hki : k = i
  · subst hki
    exact classRemove_hasClass_self h
  · rw [classRemove_hasClass_ne h hki]
    exact hk

/-- Class facts of a `classList.add` loop: untouched elements keep their
classes, a containment is never cleared, and every present loop target ends
up with the token. -/
theorem foldlM_classAdd_facts {cls : String} :
    ∀ (l : List Nat) (d d' : DOM),
      l.foldlM (fun dd p => classAdd dd p cls) d = some d' →
      (∀ k t, k ∉ l → hasClass d' k t = hasClass d k t)
        ∧ (∀ k, hasClass d k cls = true → hasClass d' k cls = true)
        ∧ (∀ p ∈ l, p ∈ d.elems.map (fun e => e.id) → hasClass d' p cls = true) := by
  intro l
  induction l with
  | nil =>
    intro d d' h
    cases h
    exact ⟨fun k t _ => rfl, fun k hk => hk, fun p hp => (List.not_mem_nil p hp).elim⟩
  | cons i rest ih =>
    intro d d' h
    rw [List.foldlM_cons] at h
    rcases h1 : classAdd d i cls with _ | d1
    · rw [h1] at h; cases h
    · rw [h1] at h
      have hfr := classAdd_frame h1
      have hrec := ih d1 d' h
      refine ⟨?_, ?_, ?_⟩
      · intro k t hk
        rw [hrec.1 k t (fun hc => hk (List.mem_cons_of_mem _ hc)),
          classAdd_hasClass_ne h1 (fun hc => hk (hc ▸ List.mem_cons_self _ _))]
      · intro k hk
        exact hrec.2.1 k (classAdd_hasClass_mono h1 hk)
      · intro p hp hpid
        rcases List.mem_cons.mp hp with hp | hp
        · subst hp
          rcases List.mem_map.mp hpid with ⟨e, he, hid⟩
          rcases hf : d.find? p with _ | e0
          · have := find?_isSome_of_mem he hid
            rw [hf] at this
            cases this
          · exact hrec.2.1 p (classAdd_hasClass_self h1 hf)
        · apply hrec.2.2 p hp
          rw [hfr.2.2.1]
          exact hpid

/-- Class facts of a `classList.remove` loop. -/
theorem foldlM_classRemove_facts {cls : String} :
    ∀ (l : List Nat) (d d' : DOM),
      l.foldlM (fun dd p => classRemove dd p cls) d = some d' →
      (∀ k t, k ∉ l → hasClass d' k t = hasClass d k t)
        ∧ (∀ k, hasClass d k cls = false → hasClass d' k cls = false)
        ∧ (∀ p ∈ l, hasClass d' p cls = false) := by
  intro l
  induction l with
  | nil =>
    intro d d' h
    cases h
    exact ⟨fun k t _ => rfl, fun k hk => hk, fun p hp => (List.not_mem_nil p hp).elim⟩
  | cons i rest ih =>
    intro d d' h
    rw [List.foldlM_cons] at h
    rcases h1 : classRemove d i cls with _ | d1
    · rw [h1] at h; cases h
    · rw [h1] at h
      have hrec := ih d1 d' h
      refine ⟨?_, ?_, ?_⟩
      · intro k t hk
        rw [hrec.1 k t (fun hc => hk (List.mem_cons_of_mem _ hc)),
          classRemove_hasClass_ne h1 (fun hc => hk (hc ▸ List.mem_cons_self _ _))]
      · intro k hk
        exact hrec.2.1 k (classRemove_hasClass_antimono h1 hk)
      · intro p hp
        rcases List.mem_cons.mp hp with hp | hp
        · subst hp
          exact hrec.2.1 p (classRemove_hasClass_self h1)
        · exact hrec.2.2 p hp

/-- A button-refresh loop leaves every classList untouched. -/
theorem foldl_syncB_hasClass {opts : List (String × JVal)} {cls lc le : String}
    (hcls : getOption opts ["expanded_class"] = JVal.jstr cls)
    (hlbl : getOption opts ["button_attributes", "aria-label"]
      = JVal.jobj [("collapse", JVal.jstr lc), ("expand", JVal.jstr le)]) :
    ∀ (l : List Nat) (d : DOM),
      (d.elems.map (fun e => e.id)).Nodup →
      ∀ k t, hasClass (l.foldl (fun dd p => changeButtonAttrs opts dd (some p)) d) k t
        = hasClass d k t := by
  intro l
  induction l with
  | nil => intro d _ k t; rfl
  | cons i rest ih =>
    intro d hnd k t
    rw [List.foldl_cons]
    have hfr := changeButtonAttrs_frame hcls hlbl hnd i
    have hnd1 : ((changeButtonAttrs opts d (some i)).elems.map (fun e => e.id)).Nodup := by
      rw [hfr.2.2.1]; exact hnd
    rw [ih (changeButtonAttrs opts d (some i)) hnd1 k t, hfr.2.2.2.1 k t]

/-- A `syncB`-only script is covered. -/
theorem covered_syncB (l : List Nat) : covered (l.map MOp.syncB) = true := by
  have := covered_syncB_append l [] covered_nil
  simpa using this

/-- `covered` steps over a refresh operation. -/
theorem covered_syncB_cons (i : Nat) (s : List MOp) :
    covered (MOp.syncB i :: s) = covered s := rfl

/-- Facts about a successful focusin run: every matched element of the
walked chain carries the expanded class and is in sync afterwards. -/
theorem onFocus_in_facts {opts : List (String × JVal)} {cls lc le : String}
    {menus : List Nat} {d d' : DOM} {target : Nat} {l : List Nat}
    (hcls : getOption opts ["expanded_class"] = JVal.jstr cls)
    (hlbl : getOption opts ["button_attributes", "aria-label"]
      = JVal.jobj [("collapse", JVal.jstr lc), ("expand", JVal.jstr le)])
    (hbm : isMode opts "button" = some true)
    (hnd : (d.elems.map (fun e => e.id)).Nodup)
    (hw : walkToMenu d menus (walkFuel d) target = some l)
    (hsafep : ∀ p ∈ l.filter (fun i => matchesHaspopup d i), syncSafe d p = true)
    (hsafet : ((parentOf d target).map (fun x => syncSafe d x)).getD true = true)
    (hin : ∀ p ∈ l.filter (fun i => matchesHaspopup d i), p ∈ d.elems.map (fun e => e.id))
    (hrun : onFocus opts menus d "focusin" target = some d') :
    ∀ p ∈ l.filter (fun i => matchesHaspopup d i),
      hasClass d' p cls = true ∧ itemSync cls lc le d' p = true := by
  unfold onFocus at hrun
  rw [hw] at hrun
  rw [hcls] at hrun
  simp only [Option.bind_eq_bind, Option.some_bind, jvalToString, if_true] at hrun
  rw [hbm] at hrun
  simp only [Option.some_bind, Option.pure_def, reduceIte] at hrun
  rcases h1 : (l.filter (fun i => matchesHaspopup d i)).foldlM
      (fun dd p => classAdd dd p cls) d with _ | d1
  · rw [h1] at hrun
    simp only [Option.none_bind] at hrun
    cases hrun
  · rw [h1] at hrun
    simp only [Option.some_bind] at hrun
    have hd' : d' = (l.filter (fun i => matchesHaspopup d i)).foldl
        (fun dd p => changeButtonAttrs opts dd (some p))
        (changeButtonAttrs opts d1 (parentOf d1 target)) :=
      (Option.some.injEq _ _ ▸ hrun).symm
    have hrs1 : runScript opts cls
        ((l.filter (fun i => matchesHaspopup d i)).map MOp.addC) d = some d1 := by
      rw [← bridge_addC]
      exact h1
    have hfrm1 := runScript_frame hcls hlbl _ d d1 hnd hrs1
    have hnd1 : (d1.elems.map (fun e => e.id)).Nodup := by
      rw [hfrm1.2.2.1]; exact hnd
    have hpt : parentOf d1 target = parentOf d target := hfrm1.1 target
    have hadd := foldlM_classAdd_facts (l.filter (fun i => matchesHaspopup d i)) d d1 h1
    rcases hpo : parentOf d target with _ | pt
    · have hd2 : changeButtonAttrs opts d1 (parentOf d1 target) = d1 := by
        rw [hpt, hpo]
        rfl
      rw [hd2] at hd'
      have hrs : runScript opts cls
          ((l.filter (fun i => matchesHaspopup d i)).map MOp.addC
            ++ (l.filter (fun i => matchesHaspopup d i)).map MOp.syncB) d = some d' := by
        rw [runScript_append, hrs1]
        simp only [Option.some_bind]
        rw [bridge_syncB, hd']
      have hcov : covered ((l.filter (fun i => matchesHaspopup d i)).map MOp.addC
          ++ (l.filter (fun i => matchesHaspopup d i)).map MOp.syncB) = true :=
        covered_addC_append _ _
          (fun i hi => by
            rw [(needSync_shapes _).2.2]
            exact contains_of_mem hi)
          (covered_syncB _)
      have hsafeS : ∀ i, MOp.syncB i ∈ ((l.filter (fun i => matchesHaspopup d i)).map MOp.addC
          ++ (l.filter (fun i => matchesHaspopup d i)).map MOp.syncB) →
          syncSafe d i = true := by
        intro i hi
        rcases List.mem_append.mp hi with hi | hi
        · rcases List.mem_map.mp hi with ⟨x, _, hx⟩
          exact MOp.noConfusion hx
        · rcases List.mem_map.mp hi with ⟨x, hxm, hx⟩
          have hxi : x = i := by injection hx
          rw [← hxi]
          exact hsafep x hxm
      intro p hp
      have hcls1 : hasClass d1 p cls = true := hadd.2.2 p hp (hin p hp)
      refine ⟨?_, ?_⟩
      · rw [hd', foldl_syncB_hasClass hcls hlbl _ d1 hnd1 p cls]
        exact hcls1
      · apply runScript_sync hcls hlbl _ d d' hnd hrs hcov hsafeS p
        rw [needSync_append, (needSync_shapes _).1, List.nil_append, (needSync_shapes _).2.2,
          contains_of_mem hp]
        simp
    · have hd2 : changeButtonAttrs opts d1 (parentOf d1 target)
          = changeButtonAttrs opts d1 (some pt) := by
        rw [hpt, hpo]
      rw [hd2] at hd'
      have hsafetpt : syncSafe d pt = true := by
        rw [hpo] at hsafet
        simpa using hsafet
      have hrs : runScript opts cls
          ((l.filter (fun i => matchesHaspopup d i)).map MOp.addC
            ++ (MOp.syncB pt :: (l.filter (fun i => matchesHaspopup d i)).map MOp.syncB)) d
          = some d' := by
        rw [runScript_append, hrs1]
        simp only [Option.some_bind]
        rw [runScript_cons]
        simp only [runOp, Option.some_bind]
        rw [bridge_syncB, hd']
      have hns : needSync (MOp.syncB pt :: (l.filter (fun i => matchesHaspopup d i)).map MOp.syncB)
          = pt :: l.filter (fun i => matchesHaspopup d i) := by
        have h2 : needSync (MOp.syncB pt
              :: (l.filter (fun i => matchesHaspopup d i)).map MOp.syncB)
            = pt :: needSync ((l.filter (fun i => matchesHaspopup d i)).map MOp.syncB) := by
          simp [needSync]
        rw [h2, (needSync_shapes _).2.2]
      have hcov : covered ((l.filter (fun i => matchesHaspopup d i)).map MOp.addC
          ++ (MOp.syncB pt :: (l.filter (fun i => matchesHaspopup d i)).map MOp.syncB)) = true :=
        covered_addC_append _ _
          (fun i hi => by
            rw [hns, List.contains_cons, contains_of_mem hi]
            simp)
          (by rw [covered_syncB_cons]; exact covered_syncB _)
      have hsafeS : ∀ i, MOp.syncB i ∈ ((l.filter (fun i => matchesHaspopup d i)).map MOp.addC
          ++ (MOp.syncB pt :: (l.filter (fun i => matchesHaspopup d i)).map MOp.syncB)) →
          syncSafe d i = true := by
        intro i hi
        rcases List.mem_append.mp hi with hi | hi
        · rcases List.mem_map.mp hi with ⟨x, _, hx⟩
          exact MOp.noConfusion hx
        · rcases List.mem_cons.mp hi with hi | hi
          · have hx : i = pt := by injection hi
            rw [hx]
            exact hsafetpt
          · rcases List.mem_map.mp hi with ⟨x, hxm, hx⟩
            have hxi : x = i := by injection hx
            rw [← hxi]
            exact hsafep x hxm
      intro p hp
      have hcls1 : hasClass d1 p cls = true := hadd.2.2 p hp (hin p hp)
      have hnd2 : ((changeButtonAttrs opts d1 (some pt)).elems.map (fun e => e.id)).Nodup := by
        rw [(changeButtonAttrs_frame hcls hlbl hnd1 pt).2.2.1]
        exact hnd1
      refine ⟨?_, ?_⟩
      · rw [hd', foldl_syncB_hasClass hcls hlbl _ _ hnd2 p cls,
          (changeButtonAttrs_frame hcls hlbl hnd1 pt).2.2.2.1 p cls]
        exact hcls1
      · apply runScript_sync hcls hlbl _ d d' hnd hrs hcov hsafeS p
        rw [needSync_append, (needSync_shapes _).1, List.nil_append, hns, List.contains_cons,
          contains_of_mem hp]
        simp

/-- Facts about a successful focusout run: every matched element of the
walked chain has lost the expanded class afterwards. -/
theorem onFocus_out_facts {opts : List (String × JVal)} {cls lc le : String}
    {menus : List Nat} {d d' : DOM} {target : Nat} {l : List Nat}
    (hcls : getOption opts ["expanded_class"] = JVal.jstr cls)
    (hlbl : getOption opts ["button_attributes", "aria-label"]
      = JVal.jobj [("collapse", JVal.jstr lc), ("expand", JVal.jstr le)])
    (hbm : isMode opts "button" = some true)
    (hnd : (d.elems.map (fun e => e.id)).Nodup)
    (hw : walkToMenu d menus (walkFuel d) target = some l)
    (hrun : onFocus opts menus d "focusout" target = some d') :
    ∀ p ∈ l.filter (fun i => matchesHaspopup d i), hasClass d' p cls = false := by
  unfold onFocus at hrun
  rw [hw] at hrun
  rw [hcls] at hrun
  simp only [Option.bind_eq_bind, Option.some_bind, jvalToString, if_false] at hrun
  rw [hbm] at hrun
  simp only [Option.some_bind, Option.pure_def, reduceIte] at hrun
  rcases h1 : (l.filter (fun i => matchesHaspopup d i)).foldlM
      (fun dd p => classRemove dd p cls) d with _ | d1
  · rw [h1] at hrun
    simp only [Option.none_bind] at hrun
    cases hrun
  · rw [h1] at hrun
    simp only [Option.some_bind] at hrun
    have hd' : d' = (l.filter (fun i => matchesHaspopup d i)).foldl
        (fun dd p => changeButtonAttrs opts dd (some p))
        (changeButtonAttrs opts d1 (parentOf d1 target)) :=
      (Option.some.injEq _ _ ▸ hrun).symm
    have hrs1 : runScript opts cls
        ((l.filter (fun i => matchesHaspopup d i)).map MOp.rmC) d = some d1 := by
      rw [← bridge_rmC]
      exact h1
    have hfrm1 := runScript_frame hcls hlbl _ d d1 hnd hrs1
    have hnd1 : (d1.elems.map (fun e => e.id)).Nodup := by
      rw [hfrm1.2.2.1]; exact hnd
    have hrm := foldlM_classRemove_facts (l.filter (fun i => matchesHaspopup d i)) d d1 h1
    intro p hp
    rcases hpo : parentOf d1 target with _ | pt
    · have hd2 : changeButtonAttrs opts d1 (parentOf d1 target) = d1 := by
        rw [hpo]
        rfl
      rw [hd', hd2, foldl_syncB_hasClass hcls hlbl _ d1 hnd1 p cls]
      exact hrm.2.2 p hp
    · have hd2 : changeButtonAttrs opts d1 (parentOf d1 target)
          = changeButtonAttrs opts d1 (some pt) := by
        rw [hpo]
      have hnd2 : ((changeButtonAttrs opts d1 (some pt)).elems.map (fun e => e.id)).Nodup := by
        rw [(changeButtonAttrs_frame hcls hlbl hnd1 pt).2.2.1]
        exact hnd1
      rw [hd', hd2, foldl_syncB_hasClass hcls hlbl _ _ hnd2 p cls,
        (changeButtonAttrs_frame hcls hlbl hnd1 pt).2.2.2.1 p cls]
      exact hrm.2.2 p hp

/-- Claim C3: on a focusin event inside a configured menu, every element of
the chain walked from the focus target up to (but not including) the menu
container that matches `[aria-haspopup="true"]` gains the configured
expanded class, and its own toggle button ends with `aria-expanded`
`"true"`; the corresponding focusout event removes the class from those
same elements. -/
theorem claim_C3 (opts : List (String × JVal)) (menus : List Nat) (d : DOM)
    (target : Nat) (cls lc le : String) (l : List Nat) (dIn dOut : DOM)
    (hcls : getOption opts ["expanded_class"] = JVal.jstr cls)
    (hlbl : getOption opts ["button_attributes", "aria-label"]
      = JVal.jobj [("collapse", JVal.jstr lc), ("expand", JVal.jstr le)])
    (hbm : isMode opts "button" = some true)
    (hnd : (d.elems.map (fun e => e.id)).Nodup)
    (hw : walkToMenu d menus (walkFuel d) target = some l)
    (hsafep : ∀ p ∈ l.filter (fun i => matchesHaspopup d i), syncSafe d p = true)
    (hsafet : ((parentOf d target).map (fun x => syncSafe d x)).getD true = true)
    (hin : ∀ p ∈ l.filter (fun i => matchesHaspopup d i), p ∈ d.elems.map (fun e => e.id))
    (hrin : onFocus opts menus d "focusin" target = some dIn)
    (hrout : onFocus opts menus d "focusout" target = some dOut) :
    (∀ p ∈ l.filter (fun i => matchesHaspopup d i),
        hasClass dIn p cls = true
          ∧ ∀ b, ownButton dIn p = some b →
              attrOf dIn b "aria-expanded" = some "true")
      ∧ (∀ p ∈ l.filter (fun i => matchesHaspopup d i), hasClass dOut p cls = false) := by
  constructor
  · intro p hp
    have h := onFocus_in_facts hcls hlbl hbm hnd hw hsafep hsafet hin hrin p hp
    refine ⟨h.1, ?_⟩
    intro b hb
    have hs := h.2
    unfold itemSync at hs
    simp only [hb] at hs
    rcases (Bool.and_eq_true _ _).mp hs with ⟨h1, _⟩
    have h1' : attrOf dIn b "aria-expanded" = some (boolStr (hasClass dIn p cls)) :=
      beq_iff_eq.mp h1
    rw [h.1] at h1'
    exact h1'
  · exact onFocus_out_facts hcls hlbl hbm hnd hw hrout

/-- Witness for C3 on the fixture document: focusing the link inside item
A's submenu expands item A and sets its button to `aria-expanded="true"`;
the focusout run removes the class again. -/
theorem claim_C3_witness :
    (∀ p ∈ [9, 4, 1].filter (fun i => matchesHaspopup wDom i),
        hasClass ((onFocus defaultOptions [0] wDom "focusin" 9).getD wDom) p wCls = true
          ∧ ∀ b, ownButton ((onFocus defaultOptions [0] wDom "focusin" 9).getD wDom) p = some b →
              attrOf ((onFocus defaultOptions [0] wDom "focusin" 9).getD wDom) b "aria-expanded"
                = some "true")
      ∧ (∀ p ∈ [9, 4, 1].filter (fun i => matchesHaspopup wDom i),
          hasClass ((onFocus defaultOptions [0] wDom "focusout" 9).getD wDom) p wCls = false) :=
  claim_C3 defaultOptions [0] wDom 9 wCls wLc wLe [9, 4, 1]
    ((onFocus defaultOptions [0] wDom "focusin" 9).getD wDom)
    ((onFocus defaultOptions [0] wDom "focusout" 9).getD wDom)
    rfl rfl rfl (by decide) rfl (by decide) (by decide) (by decide) rfl rfl

/-- The siblings list never contains the node itself. -/
theorem getSiblings_not_self {d : DOM} {i : Nat} {sibs : List Nat}
    (h : getSiblings d i = some sibs) : ∀ s ∈ sibs, s ≠ i := by
  unfold getSiblings at h
  rcases hp : parentOf d i with _ | g
  · rw [hp] at h
    cases h
  · rw [hp] at h
    simp only [Option.map_some'] at h
    intro s hs
    injection h with hx
    rw [← hx] at hs
    rcases List.mem_map.mp hs with ⟨e, he, hid⟩
    rcases List.mem_filter.mp he with ⟨_, hpred⟩
    rcases (Bool.and_eq_true _ _).mp hpred with ⟨h2, _⟩
    rcases (Bool.and_eq_true _ _).mp h2 with ⟨_, hne⟩
    rw [← hid]
    exact of_decide_eq_true hne

/-- Refreshing button attributes of an optional item keeps ids and classes. -/
theorem changeButtonAttrs_opt_frame {opts : List (String × JVal)} {cls lc le : String}
    (hcls : getOption opts ["expanded_class"] = JVal.jstr cls)
    (hlbl : getOption opts ["button_attributes", "aria-label"]
      = JVal.jobj [("collapse", JVal.jstr lc), ("expand", JVal.jstr le)])
    {d : DOM} (hnd : (d.elems.map (fun e => e.id)).Nodup) (mio : Option Nat) :
    ((changeButtonAttrs opts d mio).elems.map (fun e => e.id) = d.elems.map (fun e => e.id))
      ∧ (∀ j t, hasClass (changeButtonAttrs opts d mio) j t = hasClass d j t)
      ∧ (changeButtonAttrs opts d mio).active = d.active := by
  cases mio with
  | none => exact ⟨rfl, fun j t => rfl, rfl⟩
  | some mi =>
    have hf := changeButtonAttrs_frame hcls hlbl hnd mi
    exact ⟨hf.2.2.1, hf.2.2.2.1, hf.2.2.2.2.2.2.2.2.1⟩

/-- Ids are unchanged by a button-refresh loop. -/
theorem foldl_syncB_ids {opts : List (String × JVal)} {cls lc le : String}
    (hcls : getOption opts ["expanded_class"] = JVal.jstr cls)
    (hlbl : getOption opts ["button_attributes", "aria-label"]
      = JVal.jobj [("collapse", JVal.jstr lc), ("expand", JVal.jstr le)])
    (l : List Nat) (d : DOM) (hnd : (d.elems.map (fun e => e.id)).Nodup) :
    (l.foldl (fun dd p => changeButtonAttrs opts dd (some p)) d).elems.map (fun e => e.id)
      = d.elems.map (fun e => e.id) :=
  (runScript_frame hcls hlbl (l.map MOp.syncB) d _ hnd (bridge_syncB opts cls l d)).2.2.1

/-- Claim C4: a mousedown on a toggle button removes the configured expanded
class from every `[aria-haspopup="true"]` sibling of the button's parent
menu item and toggles the class on the menu item itself: the class is
removed when the item had it and added when it did not. -/
theorem claim_C4 (opts : List (String × JVal)) (menus : List Nat) (d : DOM)
    (target kc mi : Nat) (cls lc le : String) (sibs : List Nat) (d' : DOM) (prevented : Bool)
    (hcls : getOption opts ["expanded_class"] = JVal.jstr cls)
    (hlbl : getOption opts ["button_attributes", "aria-label"]
      = JVal.jobj [("collapse", JVal.jstr lc), ("expand", JVal.jstr le)])
    (hnd : (d.elems.map (fun e => e.id)).Nodup)
    (hpt : parentOf d target = some mi)
    (hmi : mi ∈ d.elems.map (fun e => e.id))
    (hsib : getSiblings d mi = some sibs)
    (hrun : onClickButton opts menus d "mousedown" kc target = some (d', prevented)) :
    (∀ s ∈ sibs, hasClass d' s cls = false)
      ∧ hasClass d' mi cls = !hasClass d mi cls := by
  unfold onClickButton at hrun
  have hguard : (decide ("mousedown" = "keyup") && ! [13, 32].contains kc) = false := rfl
  rw [hguard, if_neg Bool.false_ne_true] at hrun
  rw [hcls, hpt] at hrun
  simp only [Option.bind_eq_bind, Option.some_bind, jvalToString] at hrun
  rw [hsib] at hrun
  simp only [Option.some_bind] at hrun
  rcases h1 : sibs.foldlM (fun dd s => classRemove dd s cls) d with _ | d1
  · rw [h1] at hrun
    simp only [Option.none_bind] at hrun
    cases hrun
  · rw [h1] at hrun
    simp only [Option.some_bind] at hrun
    have hrm := foldlM_classRemove_facts sibs d d1 h1
    have hfrm1 := runScript_frame hcls hlbl _ d d1 hnd (by rw [← bridge_rmC]; exact h1)
    have hnd1 : (d1.elems.map (fun e => e.id)).Nodup := by
      rw [hfrm1.2.2.1]; exact hnd
    have hnotself := getSiblings_not_self hsib
    have hmi1 : hasClass d1 mi cls = hasClass d mi cls :=
      hrm.1 mi cls (fun hc => (hnotself mi hc) rfl)
    rcases hexp : hasClass d mi cls with _ | _
    · rw [hexp, if_neg Bool.false_ne_true] at hrun
      rcases h2 : classAdd d1 mi cls with _ | d2
      · rw [h2] at hrun
        simp only [Option.none_bind] at hrun
        cases hrun
      · rw [h2] at hrun
        simp only [Option.some_bind] at hrun
        have hfr2 := classAdd_frame h2
        have hnd2 : (d2.elems.map (fun e => e.id)).Nodup := by
          rw [hfr2.2.2.1]; exact hnd1
        have hmi2 : hasClass d2 mi cls = true := by
          rcases hf : d1.find? mi with _ | e
          · have : mi ∈ d1.elems.map (fun e => e.id) := by
              rw [hfrm1.2.2.1]; exact hmi
            rcases List.mem_map.mp this with ⟨e0, he0, hid⟩
            have := find?_isSome_of_mem he0 hid
            rw [hf] at this
            cases this
          · exact classAdd_hasClass_self h2 hf
        have hsib2 : ∀ s ∈ sibs, hasClass d2 s cls = false := by
          intro s hs
          rw [classAdd_hasClass_ne h2 (hnotself s hs)]
          exact hrm.2.2 s hs
        have hopt := changeButtonAttrs_opt_frame hcls hlbl hnd2 (parentOf d2 target)
        have hnd3 : ((changeButtonAttrs opts d2 (parentOf d2 target)).elems.map
            (fun e => e.id)).Nodup := by
          rw [hopt.1]; exact hnd2
        have hnd4 : ((sibs.foldl (fun dd s => changeButtonAttrs opts dd (some s))
            (changeButtonAttrs opts d2 (parentOf d2 target))).elems.map
            (fun e => e.id)).Nodup := by
          rw [foldl_syncB_ids hcls hlbl sibs _ hnd3]; exact hnd3
        rcases hwk : walkToMenu
            (sibs.foldl (fun dd s => changeButtonAttrs opts dd (some s))
              (changeButtonAttrs opts d2 (parentOf d2 target)))
            menus
            (walkFuel (sibs.foldl (fun dd s => changeButtonAttrs opts dd (some s))
              (changeButtonAttrs opts d2 (parentOf d2 target)))) mi with _ | lw
        · rw [hwk] at hrun
          simp only [Option.none_bind] at hrun
          cases hrun
        · rw [hwk] at hrun
          simp only [Option.some_bind, Option.pure_def, Option.some.injEq, Prod.mk.injEq] at hrun
          have hd' : d' = (lw.filter (fun i => matchesHaspopup
              (sibs.foldl (fun dd s => changeButtonAttrs opts dd (some s))
                (changeButtonAttrs opts d2 (parentOf d2 target))) i)).foldl
              (fun dd p => changeButtonAttrs opts dd (some p))
              (sibs.foldl (fun dd s => changeButtonAttrs opts dd (some s))
                (changeButtonAttrs opts d2 (parentOf d2 target))) := hrun.1.symm
          have hc4 : ∀ j t, hasClass d' j t = hasClass d2 j t := by
            intro j t
            rw [hd', foldl_syncB_hasClass hcls hlbl _ _ hnd4 j t,
              foldl_syncB_hasClass hcls hlbl _ _ hnd3 j t, hopt.2.1 j t]
          constructor
          · intro s hs
            rw [hc4 s cls]
            exact hsib2 s hs
          · rw [hc4 mi cls, hmi2]
            rfl
    · rw [hexp, if_pos rfl] at hrun
      rcases h2 : classRemove d1 mi cls with _ | d2
      · rw [h2] at hrun
        simp only [Option.none_bind] at hrun
        cases hrun
      · rw [h2] at hrun
        simp only [Option.some_bind] at hrun
        have hfr2 := classRemove_frame h2
        have hnd2 : (d2.elems.map (fun e => e.id)).Nodup := by
          rw [hfr2.2.2.1]; exact hnd1
        have hmi2 : hasClass d2 mi cls = false := classRemove_hasClass_self h2
        have hsib2 : ∀ s ∈ sibs, hasClass d2 s cls = false := by
          intro s hs
          exact classRemove_hasClass_antimono h2 (hrm.2.2 s hs)
        have hopt := changeButtonAttrs_opt_frame hcls hlbl hnd2 (parentOf d2 target)
        have hnd3 : ((changeButtonAttrs opts d2 (parentOf d2 target)).elems.map
            (fun e => e.id)).Nodup := by
          rw [hopt.1]; exact hnd2
        have hnd4 : ((sibs.foldl (fun dd s => changeButtonAttrs opts dd (some s))
            (changeButtonAttrs opts d2 (parentOf d2 target))).elems.map
            (fun e => e.id)).Nodup := by
          rw [foldl_syncB_ids hcls hlbl sibs _ hnd3]; exact hnd3
        rcases hwk : walkToMenu
            (sibs.foldl (fun dd s => changeButtonAttrs opts dd (some s))
              (changeButtonAttrs opts d2 (parentOf d2 target)))
            menus
            (walkFuel (sibs.foldl (fun dd s => changeButtonAttrs opts dd (some s))
              (changeButtonAttrs opts d2 (parentOf d2 target)))) mi with _ | lw
        · rw [hwk] at hrun
          simp only [Option.none_bind] at hrun
          cases hrun
        · rw [hwk] at hrun
          simp only [Option.some_bind, Option.pure_def, Option.some.injEq, Prod.mk.injEq] at hrun
          have hd' : d' = (lw.filter (fun i => matchesHaspopup
              (sibs.foldl (fun dd s => changeButtonAttrs opts dd (some s))
                (changeButtonAttrs opts d2 (parentOf d2 target))) i)).foldl
              (fun dd p => changeButtonAttrs opts dd (some p))
              (sibs.foldl (fun dd s => changeButtonAttrs opts dd (some s))
                (changeButtonAttrs opts d2 (parentOf d2 target))) := hrun.1.symm
          have hc4 : ∀ j t, hasClass d' j t = hasClass d2 j t := by
            intro j t
            rw [hd', foldl_syncB_hasClass hcls hlbl _ _ hnd4 j t,
              foldl_syncB_hasClass hcls hlbl _ _ hnd3 j t, hopt.2.1 j t]
          constructor
          · intro s hs
            rw [hc4 s cls]
            exact hsib2 s hs
          · rw [hc4 mi cls, hmi2]
            rfl

/-- Witness for C4 on the fixture document: a mousedown on item B's button
clears expanded item A (its sibling) and expands item B. -/
theorem claim_C4_witness :
    (∀ s ∈ [1],
        hasClass ((onClickButton defaultOptions [0] wDom "mousedown" 0 7).getD (wDom, false)).1
          s wCls = false)
      ∧ hasClass ((onClickButton defaultOptions [0] wDom "mousedown" 0 7).getD (wDom, false)).1
          5 wCls = !hasClass wDom 5 wCls :=
  claim_C4 defaultOptions [0] wDom 7 0 5 wCls wLc wLe [1]
    ((onClickButton defaultOptions [0] wDom "mousedown" 0 7).getD (wDom, false)).1
    ((onClickButton defaultOptions [0] wDom "mousedown" 0 7).getD (wDom, false)).2
    rfl rfl (by decide) rfl (by decide) rfl rfl

/-- Changing the remembered active element does not affect the walk. -/
theorem walkToMenu_active (d : DOM) (a : Option Nat) (menus : List Nat) :
    ∀ n j, walkToMenu { d with active := a } menus n j = walkToMenu d menus n j := by
  intro n
  induction n with
  | zero => intro j; rfl
  | succ m ih =>
    intro j
    unfold walkToMenu
    have h0 : parentOf { d with active := a } j = parentOf d j := rfl
    by_cases hm : menus.contains j = true
    · rw [if_pos hm, if_pos hm]
    · rw [if_neg hm, if_neg hm, h0]
      cases hp : parentOf d j with
      | none => rfl
      | some p => simp only [ih p]

/-- Claim C5: a touchstart on a link of an expandable menu item follows
three branches: on a collapsed item the default action is prevented, the
link becomes the active (focused) element and the matched walked chain
(including the item) gains the expanded class; on an expanded item whose
link is not active the default action is prevented and the item loses the
class; and on an expanded item whose link is already active the event is
not intercepted and the document is unchanged. -/
theorem claim_C5 (opts : List (String × JVal)) (menus : List Nat) (d : DOM)
    (target mi : Nat) (cls lc le : String) (l : List Nat) (d' : DOM) (prevented : Bool)
    (hcls : getOption opts ["expanded_class"] = JVal.jstr cls)
    (hlbl : getOption opts ["button_attributes", "aria-label"]
      = JVal.jobj [("collapse", JVal.jstr lc), ("expand", JVal.jstr le)])
    (hbm : isMode opts "button" = some true)
    (hnd : (d.elems.map (fun e => e.id)).Nodup)
    (hpt : parentOf d target = some mi)
    (hw : walkToMenu d menus (walkFuel d) target = some l)
    (hin : ∀ p ∈ l.filter (fun i => matchesHaspopup d i), p ∈ d.elems.map (fun e => e.id))
    (hrun : onTouchLink opts menus d target = some (d', prevented)) :
    (hasClass d mi cls = false →
        prevented = true ∧ d'.active = some target
          ∧ ∀ p ∈ l.filter (fun i => matchesHaspopup d i), hasClass d' p cls = true)
      ∧ (hasClass d mi cls = true → d.active ≠ some target →
          prevented = true ∧ hasClass d' mi cls = false)
      ∧ (hasClass d mi cls = true → d.active = some target →
          d' = d ∧ prevented = false) := by
  unfold onTouchLink at hrun
  rw [hcls] at hrun
  simp only [Option.bind_eq_bind, Option.some_bind, jvalToString] at hrun
  rw [hpt] at hrun
  simp only [Option.some_bind] at hrun
  refine ⟨?_, ?_, ?_⟩
  · intro hnc
    rw [hnc] at hrun
    simp only [Bool.not_false] at hrun
    rw [if_pos trivial] at hrun
    rcases hsb : getSiblings { d with active := some target } mi with _ | sibs
    · rw [hsb] at hrun
      simp only [Option.none_bind] at hrun
      cases hrun
    · rw [hsb] at hrun
      simp only [Option.some_bind] at hrun
      have hw0 : walkToMenu { d with active := some target } menus
          (walkFuel { d with active := some target }) target = some l := by
        rw [walkToMenu_active]
        exact hw
      rw [hw0] at hrun
      simp only [Option.some_bind] at hrun
      rcases h1 : sibs.foldlM (fun dd s => classRemove dd s cls)
          { d with active := some target } with _ | d1
      · rw [h1] at hrun
        simp only [Option.none_bind] at hrun
        cases hrun
      · rw [h1] at hrun
        simp only [Option.some_bind] at hrun
        rcases h2 : (l.filter (fun i =>
            matchesHaspopup { d with active := some target } i)).foldlM
            (fun dd p => classAdd dd p cls) d1 with _ | d2
        · rw [h2] at hrun
          simp only [Option.none_bind] at hrun
          cases hrun
        · rw [h2] at hrun
          simp only [Option.some_bind] at hrun
          rw [hbm] at hrun
          simp only [Option.some_bind, Option.pure_def, Option.some.injEq,
            Prod.mk.injEq] at hrun
          have hnd0 : (({ d with active := some target } : DOM).elems.map
              (fun e => e.id)).Nodup := hnd
          have hfrm1 := runScript_frame hcls hlbl _ _ d1 hnd0
            (by rw [← bridge_rmC]; exact h1)
          have hnd1 : (d1.elems.map (fun e => e.id)).Nodup := by
            rw [hfrm1.2.2.1]; exact hnd0
          have hfrm2 := runScript_frame hcls hlbl _ _ d2 hnd1
            (by rw [← bridge_addC]; exact h2)
          have hnd2 : (d2.elems.map (fun e => e.id)).Nodup := by
            rw [hfrm2.2.2.1]; exact hnd1
          have hadd := foldlM_classAdd_facts _ d1 d2 h2
          have hopt := changeButtonAttrs_opt_frame hcls hlbl hnd2 (parentOf d2 target)
          have hnd3 : ((changeButtonAttrs opts d2 (parentOf d2 target)).elems.map
              (fun e => e.id)).Nodup := by
            rw [hopt.1]; exact hnd2
          have hfrm4 := runScript_frame hcls hlbl _ _ _ hnd3
            (bridge_syncB opts cls (l.filter (fun i =>
              matchesHaspopup { d with active := some target } i))
              (changeButtonAttrs opts d2 (parentOf d2 target)))
          have hd' : d' = (l.filter (fun i =>
              matchesHaspopup { d with active := some target } i)).foldl
              (fun dd p => changeButtonAttrs opts dd (some p))
              (changeButtonAttrs opts d2 (parentOf d2 target)) := hrun.1.symm
          refine ⟨hrun.2.symm, ?_, ?_⟩
          · rw [hd']
            rw [hfrm4.2.2.2.2.2.2.2.2, hopt.2.2, hfrm2.2.2.2.2.2.2.2.2,
              hfrm1.2.2.2.2.2.2.2.2]
          · intro p hp
            have hcls2 : hasClass d2 p cls = true := by
              apply hadd.2.2 p hp
              rw [hfrm1.2.2.1]
              exact hin p hp
            rw [hd', foldl_syncB_hasClass hcls hlbl _ _ hnd3 p cls, hopt.2.1 p cls]
            exact hcls2
  · intro hexp hna
    rw [hexp] at hrun
    simp only [Bool.not_true] at hrun
    rw [if_neg Bool.false_ne_true, if_pos hna] at hrun
    rcases h1 : classRemove d mi cls with _ | d1
    · rw [h1] at hrun
      simp only [Option.none_bind] at hrun
      cases hrun
    · rw [h1] at hrun
      simp only [Option.some_bind] at hrun
      rw [hbm] at hrun
      simp only [Option.some_bind, Option.pure_def, Option.some.injEq,
        Prod.mk.injEq] at hrun
      have hfr1 := classRemove_frame h1
      have hnd1 : (d1.elems.map (fun e => e.id)).Nodup := by
        rw [hfr1.2.2.1]; exact hnd
      have hopt := changeButtonAttrs_opt_frame hcls hlbl hnd1 (parentOf d1 target)
      have hd' : d' = changeButtonAttrs opts d1 (parentOf d1 target) := hrun.1.symm
      refine ⟨hrun.2.symm, ?_⟩
      rw [hd', hopt.2.1 mi cls]
      exact classRemove_hasClass_self h1
  · intro hexp ha
    rw [hexp] at hrun
    simp only [Bool.not_true] at hrun
    rw [if_neg Bool.false_ne_true, if_neg (not_not_intro ha)] at hrun
    simp only [Option.pure_def, Option.some.injEq, Prod.mk.injEq] at hrun
    exact ⟨hrun.1.symm, hrun.2.symm⟩

/-- Witness for C5 on the fixture document: a touch on collapsed item B's
link prevents the default action, focuses the link and expands item B. -/
theorem claim_C5_witness :
    (hasClass wDom 5 wCls = false →
        ((onTouchLink defaultOptions [0] wDom 6).getD (wDom, false)).2 = true
          ∧ ((onTouchLink defaultOptions [0] wDom 6).getD (wDom, false)).1.active = some 6
          ∧ ∀ p ∈ [6, 5].filter (fun i => matchesHaspopup wDom i),
              hasClass ((onTouchLink defaultOptions [0] wDom 6).getD (wDom, false)).1 p wCls
                = true)
      ∧ (hasClass wDom 5 wCls = true → wDom.active ≠ some 6 →
          ((onTouchLink defaultOptions [0] wDom 6).getD (wDom, false)).2 = true
            ∧ hasClass ((onTouchLink defaultOptions [0] wDom 6).getD (wDom, false)).1 5 wCls
                = false)
      ∧ (hasClass wDom 5 wCls = true → wDom.active = some 6 →
          ((onTouchLink defaultOptions [0] wDom 6).getD (wDom, false)).1 = wDom
            ∧ ((onTouchLink defaultOptions [0] wDom 6).getD (wDom, false)).2 = false) :=
  claim_C5 defaultOptions [0] wDom 6 5 wCls wLc wLe [6, 5]
    ((onTouchLink defaultOptions [0] wDom 6).getD (wDom, false)).1
    ((onTouchLink defaultOptions [0] wDom 6).getD (wDom, false)).2
    rfl rfl rfl (by decide) rfl rfl (by decide) rfl

/-- A covered script with safe refresh targets preserves the structural
frame and every established item sync. -/
theorem runScript_pres {opts : List (String × JVal)} {cls lc le : String}
    (hcls : getOption opts ["expanded_class"] = JVal.jstr cls)
    (hlbl : getOption opts ["button_attributes", "aria-label"]
      = JVal.jobj [("collapse", JVal.jstr lc), ("expand", JVal.jstr le)])
    {script : List MOp} {d d' : DOM}
    (hnd : (d.elems.map (fun e => e.id)).Nodup)
    (hrs : runScript opts cls script d = some d')
    (hcov : covered script = true)
    (hsafeS : ∀ i, MOp.syncB i ∈ script → syncSafe d i = true) :
    (∀ a b, isDescOf d' a b = isDescOf d a b)
      ∧ (d'.elems.map (fun e => e.id) = d.elems.map (fun e => e.id))
      ∧ (∀ k, itemSync cls lc le d k = true → itemSync cls lc le d' k = true) := by
  have hf := runScript_frame hcls hlbl script d d' hnd hrs
  refine ⟨hf.2.1, hf.2.2.1, fun k hk => ?_⟩
  apply runScript_sync hcls hlbl script d d' hnd hrs hcov hsafeS k
  rw [hk]
  simp

/-- The sync invariant transfers along a frame-preserving update. -/
theorem buttonsInSync_transfer {cls lc le : String} {menus : List Nat} {d d' : DOM}
    (hids : d'.elems.map (fun e => e.id) = d.elems.map (fun e => e.id))
    (hdesc : ∀ a b, isDescOf d' a b = isDescOf d a b)
    (hpres : ∀ k, itemSync cls lc le d k = true → itemSync cls lc le d' k = true)
    (hsync : buttonsInSync cls lc le menus d = true) :
    buttonsInSync cls lc le menus d' = true := by
  rw [buttonsInSync_iff]
  intro e he hin
  have : e.id ∈ d.elems.map (fun x => x.id) := by
    rw [← hids]
    exact List.mem_map_of_mem _ he
  rcases List.mem_map.mp this with ⟨e0, he0, hid⟩
  rw [← hid]
  apply hpres
  apply (buttonsInSync_iff.mp hsync) e0 he0
  rw [hid]
  unfold inMenus at hin ⊢
  have hfx : (fun m => isDescOf d m e.id) = (fun m => isDescOf d' m e.id) :=
    funext (fun m => (hdesc m e.id).symm)
  rw [hfx]
  exact hin

/-- A successful `onFocus` run is a covered script whose refresh targets
are the matched walked chain and the target's parent. -/
theorem onFocus_script {opts : List (String × JVal)} {cls lc le : String}
    {menus : List Nat} {d d' : DOM} {evType : String} {target : Nat} {l : List Nat}
    (hcls : getOption opts ["expanded_class"] = JVal.jstr cls)
    (hlbl : getOption opts ["button_attributes", "aria-label"]
      = JVal.jobj [("collapse", JVal.jstr lc), ("expand", JVal.jstr le)])
    (hbm : isMode opts "button" = some true)
    (hnd : (d.elems.map (fun e => e.id)).Nodup)
    (hw : walkToMenu d menus (walkFuel d) target = some l)
    (hrun : onFocus opts menus d evType target = some d') :
    ∃ script, runScript opts cls script d = some d'
      ∧ covered script = true
      ∧ ∀ i, MOp.syncB i ∈ script →
          i ∈ l.filter (fun j => matchesHaspopup d j) ∨ parentOf d target = some i := by
  unfold onFocus at hrun
  rw [hw] at hrun
  rw [hcls] at hrun
  simp only [Option.bind_eq_bind, Option.some_bind, jvalToString] at hrun
  by_cases hev : evType = "focusin"
  · rw [if_pos hev, hbm] at hrun
    simp only [Option.some_bind, Option.pure_def, reduceIte] at hrun
    rcases h1 : (l.filter (fun i => matchesHaspopup d i)).foldlM
        (fun dd p => classAdd dd p cls) d with _ | d1
    · rw [h1] at hrun
      simp only [Option.none_bind] at hrun
      cases hrun
    · rw [h1] at hrun
      simp only [Option.some_bind] at hrun
      have hd' : d' = (l.filter (fun i => matchesHaspopup d i)).foldl
          (fun dd p => changeButtonAttrs opts dd (some p))
          (changeButtonAttrs opts d1 (parentOf d1 target)) :=
        (Option.some.injEq _ _ ▸ hrun).symm
      have hrs1 : runScript opts cls
          ((l.filter (fun i => matchesHaspopup d i)).map MOp.addC) d = some d1 := by
        rw [← bridge_addC]
        exact h1
      have hfrm1 := runScript_frame hcls hlbl _ d d1 hnd hrs1
      have hpt : parentOf d1 target = parentOf d target := hfrm1.1 target
      rcases hpo : parentOf d target with _ | pt
      · refine ⟨(l.filter (fun i => matchesHaspopup d i)).map MOp.addC
            ++ (l.filter (fun i => matchesHaspopup d i)).map MOp.syncB, ?_, ?_, ?_⟩
        · rw [runScript_append, hrs1]
          simp only [Option.some_bind]
          rw [bridge_syncB, hd', hpt, hpo]
          rfl
        · exact covered_addC_append _ _
            (fun i hi => by
              rw [(needSync_shapes _).2.2]
              exact contains_of_mem hi)
            (covered_syncB _)
        · intro i hi
          rcases List.mem_append.mp hi with hi | hi
          · rcases List.mem_map.mp hi with ⟨x, _, hx⟩
            exact MOp.noConfusion hx
          · rcases List.mem_map.mp hi with ⟨x, hxm, hx⟩
            have hxi : x = i := by injection hx
            exact Or.inl (hxi ▸ hxm)
      · refine ⟨(l.filter (fun i => matchesHaspopup d i)).map MOp.addC
            ++ (MOp.syncB pt :: (l.filter (fun i => matchesHaspopup d i)).map MOp.syncB),
            ?_, ?_, ?_⟩
        · rw [runScript_append, hrs1]
          simp only [Option.some_bind]
          rw [runScript_cons]
          simp only [runOp, Option.some_bind]
          rw [bridge_syncB, hd', hpt, hpo]
        · refine covered_addC_append _ _ (fun i hi => ?_) ?_
          · have hns : needSync (MOp.syncB pt
                :: (l.filter (fun i => matchesHaspopup d i)).map MOp.syncB)
                = pt :: needSync ((l.filter (fun i => matchesHaspopup d i)).map MOp.syncB) := by
              simp [needSync]
            rw [hns, (needSync_shapes _).2.2, List.contains_cons, contains_of_mem hi]
            simp
          · rw [covered_syncB_cons]
            exact covered_syncB _
        · intro i hi
          rcases List.mem_append.mp hi with hi | hi
          · rcases List.mem_map.mp hi with ⟨x, _, hx⟩
            exact MOp.noConfusion hx
          · rcases List.mem_cons.mp hi with hi | hi
            · have hx : i = pt := by injection hi
              rw [hx]
              exact Or.inr rfl
            · rcases List.mem_map.mp hi with ⟨x, hxm, hx⟩
              have hxi : x = i := by injection hx
              exact Or.inl (hxi ▸ hxm)
  · rw [if_neg hev, hbm] at hrun
    simp only [Option.some_bind, Option.pure_def, reduceIte] at hrun
    rcases h1 : (l.filter (fun i => matchesHaspopup d i)).foldlM
        (fun dd p => classRemove dd p cls) d with _ | d1
    · rw [h1] at hrun
      simp only [Option.none_bind] at hrun
      cases hrun
    · rw [h1] at hrun
      simp only [Option.some_bind] at hrun
      have hd' : d' = (l.filter (fun i => matchesHaspopup d i)).foldl
          (fun dd p => changeButtonAttrs opts dd (some p))
          (changeButtonAttrs opts d1 (parentOf d1 target)) :=
        (Option.some.injEq _ _ ▸ hrun).symm
      have hrs1 : runScript opts cls
          ((l.filter (fun i => matchesHaspopup d i)).map MOp.rmC) d = some d1 := by
        rw [← bridge_rmC]
        exact h1
      have hfrm1 := runScript_frame hcls hlbl _ d d1 hnd hrs1
      have hpt : parentOf d1 target = parentOf d target := hfrm1.1 target
      rcases hpo : parentOf d target with _ | pt
      · refine ⟨(l.filter (fun i => matchesHaspopup d i)).map MOp.rmC
            ++ (l.filter (fun i => matchesHaspopup d i)).map MOp.syncB, ?_, ?_, ?_⟩
        · rw [runScript_append, hrs1]
          simp only [Option.some_bind]
          rw [bridge_syncB, hd', hpt, hpo]
          rfl
        · exact covered_rmC_append _ _
            (fun i hi => by
              rw [(needSync_shapes _).2.2]
              exact contains_of_mem hi)
            (covered_syncB _)
        · intro i hi
          rcases List.mem_append.mp hi with hi | hi
          · rcases List.mem_map.mp hi with ⟨x, _, hx⟩
            exact MOp.noConfusion hx
          · rcases List.mem_map.mp hi with ⟨x, hxm, hx⟩
            have hxi : x = i := by injection hx
            exact Or.inl (hxi ▸ hxm)
      · refine ⟨(l.filter (fun i => matchesHaspopup d i)).map MOp.rmC
            ++ (MOp.syncB pt :: (l.filter (fun i => matchesHaspopup d i)).map MOp.syncB),
            ?_, ?_, ?_⟩
        · rw [runScript_append, hrs1]
          simp only [Option.some_bind]
          rw [runScript_cons]
          simp only [runOp, Option.some_bind]
          rw [bridge_syncB, hd', hpt, hpo]
        · refine covered_rmC_append _ _ (fun i hi => ?_) ?_
          · have hns : needSync (MOp.syncB pt
                :: (l.filter (fun i => matchesHaspopup d i)).map MOp.syncB)
                = pt :: needSync ((l.filter (fun i => matchesHaspopup d i)).map MOp.syncB) := by
              simp [needSync]
            rw [hns, (needSync_shapes _).2.2, List.contains_cons, contains_of_mem hi]
            simp
          · rw [covered_syncB_cons]
            exact covered_syncB _
        · intro i hi
          rcases List.mem_append.mp hi with hi | hi
          · rcases List.mem_map.mp hi with ⟨x, _, hx⟩
            exact MOp.noConfusion hx
          · rcases List.mem_cons.mp hi with hi | hi
            · have hx : i = pt := by injection hi
              rw [hx]
              exact Or.inr rfl
            · rcases List.mem_map.mp hi with ⟨x, hxm, hx⟩
              have hxi : x = i := by injection hx
              exact Or.inl (hxi ▸ hxm)

/-- `needSync` steps over an `addC` operation. -/
theorem needSync_addC_cons (i : Nat) (r : List MOp) :
    needSync (MOp.addC i :: r) = needSync r := rfl

/-- `needSync` steps over an `rmC` operation. -/
theorem needSync_rmC_cons (i : Nat) (r : List MOp) :
    needSync (MOp.rmC i :: r) = needSync r := rfl

/-- `needSync` steps over a refresh operation. -/
theorem needSync_syncB_cons (i : Nat) (r : List MOp) :
    needSync (MOp.syncB i :: r) = i :: needSync r := rfl

/-- `covered` steps over an `addC` operation. -/
theorem covered_addC_cons (i : Nat) (r : List MOp) :
    covered (MOp.addC i :: r) = ((needSync r).contains i && covered r) := rfl

/-- `covered` steps over an `rmC` operation. -/
theorem covered_rmC_cons (i : Nat) (r : List MOp) :
    covered (MOp.rmC i :: r) = ((needSync r).contains i && covered r) := rfl

/-- A successful mousedown `onClickButton` run is a covered script whose
refresh targets are the parent item, its siblings and its matched walked
chain. -/
theorem onClickButton_script {opts : List (String × JVal)} {cls lc le : String}
    {menus : List Nat} {d d' : DOM} {kc target mi : Nat} {sibs lw : List Nat}
    {prevented : Bool}
    (hcls : getOption opts ["expanded_class"] = JVal.jstr cls)
    (hlbl : getOption opts ["button_attributes", "aria-label"]
      = JVal.jobj [("collapse", JVal.jstr lc), ("expand", JVal.jstr le)])
    (hnd : (d.elems.map (fun e => e.id)).Nodup)
    (hpt : parentOf d target = some mi)
    (hsib : getSiblings d mi = some sibs)
    (hw : walkToMenu d menus (walkFuel d) mi = some lw)
    (hrun : onClickButton opts menus d "mousedown" kc target = some (d', prevented)) :
    ∃ script, runScript opts cls script d = some d'
      ∧ covered script = true
      ∧ ∀ i, MOp.syncB i ∈ script →
          i = mi ∨ i ∈ sibs ∨ i ∈ lw.filter (fun j => matchesHaspopup d j) := by
  unfold onClickButton at hrun
  have hguard : (decide ("mousedown" = "keyup") && ! [13, 32].contains kc) = false := rfl
  rw [hguard, if_neg Bool.false_ne_true] at hrun
  rw [hcls, hpt] at hrun
  simp only [Option.bind_eq_bind, Option.some_bind, jvalToString] at hrun
  rw [hsib] at hrun
  simp only [Option.some_bind] at hrun
  rcases h1 : sibs.foldlM (fun dd s => classRemove dd s cls) d with _ | d1
  · rw [h1] at hrun
    simp only [Option.none_bind] at hrun
    cases hrun
  · rw [h1] at hrun
    simp only [Option.some_bind] at hrun
    have hrs1 : runScript opts cls (sibs.map MOp.rmC) d = some d1 := by
      rw [← bridge_rmC]
      exact h1
    have hfrm1 := runScript_frame hcls hlbl _ d d1 hnd hrs1
    have hnd1 : (d1.elems.map (fun e => e.id)).Nodup := by
      rw [hfrm1.2.2.1]; exact hnd
    rcases hexp : hasClass d mi cls with _ | _
    · rw [hexp, if_neg Bool.false_ne_true] at hrun
      rcases h2 : classAdd d1 mi cls with _ | d2
      · rw [h2] at hrun
        simp only [Option.none_bind] at hrun
        cases hrun
      · rw [h2] at hrun
        simp only [Option.some_bind] at hrun
        have hfr2 := classAdd_frame h2
        have hnd2 : (d2.elems.map (fun e => e.id)).Nodup := by
          rw [hfr2.2.2.1]; exact hnd1
        have hpt2 : parentOf d2 target = some mi := by
          rw [hfr2.1 target, hfrm1.1 target, hpt]
        rw [hpt2] at hrun
        have hfr3 := changeButtonAttrs_frame hcls hlbl hnd2 mi
        have hnd3 : ((changeButtonAttrs opts d2 (some mi)).elems.map (fun e => e.id)).Nodup := by
          rw [hfr3.2.2.1]; exact hnd2
        have hfrm4 := runScript_frame hcls hlbl _ _ _ hnd3
          (bridge_syncB opts cls sibs (changeButtonAttrs opts d2 (some mi)))
        have hwcomp : ∀ ms n j,
            walkToMenu (sibs.foldl (fun dd s => changeButtonAttrs opts dd (some s))
              (changeButtonAttrs opts d2 (some mi))) ms n j = walkToMenu d ms n j := by
          intro ms n j
          rw [hfrm4.2.2.2.2.2.2.2.1 ms n j, hfr3.2.2.2.2.1 ms n j,
            hfr2.2.2.2.2.2.2.2.2.2.1 ms n j, hfrm1.2.2.2.2.2.2.2.1 ms n j]
        have hmcomp : ∀ j,
            matchesHaspopup (sibs.foldl (fun dd s => changeButtonAttrs opts dd (some s))
              (changeButtonAttrs opts d2 (some mi))) j = matchesHaspopup d j := by
          intro j
          rw [hfrm4.2.2.2.2.2.2.1 j, hfr3.2.2.2.2.2.1 j, hfr2.2.2.2.2.2.2.2.1 j,
            hfrm1.2.2.2.2.2.2.1 j]
        have hlen : (sibs.foldl (fun dd s => changeButtonAttrs opts dd (some s))
            (changeButtonAttrs opts d2 (some mi))).elems.length = d.elems.length := by
          have hh := (hfrm4.2.2.1.trans (hfr3.2.2.1.trans (hfr2.2.2.1.trans hfrm1.2.2.1)))
          have := congrArg List.length hh
          simpa using this
        have hwalk4 : walkToMenu (sibs.foldl (fun dd s => changeButtonAttrs opts dd (some s))
            (changeButtonAttrs opts d2 (some mi))) menus
            (walkFuel (sibs.foldl (fun dd s => changeButtonAttrs opts dd (some s))
              (changeButtonAttrs opts d2 (some mi)))) mi = some lw := by
          rw [hwcomp]
          unfold walkFuel
          rw [hlen]
          exact hw
        rw [hwalk4] at hrun
        simp only [Option.some_bind] at hrun
        have hfiltereq : lw.filter (fun i => matchesHaspopup
            (sibs.foldl (fun dd s => changeButtonAttrs opts dd (some s))
              (changeButtonAttrs opts d2 (some mi))) i)
            = lw.filter (fun j => matchesHaspopup d j) :=
          List.filter_congr (fun x _ => hmcomp x)
        rw [hfiltereq] at hrun
        simp only [Option.pure_def, Option.some.injEq, Prod.mk.injEq] at hrun
        refine ⟨sibs.map MOp.rmC ++ (MOp.addC mi :: MOp.syncB mi :: (sibs.map MOp.syncB
            ++ (lw.filter (fun j => matchesHaspopup d j)).map MOp.syncB)), ?_, ?_, ?_⟩
        · rw [runScript_append, hrs1]
          simp only [Option.some_bind]
          rw [runScript_cons]
          simp only [runOp]
          rw [h2]
          simp only [Option.some_bind]
          rw [runScript_cons]
          simp only [runOp, Option.some_bind]
          rw [runScript_append, bridge_syncB]
          simp only [Option.some_bind]
          rw [bridge_syncB, hrun.1]
        · apply covered_rmC_append
          · intro i hi
            rw [needSync_addC_cons, needSync_syncB_cons, needSync_append,
              (needSync_shapes _).2.2, (needSync_shapes _).2.2, List.contains_cons,
              contains_of_mem (List.mem_append_left _ hi)]
            simp
          · rw [covered_addC_cons, needSync_syncB_cons, needSync_append,
              (needSync_shapes _).2.2, (needSync_shapes _).2.2, List.contains_cons,
              covered_syncB_cons, covered_syncB_append _ _ (covered_syncB _)]
            simp
        · intro i hi
          rcases List.mem_append.mp hi with hi | hi
          · rcases List.mem_map.mp hi with ⟨x, _, hx⟩
            exact MOp.noConfusion hx
          · rcases List.mem_cons.mp hi with hi | hi
            · exact MOp.noConfusion hi
            · rcases List.mem_cons.mp hi with hi | hi
              · have hx : i = mi := by injection hi
                exact Or.inl hx
              · rcases List.mem_append.mp hi with hi | hi
                · rcases List.mem_map.mp hi with ⟨x, hxm, hx⟩
                  have hxi : x = i := by injection hx
                  exact Or.inr (Or.inl (hxi ▸ hxm))
                · rcases List.mem_map.mp hi with ⟨x, hxm, hx⟩
                  have hxi : x = i := by injection hx
                  exact Or.inr (Or.inr (hxi ▸ hxm))
    · rw [hexp, if_pos rfl] at hrun
      rcases h2 : classRemove d1 mi cls with _ | d2
      · rw [h2] at hrun
        simp only [Option.none_bind] at hrun
        cases hrun
      · rw [h2] at hrun
        simp only [Option.some_bind] at hrun
        have hfr2 := classRemove_frame h2
        have hnd2 : (d2.elems.map (fun e => e.id)).Nodup := by
          rw [hfr2.2.2.1]; exact hnd1
        have hpt2 : parentOf d2 target = some mi := by
          rw [hfr2.1 target, hfrm1.1 target, hpt]
        rw [hpt2] at hrun
        have hfr3 := changeButtonAttrs_frame hcls hlbl hnd2 mi
        have hnd3 : ((changeButtonAttrs opts d2 (some mi)).elems.map (fun e => e.id)).Nodup := by
          rw [hfr3.2.2.1]; exact hnd2
        have hfrm4 := runScript_frame hcls hlbl _ _ _ hnd3
          (bridge_syncB opts cls sibs (changeButtonAttrs opts d2 (some mi)))
        have hwcomp : ∀ ms n j,
            walkToMenu (sibs.foldl (fun dd s => changeButtonAttrs opts dd (some s))
              (changeButtonAttrs opts d2 (some mi))) ms n j = walkToMenu d ms n j := by
          intro ms n j
          rw [hfrm4.2.2.2.2.2.2.2.1 ms n j, hfr3.2.2.2.2.1 ms n j,
            hfr2.2.2.2.2.2.2.2.2.2.1 ms n j, hfrm1.2.2.2.2.2.2.2.1 ms n j]
        have hmcomp : ∀ j,
            matchesHaspopup (sibs.foldl (fun dd s => changeButtonAttrs opts dd (some s))
              (changeButtonAttrs opts d2 (some mi))) j = matchesHaspopup d j := by
          intro j
          rw [hfrm4.2.2.2.2.2.2.1 j, hfr3.2.2.2.2.2.1 j, hfr2.2.2.2.2.2.2.2.1 j,
            hfrm1.2.2.2.2.2.2.1 j]
        have hlen : (sibs.foldl (fun dd s => changeButtonAttrs opts dd (some s))
            (changeButtonAttrs opts d2 (some mi))).elems.length = d.elems.length := by
          have hh := (hfrm4.2.2.1.trans (hfr3.2.2.1.trans (hfr2.2.2.1.trans hfrm1.2.2.1)))
          have := congrArg List.length hh
          simpa using this
        have hwalk4 : walkToMenu (sibs.foldl (fun dd s => changeButtonAttrs opts dd (some s))
            (changeButtonAttrs opts d2 (some mi))) menus
            (walkFuel (sibs.foldl (fun dd s => changeButtonAttrs opts dd (some s))
              (changeButtonAttrs opts d2 (some mi)))) mi = some lw := by
          rw [hwcomp]
          unfold walkFuel
          rw [hlen]
          exact hw
        rw [hwalk4] at hrun
        simp only [Option.some_bind] at hrun
        have hfiltereq : lw.filter (fun i => matchesHaspopup
            (sibs.foldl (fun dd s => changeButtonAttrs opts dd (some s))
              (changeButtonAttrs opts d2 (some mi))) i)
            = lw.filter (fun j => matchesHaspopup d j) :=
          List.filter_congr (fun x _ => hmcomp x)
        rw [hfiltereq] at hrun
        simp only [Option.pure_def, Option.some.injEq, Prod.mk.injEq] at hrun
        refine ⟨sibs.map MOp.rmC ++ (MOp.rmC mi :: MOp.syncB mi :: (sibs.map MOp.syncB
            ++ (lw.filter (fun j => matchesHaspopup d j)).map MOp.syncB)), ?_, ?_, ?_⟩
        · rw [runScript_append, hrs1]
          simp only [Option.some_bind]
          rw [runScript_cons]
          simp only [runOp]
          rw [h2]
          simp only [Option.some_bind]
          rw [runScript_cons]
          simp only [runOp, Option.some_bind]
          rw [runScript_append, bridge_syncB]
          simp only [Option.some_bind]
          rw [bridge_syncB, hrun.1]
        · apply covered_rmC_append
          · intro i hi
            rw [needSync_rmC_cons, needSync_syncB_cons, needSync_append,
              (needSync_shapes _).2.2, (needSync_shapes _).2.2, List.contains_cons,
              contains_of_mem (List.mem_append_left _ hi)]
            simp
          · rw [covered_rmC_cons, needSync_syncB_cons, needSync_append,
              (needSync_shapes _).2.2, (needSync_shapes _).2.2, List.contains_cons,
              covered_syncB_cons, covered_syncB_append _ _ (covered_syncB _)]
            simp
        · intro i hi
          rcases List.mem_append.mp hi with hi | hi
          · rcases List.mem_map.mp hi with ⟨x, _, hx⟩
            exact MOp.noConfusion hx
          · rcases List.mem_cons.mp hi with hi | hi
            · exact MOp.noConfusion hi
            · rcases List.mem_cons.mp hi with hi | hi
              · have hx : i = mi := by injection hi
                exact Or.inl hx
              · rcases List.mem_append.mp hi with hi | hi
                · rcases List.mem_map.mp hi with ⟨x, hxm, hx⟩
                  have hxi : x = i := by injection hx
                  exact Or.inr (Or.inl (hxi ▸ hxm))
                · rcases List.mem_map.mp hi with ⟨x, hxm, hx⟩
                  have hxi : x = i := by injection hx
                  exact Or.inr (Or.inr (hxi ▸ hxm))

/-- Claim C1 counterexample: the invariant "every toggle button mirrors its
item's expanded class" does not survive every handler.  On the fixture
document it holds, yet the expand branch of `onTouchLink` (touching
collapsed item B's link) removes the class from expanded sibling item A
without refreshing item A's button, leaving the document out of sync. -/
theorem claim_C1_counterexample :
    buttonsInSync wCls wLc wLe [0] wDom = true
      ∧ (onTouchLink defaultOptions [0] wDom 6).map
          (fun pr => buttonsInSync wCls wLc wLe [0] pr.1) = some false := by
  exact ⟨by decide, by decide⟩

/-- Claim C1 (amended): the button/class sync invariant over the configured
menus is preserved by the focus handlers (both focusin and focusout), by a
mousedown on a toggle button, by the Escape handler, and by the touch
handler when the touched item is already expanded (its collapse and
pass-through branches); the expand branch of the touch handler is excluded,
as the counterexample shows it can break the invariant. -/
theorem claim_C1 (opts : List (String × JVal)) (menus : List Nat) (d : DOM)
    (cls lc le : String)
    (hcls : getOption opts ["expanded_class"] = JVal.jstr cls)
    (hlbl : getOption opts ["button_attributes", "aria-label"]
      = JVal.jobj [("collapse", JVal.jstr lc), ("expand", JVal.jstr le)])
    (hbm : isMode opts "button" = some true)
    (hnd : (d.elems.map (fun e => e.id)).Nodup)
    (hsync : buttonsInSync cls lc le menus d = true) :
    (∀ evType target l d',
        walkToMenu d menus (walkFuel d) target = some l →
        (∀ p ∈ l.filter (fun i => matchesHaspopup d i), syncSafe d p = true) →
        ((parentOf d target).map (fun x => syncSafe d x)).getD true = true →
        onFocus opts menus d evType target = some d' →
        buttonsInSync cls lc le menus d' = true)
      ∧ (∀ kc target mi sibs lw d' prevented,
          parentOf d target = some mi →
          getSiblings d mi = some sibs →
          walkToMenu d menus (walkFuel d) mi = some lw →
          syncSafe d mi = true →
          (∀ s ∈ sibs, syncSafe d s = true) →
          (∀ p ∈ lw.filter (fun i => matchesHaspopup d i), syncSafe d p = true) →
          onClickButton opts menus d "mousedown" kc target = some (d', prevented) →
          buttonsInSync cls lc le menus d' = true)
      ∧ (∀ d', (∀ e ∈ d.elems, inMenus d menus e.id = true → syncSafe d e.id = true) →
          onKeyESC opts menus d 27 = some d' →
          buttonsInSync cls lc le menus d' = true)
      ∧ (∀ target mi d' prevented,
          parentOf d target = some mi →
          hasClass d mi cls = true →
          syncSafe d mi = true →
          onTouchLink opts menus d target = some (d', prevented) →
          buttonsInSync cls lc le menus d' = true) := by
  refine ⟨?_, ?_, ?_, ?_⟩
  · intro evType target l d' hw1 hsafep hsafet hrun1
    obtain ⟨script, hrs, hcov, hchar⟩ := onFocus_script hcls hlbl hbm hnd hw1 hrun1
    have hsafeS : ∀ i, MOp.syncB i ∈ script → syncSafe d i = true := by
      intro i hi
      rcases hchar i hi with hi | hi
      · exact hsafep i hi
      · rw [hi] at hsafet
        simpa using hsafet
    have hp := runScript_pres hcls hlbl hnd hrs hcov hsafeS
    exact buttonsInSync_transfer hp.2.1 hp.1 hp.2.2 hsync
  · intro kc target mi sibs lw d' prevented hpt hsib hw1 hsafemi hsafesibs hsafew hrun1
    obtain ⟨script, hrs, hcov, hchar⟩ :=
      onClickButton_script hcls hlbl hnd hpt hsib hw1 hrun1
    have hsafeS : ∀ i, MOp.syncB i ∈ script → syncSafe d i = true := by
      intro i hi
      rcases hchar i hi with hi | hi | hi
      · rw [hi]
        exact hsafemi
      · exact hsafesibs i hi
      · exact hsafew i hi
    have hp := runScript_pres hcls hlbl hnd hrs hcov hsafeS
    exact buttonsInSync_transfer hp.2.1 hp.1 hp.2.2 hsync
  · intro d' hsafes hrun2
    unfold onKeyESC at hrun2
    rw [if_pos rfl, hcls] at hrun2
    have hrun3 : menus.foldlM (escMenuStep opts cls) d = some d' := hrun2
    have hfold := escMenus_fold hcls hlbl hbm menus d d' hnd (fun m hm => hm) hsafes hrun3
    exact buttonsInSync_transfer hfold.2.1 hfold.1 (fun k => hfold.2.2.2.2 k) hsync
  · intro target mi d' prevented hpt hexp hsafemi hrun1
    unfold onTouchLink at hrun1
    rw [hcls] at hrun1
    simp only [Option.bind_eq_bind, Option.some_bind, jvalToString] at hrun1
    rw [hpt] at hrun1
    simp only [Option.some_bind] at hrun1
    rw [hexp] at hrun1
    simp only [Bool.not_true] at hrun1
    rw [if_neg Bool.false_ne_true] at hrun1
    by_cases ha : d.active = some target
    · rw [if_neg (not_not_intro ha)] at hrun1
      simp only [Option.pure_def, Option.some.injEq, Prod.mk.injEq] at hrun1
      rw [← hrun1.1]
      exact hsync
    · rw [if_pos ha] at hrun1
      rcases h1 : classRemove d mi cls with _ | d1
      · rw [h1] at hrun1
        simp only [Option.none_bind] at hrun1
        cases hrun1
      · rw [h1] at hrun1
        simp only [Option.some_bind] at hrun1
        rw [hbm] at hrun1
        simp only [Option.some_bind, Option.pure_def, Option.some.injEq,
          Prod.mk.injEq] at hrun1
        rw [if_pos trivial] at hrun1
        have hfr1 := classRemove_frame h1
        have hpt1 : parentOf d1 target = some mi := by
          rw [hfr1.1 target, hpt]
        have hrs : runScript opts cls [MOp.rmC mi, MOp.syncB mi] d = some d' := by
          rw [runScript_cons]
          simp only [runOp]
          rw [h1]
          simp only [Option.some_bind]
          rw [runScript_cons]
          simp only [runOp, Option.some_bind, runScript_nil]
          rw [← hpt1, hrun1.1]
        have hcov : covered [MOp.rmC mi, MOp.syncB mi] = true := by
          rw [covered_rmC_cons, needSync_syncB_cons]
          simp [covered, needSync, List.contains_cons]
        have hsafeS : ∀ i, MOp.syncB i ∈ [MOp.rmC mi, MOp.syncB mi] →
            syncSafe d i = true := by
          intro i hi
          rcases List.mem_cons.mp hi with hi | hi
          · exact MOp.noConfusion hi
          · rcases List.mem_cons.mp hi with hi | hi
            · have hx : i = mi := by injection hi
              rw [hx]
              exact hsafemi
            · exact absurd hi (List.not_mem_nil _)
        have hp := runScript_pres hcls hlbl hnd hrs hcov hsafeS
        exact buttonsInSync_transfer hp.2.1 hp.1 hp.2.2 hsync

/-- Witness for the amended C1 on the fixture document: the focusin run at
the submenu link preserves the sync invariant. -/
theorem claim_C1_witness :
    buttonsInSync wCls wLc wLe [0] wDom = true
      ∧ buttonsInSync wCls wLc wLe [0]
          ((onFocus defaultOptions [0] wDom "focusin" 9).getD wDom) = true :=
  ⟨by decide,
    (claim_C1 defaultOptions [0] wDom wCls wLc wLe rfl rfl rfl (by decide) (by decide)).1
      "focusin" 9 [9, 4, 1] ((onFocus defaultOptions [0] wDom "focusin" 9).getD wDom)
      rfl (by decide) (by decide) rfl⟩

/-- `setOptions` succeeds whenever every `expanded_class` override is a
string (the only value `.replace` is called on). -/
theorem setOptions_ok :
    ∀ (config : List (String × JVal)) (start : List (String × JVal)),
      (∀ kv ∈ config, kv.1 = "expanded_class" → ∃ s, kv.2 = JVal.jstr s) →
      ∃ opts, config.foldlM setOptionsStep start = some opts := by
  intro config
  induction config with
  | nil =>
    intro start _
    exact ⟨start, rfl⟩
  | cons kv rest ih =>
    intro start hec
    have hstep : ∃ o1, setOptionsStep start kv = some o1 := by
      unfold setOptionsStep
      by_cases hl : ((start.lookup kv.1).isSome = true)
      · rw [if_pos hl]
        by_cases hk : kv.1 = "expanded_class"
        · rw [if_pos hk]
          obtain ⟨s, hs⟩ := hec kv (List.mem_cons_self _ _) hk
          rw [hs]
          exact ⟨_, rfl⟩
        · rw [if_neg hk]
          exact ⟨_, rfl⟩
      · rw [if_neg hl]
        exact ⟨_, rfl⟩
    obtain ⟨o1, h1⟩ := hstep
    obtain ⟨opts, h2⟩ := ih o1 (fun kv2 hm => hec kv2 (List.mem_cons_of_mem _ hm))
    refine ⟨opts, ?_⟩
    rw [List.foldlM_cons, h1]
    exact h2

/-- The stored `mode` value stays an array or a string when every `mode`
override is. -/
theorem setOptions_mode_typed :
    ∀ (config : List (String × JVal)) (start opts : List (String × JVal)),
      config.foldlM setOptionsStep start = some opts →
      (∀ kv ∈ config, kv.1 = "mode" →
        (∃ xs, kv.2 = JVal.jarr xs) ∨ (∃ s, kv.2 = JVal.jstr s)) →
      (∀ v, start.lookup "mode" = some v →
        (∃ xs, v = JVal.jarr xs) ∨ (∃ s, v = JVal.jstr s)) →
      ∀ v, opts.lookup "mode" = some v →
        (∃ xs, v = JVal.jarr xs) ∨ (∃ s, v = JVal.jstr s) := by
  intro config
  induction config with
  | nil =>
    intro start opts h _ hstart v hv
    cases h
    exact hstart v hv
  | cons kv rest ih =>
    intro start opts h hc hstart v hv
    rw [List.foldlM_cons] at h
    rcases h1 : setOptionsStep start kv with _ | o1
    · rw [h1] at h
      cases h
    · rw [h1] at h
      apply ih o1 opts h (fun kv2 hm => hc kv2 (List.mem_cons_of_mem _ hm)) _ v hv
      intro w hw
      by_cases hk : kv.1 = "mode"
      · by_cases hs : ((start.lookup kv.1).isSome = true)
        · have hself := (setOptionsStep_self h1 hs).2 (by rw [hk]; decide)
          rw [hk] at hself
          rw [hself] at hw
          injection hw with hw2
          rw [← hw2]
          exact hc kv (List.mem_cons_self _ _) hk
        · have hid : o1 = start := by
            unfold setOptionsStep at h1
            rw [if_neg hs] at h1
            exact (Option.some.injEq _ _ ▸ h1).symm
          rw [hid] at hw
          exact hstart w hw
      · have hne : o1.lookup "mode" = start.lookup "mode" :=
          setOptionsStep_lookup_ne h1 (fun hc2 => hk hc2.symm)
        rw [hne] at hw
        exact hstart w hw

/-- `getButton` does not throw when `isMode` succeeds and every allowed
attribute name lower-cases to a valid attribute name. -/
theorem getButton_ok {opts : List (String × JVal)} (atts : JVal)
    {b : Bool} (hb : isMode opts "button" = some b)
    (hval : ∀ k ∈ jKeys atts, allowedAttrName k = true →
      validAttrName (lowerStr k) = true) :
    (getButton opts atts).isSome = true := by
  unfold getButton
  rcases htr : atts.truthy with _ | _
  · simp only [htr, Bool.false_eq_true, if_false]
    rfl
  · simp only [htr, if_true, Option.bind_eq_bind, hb, Option.some_bind]
    split
    · rfl
    · split
      · rfl
      · simp only [gbFoldM_eq (fun name => jvalToString (atts.getProp name)) (jKeys atts)
          [("aria-expanded", "false")] hval, Option.some_bind]
        rfl

/-- `find?` ignores an inserted element with a different id. -/
theorem find?_insertBeforeElem (d : DOM) (a : Nat) (e : ElemData) {j : Nat}
    (hne : e.id ≠ j) :
    (insertBeforeElem d a e).find? j = d.find? j := by
  show (d.elems.takeWhile (fun x => x.id ≠ a)
      ++ e :: d.elems.dropWhile (fun x => x.id ≠ a)).find? (fun x => x.id = j)
    = d.elems.find? (fun x => x.id = j)
  rw [List.find?_append, List.find?_cons_of_neg _ (by simp [hne]),
    ← List.find?_append, List.takeWhile_append_dropWhile]

/-- `parentNode` of an existing element is unchanged by an insertion with a
fresh id. -/
theorem parentOf_insertBeforeElem (d : DOM) (a : Nat) (e : ElemData) {j : Nat}
    (hne : e.id ≠ j) :
    parentOf (insertBeforeElem d a e) j = parentOf d j := by
  unfold parentOf
  rw [find?_insertBeforeElem d a e hne]

/-- Existing ids survive an insertion. -/
theorem mem_ids_insertBeforeElem (d : DOM) (a : Nat) (e : ElemData) {j : Nat}
    (hj : j ∈ d.elems.map (fun x => x.id)) :
    j ∈ (insertBeforeElem d a e).elems.map (fun x => x.id) := by
  rcases List.mem_map.mp hj with ⟨x, hx, hid⟩
  have hx2 : x ∈ d.elems.takeWhile (fun y => y.id ≠ a)
      ++ d.elems.dropWhile (fun y => y.id ≠ a) := by
    rw [List.takeWhile_append_dropWhile]
    exact hx
  show j ∈ (d.elems.takeWhile (fun y => y.id ≠ a)
      ++ e :: d.elems.dropWhile (fun y => y.id ≠ a)).map (fun x => x.id)
  rcases List.mem_append.mp hx2 with h | h
  · exact List.mem_map.mpr ⟨x, List.mem_append_left _ h, hid⟩
  · exact List.mem_map.mpr ⟨x, List.mem_append_right _ (List.mem_cons_of_mem _ h), hid⟩

/-- Every id after an insertion is the inserted one or an old one. -/
theorem mem_ids_insertBeforeElem_rev (d : DOM) (a : Nat) (e : ElemData) {i : Nat}
    (hi : i ∈ (insertBeforeElem d a e).elems.map (fun x => x.id)) :
    i = e.id ∨ i ∈ d.elems.map (fun x => x.id) := by
  have hi2 : i ∈ (d.elems.takeWhile (fun y => y.id ≠ a)
      ++ e :: d.elems.dropWhile (fun y => y.id ≠ a)).map (fun x => x.id) := hi
  rcases List.mem_map.mp hi2 with ⟨x, hx, hid⟩
  rcases List.mem_append.mp hx with h | h
  · exact Or.inr (List.mem_map.mpr ⟨x, (List.takeWhile_prefix _).subset h, hid⟩)
  · rcases List.mem_cons.mp h with h | h
    · subst h
      exact Or.inl hid.symm
    · exact Or.inr (List.mem_map.mpr ⟨x, (List.dropWhile_suffix _).subset h, hid⟩)

/-- The running maximum of `maxId` bounds every element id. -/
theorem foldl_max_le :
    ∀ (l : List ElemData) (a : Nat),
      a ≤ l.foldl (fun a e => max a e.id) a
        ∧ ∀ x ∈ l, x.id ≤ l.foldl (fun a e => max a e.id) a := by
  intro l
  induction l with
  | nil =>
    intro a
    exact ⟨Nat.le_refl _, fun x hx => absurd hx (List.not_mem_nil _)⟩
  | cons e es ih =>
    intro a
    rw [List.foldl_cons]
    refine ⟨Nat.le_trans (Nat.le_max_left a e.id) (ih (max a e.id)).1, ?_⟩
    intro x hx
    rcases List.mem_cons.mp hx with hx | hx
    · subst hx
      exact Nat.le_trans (Nat.le_max_right a x.id) (ih (max a x.id)).1
    · exact (ih (max a e.id)).2 x hx

/-- `maxId` bounds the id of every element of the document. -/
theorem le_maxId {d : DOM} {e : ElemData} (he : e ∈ d.elems) : e.id ≤ maxId d :=
  (foldl_max_le d.elems 0).2 e he

/-- A strict descendant has a parent. -/
theorem parentOf_isSome_of_isDescOf {d : DOM} {m k : Nat} (h : isDescOf d m k = true) :
    (parentOf d k).isSome = true := by
  unfold isDescOf ancestorIds at h
  rcases hn : d.elems.length with _ | n
  · rw [hn] at h
    simp [chainAux] at h
  · rw [hn] at h
    unfold chainAux at h
    rcases hp : parentOf d k with _ | p
    · rw [hp] at h
      simp at h
    · rfl

/-- An element with a parent is in the document. -/
theorem mem_ids_of_parentOf_isSome {d : DOM} {j : Nat}
    (h : (parentOf d j).isSome = true) :
    j ∈ d.elems.map (fun e => e.id) := by
  unfold parentOf at h
  rcases hf : d.find? j with _ | e
  · rw [hf] at h
    cases h
  · have hid : e.id = j := find?_id hf
    unfold DOM.find? at hf
    have hm := List.mem_of_find?_eq_some hf
    exact List.mem_map.mpr ⟨e, hm, hid⟩

/-- Closed form of one `initChildStep` run: the step succeeds and its
document and counter depend only on whether a button template exists. -/
theorem initChildStep_run {opts : List (String × JVal)}
    {button : Option (List (String × String))}
    {dA : DOM} {lsA : List Listener} {ctrA cm mi : Nat} {tb : Bool}
    (hp : parentOf dA cm = some mi) (ht : isMode opts "touch" = some tb) :
    ∃ acc', initChildStep opts button (dA, lsA, ctrA) cm = some acc'
      ∧ acc'.1 = (match button with
          | some battrs => insertBeforeElem (setAttr dA mi "aria-haspopup" "true") cm
              ⟨ctrA, "button", some mi, battrs, classListOfAttrs battrs⟩
          | none => setAttr dA mi "aria-haspopup" "true")
      ∧ acc'.2.2 = (match button with | some _ => ctrA + 1 | none => ctrA) := by
  cases button with
  | none =>
    rcases tb with _ | _
    · refine ⟨(setAttr dA mi "aria-haspopup" "true", lsA, ctrA), ?_, rfl, rfl⟩
      unfold initChildStep
      simp only [hp, ht, Option.bind_eq_bind, Option.some_bind, Option.pure_def,
        Bool.false_eq_true, if_false]
    · rcases hfd : firstDescMatching (setAttr dA mi "aria-haspopup" "true") mi linkMatch
          with _ | lk
      · refine ⟨(setAttr dA mi "aria-haspopup" "true", lsA, ctrA), ?_, rfl, rfl⟩
        unfold initChildStep
        simp only [hp, ht, hfd, Option.bind_eq_bind, Option.some_bind, Option.pure_def,
          if_true]
      · refine ⟨(setAttr dA mi "aria-haspopup" "true",
          lsA ++ [Listener.mk "touchstart" (some lk)], ctrA), ?_, rfl, rfl⟩
        unfold initChildStep
        simp only [hp, ht, hfd, Option.bind_eq_bind, Option.some_bind, Option.pure_def,
          if_true]
  | some battrs =>
    rcases tb with _ | _
    · refine ⟨(insertBeforeElem (setAttr dA mi "aria-haspopup" "true") cm
          ⟨ctrA, "button", some mi, battrs, classListOfAttrs battrs⟩,
          lsA ++ [Listener.mk "mousedown" (some ctrA), Listener.mk "keyup" (some ctrA)],
          ctrA + 1), ?_, rfl, rfl⟩
      unfold initChildStep
      simp only [hp, ht, Option.bind_eq_bind, Option.some_bind, Option.pure_def,
        Bool.false_eq_true, if_false]
    · rcases hfd : firstDescMatching (insertBeforeElem (setAttr dA mi "aria-haspopup" "true")
          cm ⟨ctrA, "button", some mi, battrs, classListOfAttrs battrs⟩) mi linkMatch
          with _ | lk
      · refine ⟨(insertBeforeElem (setAttr dA mi "aria-haspopup" "true") cm
            ⟨ctrA, "button", some mi, battrs, classListOfAttrs battrs⟩,
            lsA ++ [Listener.mk "mousedown" (some ctrA), Listener.mk "keyup" (some ctrA)],
            ctrA + 1), ?_, rfl, rfl⟩
        unfold initChildStep
        simp only [hp, ht, hfd, Option.bind_eq_bind, Option.some_bind, Option.pure_def,
          if_true]
      · refine ⟨(insertBeforeElem (setAttr dA mi "aria-haspopup" "true") cm
            ⟨ctrA, "button", some mi, battrs, classListOfAttrs battrs⟩,
            lsA ++ [Listener.mk "mousedown" (some ctrA), Listener.mk "keyup" (some ctrA)]
              ++ [Listener.mk "touchstart" (some lk)],
            ctrA + 1), ?_, rfl, rfl⟩
        unfold initChildStep
        simp only [hp, ht, hfd, Option.bind_eq_bind, Option.some_bind, Option.pure_def,
          if_true]

/-- One `initChildStep` succeeds on a fresh accumulator and keeps the
freshness invariant, old parents and old ids. -/
theorem initChildStep_ok {opts : List (String × JVal)}
    {button : Option (List (String × String))}
    (hmt : (isMode opts "touch").isSome = true)
    (dA : DOM) (lsA : List Listener) (ctrA cm : Nat)
    (hpar : (parentOf dA cm).isSome = true)
    (hfresh : ∀ i ∈ dA.elems.map (fun e => e.id), i < ctrA) :
    ∃ acc', initChildStep opts button (dA, lsA, ctrA) cm = some acc'
      ∧ (∀ i ∈ acc'.1.elems.map (fun e => e.id), i < acc'.2.2)
      ∧ (∀ j, j ∈ dA.elems.map (fun e => e.id) → parentOf acc'.1 j = parentOf dA j)
      ∧ (∀ j, j ∈ dA.elems.map (fun e => e.id) → j ∈ acc'.1.elems.map (fun e => e.id)) := by
  rcases hp : parentOf dA cm with _ | mi
  · rw [hp] at hpar
    cases hpar
  · rcases ht : isMode opts "touch" with _ | tb
    · rw [ht] at hmt
      cases hmt
    · obtain ⟨acc', hrun, hdom, hctr⟩ := initChildStep_run hp ht
      have hids1 : (setAttr dA mi "aria-haspopup" "true").elems.map (fun e => e.id)
          = dA.elems.map (fun e => e.id) := ids_overElem dA mi _ _
      have hpar1 : ∀ j, parentOf (setAttr dA mi "aria-haspopup" "true") j = parentOf dA j :=
        parentOf_overElem dA mi _ _
      refine ⟨acc', hrun, ?_, ?_, ?_⟩
      · intro i hi
        rw [hctr]
        cases button with
        | none =>
          simp only at hdom
          rw [hdom, hids1] at hi
          exact hfresh i hi
        | some battrs =>
          simp only at hdom
          rw [hdom] at hi
          rcases mem_ids_insertBeforeElem_rev _ _ _ hi with hi | hi
          · rw [hi]
            exact Nat.lt_succ_self _
          · rw [hids1] at hi
            exact Nat.lt_succ_of_lt (hfresh i hi)
      · intro j hj
        cases button with
        | none =>
          simp only at hdom
          rw [hdom, hpar1 j]
        | some battrs =>
          simp only at hdom
          rw [hdom, parentOf_insertBeforeElem _ _ _ (Nat.ne_of_gt (hfresh j hj)), hpar1 j]
      · intro j hj
        cases button with
        | none =>
          simp only at hdom
          rw [hdom, hids1]
          exact hj
        | some battrs =>
          simp only at hdom
          rw [hdom]
          apply mem_ids_insertBeforeElem
          rw [hids1]
          exact hj

/-- The `childMenus.forEach` fold succeeds and keeps freshness. -/
theorem initChildFold_ok {opts : List (String × JVal)}
    (button : Option (List (String × String)))
    (hmt : (isMode opts "touch").isSome = true) :
    ∀ (cms : List Nat) (dA : DOM) (lsA : List Listener) (ctrA : Nat),
      (∀ i ∈ dA.elems.map (fun e => e.id), i < ctrA) →
      (∀ cm ∈ cms, (parentOf dA cm).isSome = true) →
      ∃ acc', cms.foldlM (initChildStep opts button) (dA, lsA, ctrA) = some acc'
        ∧ (∀ i ∈ acc'.1.elems.map (fun e => e.id), i < acc'.2.2) := by
  intro cms
  induction cms with
  | nil =>
    intro dA lsA ctrA hf _
    exact ⟨(dA, lsA, ctrA), rfl, hf⟩
  | cons cm rest ih =>
    intro dA lsA ctrA hf hpars
    obtain ⟨acc1, h1, hf1, hpp, hmm⟩ :=
      initChildStep_ok hmt dA lsA ctrA cm (hpars cm (List.mem_cons_self _ _)) hf
    obtain ⟨d1, ls1, ctr1⟩ := acc1
    have hpars1 : ∀ x ∈ rest, (parentOf d1 x).isSome = true := by
      intro x hx
      have hps := hpars x (List.mem_cons_of_mem _ hx)
      have hxm : x ∈ dA.elems.map (fun e => e.id) := mem_ids_of_parentOf_isSome hps
      have := hpp x hxm
      simp only at this
      rw [this]
      exact hps
    obtain ⟨acc', h2, hf2⟩ := ih d1 ls1 ctr1 hf1 hpars1
    refine ⟨acc', ?_, hf2⟩
    rw [List.foldlM_cons, h1]
    exact h2

/-- One `initMenu` run succeeds on a fresh accumulator and keeps
freshness, provided the configured child selector parses and every allowed
button attribute name is valid. -/
theorem initMenu_ok {opts : List (String × JVal)}
    {sem : String → Option (ElemData → Bool)} {cp : ElemData → Bool}
    (hmods : ∀ m, (isMode opts m).isSome = true)
    (hcs : sem (jvalToString (getOption opts ["child_menu_selector"])) = some cp)
    (hbtn : ∀ k ∈ jKeys (getOption opts ["button_attributes"]),
      allowedAttrName k = true → validAttrName (lowerStr k) = true)
    (dA : DOM) (lsA : List Listener) (ctrA menuId : Nat)
    (hfresh : ∀ i ∈ dA.elems.map (fun e => e.id), i < ctrA) :
    ∃ acc', initMenu opts sem (dA, lsA, ctrA) menuId = some acc'
      ∧ (∀ i ∈ acc'.1.elems.map (fun e => e.id), i < acc'.2.2) := by
  have hred : initMenu opts sem (dA, lsA, ctrA) menuId
      = (if (((dA.elems.filter (fun e => isDescOf dA menuId e.id && cp e)).map
            (fun e => e.id)).isEmpty = true) then pure (dA, lsA, ctrA)
          else do
            let button ← getButton opts (getOption opts ["button_attributes"])
            let (d1, ls1, ctr1) ←
              ((dA.elems.filter (fun e => isDescOf dA menuId e.id && cp e)).map
                (fun e => e.id)).foldlM (initChildStep opts button) (dA, lsA, ctrA)
            let tm ← isMode opts "tab"
            let ls2 := if tm then ls1 ++ [Listener.mk "focusin" (some menuId),
              Listener.mk "focusout" (some menuId)] else ls1
            let em ← isMode opts "esc"
            let ls3 := if em then ls2 ++ [Listener.mk "keyup" none] else ls2
            pure (d1, ls3, ctr1)) := by
    show (sem (jvalToString (getOption opts ["child_menu_selector"]))).bind
        (fun cp2 =>
          if (((dA.elems.filter (fun e => isDescOf dA menuId e.id && cp2 e)).map
              (fun e => e.id)).isEmpty = true) then pure (dA, lsA, ctrA)
          else do
            let button ← getButton opts (getOption opts ["button_attributes"])
            let (d1, ls1, ctr1) ←
              ((dA.elems.filter (fun e => isDescOf dA menuId e.id && cp2 e)).map
                (fun e => e.id)).foldlM (initChildStep opts button) (dA, lsA, ctrA)
            let tm ← isMode opts "tab"
            let ls2 := if tm then ls1 ++ [Listener.mk "focusin" (some menuId),
              Listener.mk "focusout" (some menuId)] else ls1
            let em ← isMode opts "esc"
            let ls3 := if em then ls2 ++ [Listener.mk "keyup" none] else ls2
            pure (d1, ls3, ctr1)) = _
    rw [hcs]
    rfl
  rw [hred]
  by_cases hcm : (((dA.elems.filter (fun e => isDescOf dA menuId e.id && cp e)).map
      (fun e => e.id)).isEmpty = true)
  · rw [if_pos hcm]
    exact ⟨(dA, lsA, ctrA), rfl, hfresh⟩
  · rw [if_neg hcm]
    rcases hgb : getButton opts (getOption opts ["button_attributes"]) with _ | btn
    · have := getButton_ok (getOption opts ["button_attributes"])
        (Option.isSome_iff_exists.mp (hmods "button")).choose_spec hbtn
      rw [hgb] at this
      cases this
    · have hpars : ∀ cm ∈ (dA.elems.filter
          (fun e => isDescOf dA menuId e.id && cp e)).map (fun e => e.id),
          (parentOf dA cm).isSome = true := by
        intro cm hcm2
        rcases List.mem_map.mp hcm2 with ⟨e, he, hid⟩
        rcases List.mem_filter.mp he with ⟨_, hprop⟩
        rcases (Bool.and_eq_true _ _).mp hprop with ⟨hdesc, _⟩
        rw [← hid]
        exact parentOf_isSome_of_isDescOf hdesc
      obtain ⟨acc1, h1, hf1⟩ := initChildFold_ok btn (hmods "touch")
        ((dA.elems.filter (fun e => isDescOf dA menuId e.id && cp e)).map
          (fun e => e.id)) dA lsA ctrA hfresh hpars
      obtain ⟨d1, ls1, ctr1⟩ := acc1
      rcases htab : isMode opts "tab" with _ | tabb
      · have := hmods "tab"
        rw [htab] at this
        cases this
      · rcases hesc : isMode opts "esc" with _ | escb
        · have := hmods "esc"
          rw [hesc] at this
          cases this
        · refine ⟨(d1,
              (if escb = true then
                (if tabb = true then ls1 ++ [Listener.mk "focusin" (some menuId),
                  Listener.mk "focusout" (some menuId)] else ls1)
                  ++ [Listener.mk "keyup" none]
              else
                (if tabb = true then ls1 ++ [Listener.mk "focusin" (some menuId),
                  Listener.mk "focusout" (some menuId)] else ls1)),
              ctr1), ?_, ?_⟩
          · simp only [Option.bind_eq_bind, Option.some_bind]
            rw [h1]
            simp only [Option.some_bind]
            rfl
          · intro i hi
            exact hf1 i hi
  
/-- The `getMenus().forEach` fold of `init` succeeds on a fresh
accumulator when the child selector parses and every allowed button
attribute name is valid. -/
theorem initFold_ok {opts : List (String × JVal)}
    {sem : String → Option (ElemData → Bool)} {cp : ElemData → Bool}
    (hmods : ∀ m, (isMode opts m).isSome = true)
    (hcs : sem (jvalToString (getOption opts ["child_menu_selector"])) = some cp)
    (hbtn : ∀ k ∈ jKeys (getOption opts ["button_attributes"]),
      allowedAttrName k = true → validAttrName (lowerStr k) = true) :
    ∀ (ms : List Nat) (dA : DOM) (lsA : List Listener) (ctrA : Nat),
      (∀ i ∈ dA.elems.map (fun e => e.id), i < ctrA) →
      ∃ acc', ms.foldlM (initMenu opts sem) (dA, lsA, ctrA) = some acc'
        ∧ (∀ i ∈ acc'.1.elems.map (fun e => e.id), i < acc'.2.2) := by
  intro ms
  induction ms with
  | nil =>
    intro dA lsA ctrA hf
    exact ⟨(dA, lsA, ctrA), rfl, hf⟩
  | cons m rest ih =>
    intro dA lsA ctrA hf
    obtain ⟨acc1, h1, hf1⟩ := initMenu_ok hmods hcs hbtn dA lsA ctrA m hf
    obtain ⟨d1, ls1, ctr1⟩ := acc1
    obtain ⟨acc', h2, hf2⟩ := ih d1 ls1 ctr1 hf1
    refine ⟨acc', ?_, hf2⟩
    rw [List.foldlM_cons, h1]
    exact h2

/-- Claim C8 counterexample: a configuration is not free to hold anything —
a non-string `expanded_class` value makes `init` throw (the `.replace`
TypeError inside `setOptions`), modelled as `none`. -/
theorem claim_C8_counterexample :
    a11yInit wDom [("expanded_class", JVal.jnum 1)] wSem = none := by
  decide

/-- Claim C8 (amended): `init` completes without throwing whenever the
configuration is well-typed and well-formed where the script dereferences
it: every `expanded_class` override is a string (so `.replace` applies),
every `mode` override is an array or a string (so `indexOf` applies), the
stringified `menu_selector` (when truthy) and `child_menu_selector` are
selectors the engine parses (no `querySelectorAll` SyntaxError), and every
allowed `button_attributes` name lower-cases to a valid attribute name (no
`setAttribute` InvalidCharacterError).  Under those hypotheses `setOptions`
succeeds and the whole `init` run returns a document: absent menus, absent
child menus and an empty attribute object short-circuit as no-ops rather
than throwing. -/
theorem claim_C8 (d : DOM) (config : List (String × JVal))
    (sem : String → Option (ElemData → Bool))
    (hec : ∀ kv ∈ config, kv.1 = "expanded_class" → ∃ s, kv.2 = JVal.jstr s)
    (hmode : ∀ kv ∈ config, kv.1 = "mode" →
      (∃ xs, kv.2 = JVal.jarr xs) ∨ (∃ s, kv.2 = JVal.jstr s))
    (hsel : ∀ opts, setOptions config = some opts →
      ((getOption opts ["menu_selector"]).truthy = true →
        (sem (jvalToString (getOption opts ["menu_selector"]))).isSome = true)
        ∧ (sem (jvalToString (getOption opts ["child_menu_selector"]))).isSome = true)
    (hbtn : ∀ opts, setOptions config = some opts →
      ∀ k ∈ jKeys (getOption opts ["button_attributes"]),
        allowedAttrName k = true → validAttrName (lowerStr k) = true) :
    (setOptions config).isSome = true
      ∧ (a11yInit d config sem).isSome = true := by
  obtain ⟨opts, hso⟩ := setOptions_ok config defaultOptions hec
  have hso2 : setOptions config = some opts := hso
  constructor
  · rw [hso2]
    rfl
  · have hmty : ∀ v, opts.lookup "mode" = some v →
        (∃ xs, v = JVal.jarr xs) ∨ (∃ s, v = JVal.jstr s) := by
      apply setOptions_mode_typed config defaultOptions opts hso hmode
      intro v hv
      have hdef : defaultOptions.lookup "mode" = some (JVal.jarr
          [JVal.jstr "tab", JVal.jstr "esc", JVal.jstr "button", JVal.jstr "touch"]) := rfl
      rw [hdef] at hv
      injection hv with hv2
      exact Or.inl ⟨_, hv2.symm⟩
    have hlp : (opts.lookup "mode").isSome = true := by
      rw [setOptions_fold_isSome config defaultOptions opts hso "mode"]
      rfl
    have hmods : ∀ m, (isMode opts m).isSome = true := by
      intro m
      rcases hv : opts.lookup "mode" with _ | v
      · rw [hv] at hlp
        cases hlp
      · rcases hmty v hv with ⟨xs, hx⟩ | ⟨s, hx⟩
        · subst hx
          unfold isMode
          rw [getOption_single hv rfl]
          rfl
        · subst hx
          unfold isMode
          rw [getOption_single hv rfl]
          rfl
    unfold a11yInit
    rw [hso2]
    simp only [Option.bind_eq_bind, Option.some_bind]
    rcases hgm : getMenus d opts sem with _ | menus0
    · exfalso
      unfold getMenus at hgm
      by_cases ht : (getOption opts ["menu_selector"]).truthy = true
      · rw [if_pos ht] at hgm
        rcases hs : sem (jvalToString (getOption opts ["menu_selector"])) with _ | p
        · have h2 := (hsel opts hso2).1 ht
          rw [hs] at h2
          cases h2
        · rw [hs] at hgm
          simp at hgm
      · rw [if_neg ht] at hgm
        simp at hgm
    · simp only [Option.some_bind]
      rcases hc : (menus0.isEmpty
          || !(getOption opts ["expanded_class"]).truthy) with _ | _
      · rw [if_neg Bool.false_ne_true]
        have hfresh0 : ∀ i ∈ d.elems.map (fun e => e.id), i < maxId d + 1 := by
          intro i hi
          rcases List.mem_map.mp hi with ⟨e, he, hid⟩
          rw [← hid]
          exact Nat.lt_succ_of_le (le_maxId he)
        obtain ⟨cp, hcsv⟩ := Option.isSome_iff_exists.mp (hsel opts hso2).2
        obtain ⟨acc', hacc, _⟩ :=
          initFold_ok hmods hcsv (hbtn opts hso2) menus0 d [] (maxId d + 1) hfresh0
        obtain ⟨d1, ls1, ctr1⟩ := acc'
        rw [hacc]
        rfl
      · rw [if_pos rfl]
        rfl

/-- Witness for the amended C8: the empty configuration is well-typed, the
default selectors parse in the fixture selector engine, the default button
attribute names are valid, and `init` completes on the pre-initialisation
fixture document. -/
theorem claim_C8_witness :
    (setOptions ([] : List (String × JVal))).isSome = true
      ∧ (a11yInit wPreDom [] wSem).isSome = true :=
  claim_C8 wPreDom [] wSem
    (fun kv hkv => absurd hkv (List.not_mem_nil _))
    (fun kv hkv => absurd hkv (List.not_mem_nil _))
    (by
      intro opts hopts
      have h0 : some defaultOptions = some opts := hopts
      injection h0 with h2
      rw [← h2]
      decide)
    (by
      intro opts hopts
      have h0 : some defaultOptions = some opts := hopts
      injection h0 with h2
      rw [← h2]
      decide)
